import Mathlib

/-!
# Verification of the BlueprintAutoLayout core layout engine

This file gives a shallow embedding, in Lean 4, of the Sugiyama-style graph
layout core of the `ue5-blueprint-autolayout` repository
(`GraphLayout.cpp`, `GraphLayoutSugiyama.cpp`, `GraphLayoutPlacement.cpp`,
`GraphLayoutPlacementCompact.cpp` and the supporting headers), and proves or
refutes the frozen specification claims about it.

Modelling conventions:
* `int32` values are modelled as `Int` (`INDEX_NONE` is `-1`).
* `float`/`double` values are modelled as `ℚ` with exact arithmetic; the
  Unreal tolerance constants (`UE_SMALL_NUMBER = 1e-8`,
  `KINDA_SMALL_NUMBER = 1e-4`) are kept as exact rationals.
* `TArray` is `List`, indexed through the total helpers `lget`/`lset`
  (out-of-range reads return a default, as the claims never exercise
  out-of-range accesses except where noted).
* `TMap`/`TSet` are association lists in insertion order: `TMap::Add`
  replaces the value of an existing key in place and otherwise appends,
  matching Unreal's stable iteration order for add-only maps.
  `TMap<int32,int32>::FindRef` returns the default-constructed value `0`
  when the key is absent, which the embedding reproduces faithfully.
* `FName`/`FString` are `String` with Lean's string ordering (the code only
  needs a deterministic total order on them).
* `FGuid` CRC-based synthetic keys (`MakeDeterministicGuid`) are modelled
  with `String.hash` in place of `FCrc::StrCrc32`: an arbitrary fixed
  deterministic hash, since no settled claim depends on the numeric values
  of synthetic keys.
* Unbounded `while` loops are given explicit fuel which provably (or, for
  `RemoveCycles`, conjecturally) suffices; loops whose bound is static are
  structural.
-/

/-! ## Generic container helpers (TArray / TMap / TSet models) -/

/-- Total read of a `TArray` at an `int32` index (default out of range). -/
def lget (xs : List α) (i : Int) (d : α) : α :=
  if i < 0 then d else xs.getD i.toNat d

/-- Total write of a `TArray` at an `int32` index (no-op out of range). -/
def lset (xs : List α) (i : Int) (v : α) : List α :=
  if i < 0 then xs else xs.set i.toNat v

/-- Insert one element into a list sorted by a strict-less predicate,
after every element it is not strictly less than (stable insertion). -/
def insertBy (less : α → α → Bool) (x : α) : List α → List α
  | [] => [x]
  | y :: ys => if less x y then x :: y :: ys else y :: insertBy less x ys

/-- Stable sort by a strict-less predicate, modelling `TArray::Sort` for the
comparators of this code base (they are all strict total orders). -/
def sortBy (less : α → α → Bool) (xs : List α) : List α :=
  xs.foldl (fun acc x => insertBy less x acc) []

/-- `TMap` model: look up a key. -/
def tmapFind? (m : List (Int × β)) (k : Int) : Option β :=
  (m.find? (fun p => p.1 == k)).map (·.2)

/-- `TMap::Contains`. -/
def tmapContains (m : List (Int × β)) (k : Int) : Bool :=
  m.any (fun p => p.1 == k)

/-- `TMap::Add`: replace in place when the key exists, else append. -/
def tmapAdd (m : List (Int × β)) (k : Int) (v : β) : List (Int × β) :=
  if tmapContains m k then
    m.map (fun p => if p.1 == k then (k, v) else p)
  else
    m ++ [(k, v)]

/-- `TMap<int32,int32>::FindRef`: value of the key, or the
default-constructed value `0` when absent (this is the behaviour the
source code relies on, not `INDEX_NONE`). -/
def tmapFindRefInt (m : List (Int × Int)) (k : Int) : Int :=
  (tmapFind? m k).getD 0

/-- `TMap::FindOrAdd` (for list values): current value or `[]`. -/
def tmapFindOrAddList (m : List (Int × List Int)) (k : Int) : List Int :=
  (tmapFind? m k).getD []

/-- `TSet` model: membership. -/
def tsetContains (s : List Int) (k : Int) : Bool :=
  s.any (fun x => x == k)

/-- `TSet::Add`: append if new. -/
def tsetAdd (s : List Int) (k : Int) : List Int :=
  if tsetContains s k then s else s ++ [k]

/-- Sort-and-unique of an `int32` array: `Sort()` then `Algo::Unique`. -/
def dedupSortedIds (ids : List Int) : List Int :=
  (sortBy (fun a b => a < b) ids).destutter (· ≠ ·)

/-! ## Core data model (`GraphLayout.h`, `GraphLayoutSugiyama.h`) -/

/-- `FVector2f` with exact rational coordinates. -/
structure Vec2 where
  x : ℚ
  y : ℚ
deriving DecidableEq, Repr

def Vec2.zero : Vec2 := ⟨0, 0⟩

def Vec2.add (a b : Vec2) : Vec2 := ⟨a.x + b.x, a.y + b.y⟩

def Vec2.sub (a b : Vec2) : Vec2 := ⟨a.x - b.x, a.y - b.y⟩

/-- `FGuid`: four 32-bit words; only its total order and equality matter. -/
structure Guid where
  a : Nat
  b : Nat
  c : Nat
  d : Nat
deriving DecidableEq, Repr

/-- `FNodeKey`: stable node identity. -/
structure NodeKey where
  guid : Guid
deriving DecidableEq, Repr

/-- `EPinDirection`. -/
inductive PinDir where
  | input
  | output
deriving DecidableEq, Repr

/-- Numeric value used when pin directions are compared (`Input = 0`,
`Output = 1`). -/
def PinDir.val : PinDir → Int
  | .input => 0
  | .output => 1

/-- `FPinKey`. -/
structure PinKey where
  nodeKey : NodeKey
  dir : PinDir
  pinName : String
  pinIndex : Int
deriving DecidableEq, Repr

/-- `EEdgeKind`. -/
inductive EdgeKind where
  | exec
  | data
deriving DecidableEq, Repr

/-- `EBlueprintAutoLayoutRankAlignment`. -/
inductive RankAlignment where
  | left
  | center
  | right
deriving DecidableEq, Repr

/-! ### Key utilities (`GraphLayoutKeyUtils.h`) -/

/-- `KeyUtils::GuidLess`: lexicographic over the four words. -/
def guidLess (x y : Guid) : Bool :=
  if x.a ≠ y.a then x.a < y.a
  else if x.b ≠ y.b then x.b < y.b
  else if x.c ≠ y.c then x.c < y.c
  else x.d < y.d

/-- `KeyUtils::CompareNodeKey`. -/
def compareNodeKey (x y : NodeKey) : Int :=
  if x.guid ≠ y.guid then (if guidLess x.guid y.guid then -1 else 1) else 0

/-- `KeyUtils::NodeKeyLess`. -/
def nodeKeyLess (x y : NodeKey) : Bool :=
  compareNodeKey x y < 0

/-- `KeyUtils::ComparePinKey` applied to two `FPinKey`s
(`GraphLayoutSugiyama.h` wrapper). -/
def comparePinKey (x y : PinKey) : Int :=
  let c := compareNodeKey x.nodeKey y.nodeKey
  if c ≠ 0 then c
  else if x.dir.val ≠ y.dir.val then (if x.dir.val < y.dir.val then -1 else 1)
  else if x.pinName ≠ y.pinName then (if x.pinName < y.pinName then -1 else 1)
  else if x.pinIndex ≠ y.pinIndex then (if x.pinIndex < y.pinIndex then -1 else 1)
  else 0

/-- `PinKeyLess`. -/
def pinKeyLess (x y : PinKey) : Bool :=
  comparePinKey x y < 0

/-- `MakePinKey`. -/
def makePinKey (owner : NodeKey) (dir : PinDir) (pinName : String)
    (pinIndex : Int) : PinKey :=
  ⟨owner, dir, pinName, pinIndex⟩

/-- `KeyUtils::BuildNodeKeyString` (a stable textual rendering; the exact
digit format is irrelevant, only injectivity on the graphs at hand). -/
def buildNodeKeyString (k : NodeKey) : String :=
  toString k.guid.a ++ "-" ++ toString k.guid.b ++ "-" ++ toString k.guid.c
    ++ "-" ++ toString k.guid.d

/-- `BuildPinKeyString`. -/
def buildPinKeyString (k : PinKey) : String :=
  let dir := match k.dir with
    | .input => "I"
    | .output => "O"
  buildNodeKeyString k.nodeKey ++ "|" ++ dir ++ "|" ++ k.pinName ++ "|"
    ++ toString k.pinIndex

/-- `MakeDeterministicGuid`: four CRCs of decorated copies of the seed;
modelled with `String.hash` as the stand-in 32-bit mix. -/
def makeDeterministicGuid (seed : String) : Guid :=
  ⟨(String.hash seed).toNat, (String.hash (seed ++ "|A")).toNat,
    (String.hash (seed ++ "|B")).toNat, (String.hash (seed ++ "|C")).toNat⟩

/-- `MakeSyntheticNodeKey`. -/
def makeSyntheticNodeKey (seed : String) : NodeKey :=
  ⟨makeDeterministicGuid seed⟩

/-- `MakeDummyPinKey`. -/
def makeDummyPinKey (owner : NodeKey) (dir : PinDir) : PinKey :=
  makePinKey owner dir "Dummy" 0

/-! ### Input graph, settings, result (`GraphLayout.h`) -/

/-- `FLayoutNode`. -/
structure LayoutNode where
  id : Int := 0
  key : NodeKey := ⟨⟨0, 0, 0, 0⟩⟩
  name : String := ""
  size : Vec2 := Vec2.zero
  hasExecPins : Bool := false
  isVariableGet : Bool := false
  isReroute : Bool := false
  execInputPinCount : Int := 0
  execOutputPinCount : Int := 0
  inputPinCount : Int := 0
  outputPinCount : Int := 0
  position : Vec2 := Vec2.zero
  globalRank : Int := 0
  globalOrder : Int := 0
deriving DecidableEq, Repr

/-- A default-constructed `FLayoutNode` (all header defaults). -/
def defaultLayoutNode : LayoutNode := {}

/-- `FLayoutEdge`. -/
structure LayoutEdge where
  src : Int := -1
  dst : Int := -1
  srcPinIndex : Int := -1
  dstPinIndex : Int := -1
  srcPinName : String := ""
  dstPinName : String := ""
  kind : EdgeKind := .data
  stableKey : String := ""
deriving DecidableEq, Repr

/-- `FLayoutGraph`. -/
structure LayoutGraph where
  nodes : List LayoutNode := []
  edges : List LayoutEdge := []
deriving DecidableEq, Repr

/-- `BlueprintAutoLayout::Defaults`. -/
def defaultNodeSpacingX : ℚ := 300

def defaultNodeSpacingY : ℚ := 60

def defaultNodeSpacingXExec : ℚ := defaultNodeSpacingX

def defaultNodeSpacingXData : ℚ := defaultNodeSpacingX

def defaultNodeSpacingYExec : ℚ := defaultNodeSpacingY

def defaultNodeSpacingYData : ℚ := defaultNodeSpacingY

def defaultVariableGetMinLength : Int := 1

def defaultRankAlignment : RankAlignment := .center

/-- `FLayoutSettings` with its header default values. -/
structure LayoutSettings where
  nodeSpacingX : ℚ := defaultNodeSpacingX
  nodeSpacingXExec : ℚ := defaultNodeSpacingXExec
  nodeSpacingXData : ℚ := defaultNodeSpacingXData
  nodeSpacingYExec : ℚ := defaultNodeSpacingYExec
  nodeSpacingYData : ℚ := defaultNodeSpacingYData
  variableGetMinLength : Int := defaultVariableGetMinLength
  rankAlignment : RankAlignment := defaultRankAlignment
  alignExecChainsHorizontally : Bool := false
deriving DecidableEq, Repr

/-- `FBox2f` initialised by `ForceInit` is the invalid/empty box; `+=` with a
corner box either installs or merges.  Modelled as an optional min/max pair. -/
def boxAdd (b : Option (Vec2 × Vec2)) (mn mx : Vec2) : Option (Vec2 × Vec2) :=
  match b with
  | none => some (mn, mx)
  | some (a, c) =>
      some (⟨min a.x mn.x, min a.y mn.y⟩, ⟨max c.x mx.x, max c.y mx.y⟩)

/-- `FLayoutComponentResult`. -/
structure LayoutComponentResult where
  nodePositions : List (Int × Vec2) := []
  bounds : Option (Vec2 × Vec2) := none
deriving DecidableEq, Repr

/-- `UE_SMALL_NUMBER`, default tolerance of `FMath::IsNearlyEqual`. -/
def smallNumber : ℚ := 1 / 100000000

/-- `KINDA_SMALL_NUMBER`. -/
def kindaSmallNumber : ℚ := 1 / 10000

/-- `FMath::IsNearlyEqual` with the default tolerance. -/
def isNearlyEqual (a b : ℚ) : Bool :=
  |a - b| ≤ smallNumber

/-- `MAX_int32`. -/
def maxInt32 : Int := 2147483647

/-! ### Sugiyama working graph (`GraphLayoutSugiyama.h`) -/

/-- `FSugiyamaNode`. -/
structure SugiyamaNode where
  id : Int := -1
  key : NodeKey := ⟨⟨0, 0, 0, 0⟩⟩
  name : String := ""
  outputPinCount : Int := 0
  inputPinCount : Int := 0
  execOutputPinCount : Int := 0
  execInputPinCount : Int := 0
  hasExecPins : Bool := false
  isVariableGet : Bool := false
  isReroute : Bool := false
  size : Vec2 := Vec2.zero
  rank : Int := 0
  order : Int := 0
  isDummy : Bool := false
  sourceIndex : Int := -1
deriving DecidableEq, Repr

def defaultSugiyamaNode : SugiyamaNode := {}

/-- `FSugiyamaEdge`. -/
structure SugiyamaEdge where
  src : Int := -1
  dst : Int := -1
  srcPin : PinKey := ⟨⟨⟨0, 0, 0, 0⟩⟩, .input, "", 0⟩
  dstPin : PinKey := ⟨⟨⟨0, 0, 0, 0⟩⟩, .input, "", 0⟩
  srcPinIndex : Int := 0
  dstPinIndex : Int := 0
  kind : EdgeKind := .data
  stableKey : String := ""
  minLen : Int := 1
  reversed : Bool := false
deriving DecidableEq, Repr

def defaultSugiyamaEdge : SugiyamaEdge := {}

/-- `FSugiyamaGraph`. -/
structure SugiyamaGraph where
  nodes : List SugiyamaNode := []
  edges : List SugiyamaEdge := []
deriving DecidableEq, Repr

/-- `FGlobalPlacement`. -/
structure GlobalPlacement where
  positions : List (Int × Vec2) := []
  anchorNodeIndex : Int := -1
deriving DecidableEq, Repr

/-! ## Sugiyama passes (`GraphLayout.cpp`) -/

/-- `0 ≤ i < n`, i.e. `TArray::IsValidIndex`. -/
def isValidIndex (n : Nat) (i : Int) : Bool :=
  decide (0 ≤ i) && decide (i < (n : Int))

/-- `InsertSortedByNodeKey`: insert a node index into a list kept sorted by
node key. -/
def insertSortedByNodeKey (nodes : List SugiyamaNode) :
    List Int → Int → List Int
  | [], nodeIndex => [nodeIndex]
  | x :: xs, nodeIndex =>
      if nodeKeyLess (lget nodes x defaultSugiyamaNode).key
          (lget nodes nodeIndex defaultSugiyamaNode).key then
        x :: insertSortedByNodeKey nodes xs nodeIndex
      else
        nodeIndex :: x :: xs

/-- Per-node lists of out-edge indices before the deterministic sort
(edges grouped by source, self-loops skipped, in edge-index order). -/
def buildOutEdgesRaw (g : SugiyamaGraph) : List (List Int) :=
  (List.range g.edges.length).foldl
    (fun acc ei =>
      let e := g.edges.getD ei defaultSugiyamaEdge
      if e.src == e.dst then acc
      else lset acc e.src (lget acc e.src [] ++ [(ei : Int)]))
    (List.replicate g.nodes.length ([] : List Int))

/-- Comparator of `BuildOutEdges`: source pin key, then destination node
key, then stable key, then edge index. -/
def outEdgeLess (g : SugiyamaGraph) (a b : Int) : Bool :=
  let ea := lget g.edges a defaultSugiyamaEdge
  let eb := lget g.edges b defaultSugiyamaEdge
  let c := comparePinKey ea.srcPin eb.srcPin
  if c ≠ 0 then c < 0
  else
    let c := compareNodeKey (lget g.nodes ea.dst defaultSugiyamaNode).key
      (lget g.nodes eb.dst defaultSugiyamaNode).key
    if c ≠ 0 then c < 0
    else if ea.stableKey ≠ eb.stableKey then
      decide (ea.stableKey < eb.stableKey)
    else a < b

/-- `BuildOutEdges`: adjacency by source node, deterministically sorted. -/
def buildOutEdges (g : SugiyamaGraph) : List (List Int) :=
  (buildOutEdgesRaw g).map (sortBy (outEdgeLess g))

/-- `EdgeHasFiniteMaxLen`: an edge carries a `MaxLen` bound when either
endpoint lacks control-flow pins. -/
def edgeHasFiniteMaxLen (g : SugiyamaGraph) (e : SugiyamaEdge) : Bool :=
  if e.src == e.dst then false
  else
    let sn := lget g.nodes e.src defaultSugiyamaNode
    let dn := lget g.nodes e.dst defaultSugiyamaNode
    !sn.hasExecPins || !dn.hasExecPins

/-- `BuildVariableGetDestCounts`: unique destination count per
variable-get source. -/
def buildVariableGetDestCounts (g : SugiyamaGraph) : List Int :=
  let n := g.nodes.length
  let pairs := g.edges.foldl
    (fun acc e =>
      if e.src == e.dst then acc
      else if !(isValidIndex n e.src) || !(isValidIndex n e.dst) then acc
      else if !(lget g.nodes e.src defaultSugiyamaNode).isVariableGet then acc
      else acc ++ [(e.src, e.dst)])
    ([] : List (Int × Int))
  let sorted := sortBy
    (fun a b => if a.1 ≠ b.1 then a.1 < b.1 else a.2 < b.2) pairs
  (sorted.foldl
    (fun (st : List Int × Int × Int) p =>
      let (counts, prevSrc, prevDst) := st
      if p.1 == prevSrc && p.2 == prevDst then st
      else
        ((if isValidIndex n p.1 then
            lset counts p.1 (lget counts p.1 0 + 1)
          else counts), p.1, p.2))
    (List.replicate n (0 : Int), -1, -1)).1

/-- `GetEdgeMinLength`. -/
def getEdgeMinLength (g : SugiyamaGraph) (e : SugiyamaEdge)
    (variableGetMinLength : Int) (destCounts : List Int) : Int :=
  let n := g.nodes.length
  if !(isValidIndex n e.src) || !(isValidIndex n e.dst) then 1
  else
    let sn := lget g.nodes e.src defaultSugiyamaNode
    if sn.hasExecPins then 1
    else if !sn.isVariableGet then 1
    else if isValidIndex destCounts.length e.src
        && decide (lget destCounts e.src 0 > 1) then 1
    else max 0 variableGetMinLength

/-- `UpdateEdgeMinLengths`: cache the resolved min length on every edge. -/
def updateEdgeMinLengths (g : SugiyamaGraph)
    (variableGetMinLength : Int) : SugiyamaGraph :=
  let destCounts := buildVariableGetDestCounts g
  { g with
    edges := g.edges.map
      (fun e => { e with
        minLen := getEdgeMinLength g e variableGetMinLength destCounts }) }

/-- `GraphUsesFiniteMaxLen`. -/
def graphUsesFiniteMaxLen (g : SugiyamaGraph) : Bool :=
  g.edges.any (edgeHasFiniteMaxLen g)

/-- `InDegree` array of `AssignLayers` (self-loops skipped). -/
def computeInDegrees (g : SugiyamaGraph) : List Int :=
  g.edges.foldl
    (fun acc e =>
      if e.src == e.dst then acc
      else lset acc e.dst (lget acc e.dst 0 + 1))
    (List.replicate g.nodes.length (0 : Int))

/-- One dequeue step of Kahn's algorithm: relax the out-edges of the node,
inserting newly zero-indegree destinations into the sorted queue. -/
def kahnRelax (g : SugiyamaGraph) (edgeIdxs : List Int)
    (queue : List Int) (indeg : List Int) : List Int × List Int :=
  edgeIdxs.foldl
    (fun (st : List Int × List Int) ei =>
      let (q, ind) := st
      let e := lget g.edges ei defaultSugiyamaEdge
      let ind2 := lset ind e.dst (lget ind e.dst 0 - 1)
      if lget ind2 e.dst 0 == 0 then
        (insertSortedByNodeKey g.nodes q e.dst, ind2)
      else (q, ind2))
    (queue, indeg)

/-- The Kahn dequeue loop of `AssignLayers`.  The fuel
`nodes + edges + 1` provably suffices (each node is enqueued at most once
via its unique indegree-zero transition; invalid destinations can be
enqueued at most once per edge). -/
def kahnLoop (g : SugiyamaGraph) (outEdges : List (List Int)) :
    Nat → List Int → List Int → List Int → List Bool → List Int × List Bool
  | 0, _, _, topo, inTopo => (topo, inTopo)
  | fuel + 1, queue, indeg, topo, inTopo =>
      match queue with
      | [] => (topo, inTopo)
      | nodeIndex :: rest =>
          let topo2 := topo ++ [nodeIndex]
          let inTopo2 := lset inTopo nodeIndex true
          let st := kahnRelax g (lget outEdges nodeIndex []) rest indeg
          kahnLoop g outEdges fuel st.1 st.2 topo2 inTopo2

/-- The deterministic topological order of `AssignLayers`: Kahn seeded by
node-key order, with unreached nodes appended in node-key order. -/
def topoOrderOf (g : SugiyamaGraph) (outEdges : List (List Int)) : List Int :=
  let n := g.nodes.length
  let indeg := computeInDegrees g
  let queue := (List.range n).foldl
    (fun q (i : Nat) =>
      if lget indeg (i : Int) 0 == 0 then
        insertSortedByNodeKey g.nodes q (i : Int)
      else q) []
  let res := kahnLoop g outEdges (n + g.edges.length + 1) queue indeg []
    (List.replicate n false)
  let topo := res.1
  let inTopo := res.2
  if topo.length < n then
    let remaining := (List.range n).foldl
      (fun acc (i : Nat) => if lget inTopo (i : Int) false then acc
        else acc ++ [(i : Int)]) []
    let remainingSorted := sortBy
      (fun a b => nodeKeyLess (lget g.nodes a defaultSugiyamaNode).key
        (lget g.nodes b defaultSugiyamaNode).key) remaining
    topo ++ remainingSorted
  else topo

/-- The forward longest-path relaxation over the topological order
(identical in simple and constrained mode):
`RankBase[Dst] = max(RankBase[Dst], RankBase[Src] + MinLen)`. -/
def forwardRanks (g : SugiyamaGraph) (topo : List Int)
    (outEdges : List (List Int)) : List Int :=
  topo.foldl
    (fun rb nodeIndex =>
      (lget outEdges nodeIndex []).foldl
        (fun rb ei =>
          let e := lget g.edges ei defaultSugiyamaEdge
          lset rb e.dst (max (lget rb e.dst 0) (lget rb nodeIndex 0 + e.minLen)))
        rb)
    (List.replicate g.nodes.length (0 : Int))

/-- `FConstraintEdge` of constrained-mode `AssignLayers`. -/
structure ConstraintEdge where
  src : Int := -1
  dst : Int := -1
  weight : Int := 0
  bounded : Bool := false
deriving DecidableEq, Repr

/-- The forward constraint list, built in topological order. -/
def forwardConstraintsOf (g : SugiyamaGraph) (topo : List Int)
    (outEdges : List (List Int)) : List ConstraintEdge :=
  topo.foldl
    (fun acc nodeIndex =>
      (lget outEdges nodeIndex []).foldl
        (fun acc ei =>
          let e := lget g.edges ei defaultSugiyamaEdge
          if e.src == e.dst then acc
          else acc ++ [⟨e.src, e.dst, e.minLen, edgeHasFiniteMaxLen g e⟩])
        acc)
    []

/-- `SrcToDsts` and `SrcToConstraint` of the backward pass: per bounded
source, the list of all bounded destinations and (the weight of) the last
bounded constraint (`TMap::Add` replaces). -/
def srcMapsOf (cs : List ConstraintEdge) :
    List (Int × List Int) × List (Int × Int) :=
  cs.foldl
    (fun (st : List (Int × List Int) × List (Int × Int)) c =>
      if c.bounded = false then st
      else
        let (sd, sc) := st
        let lst := tmapFindOrAddList sd c.src
        (tmapAdd sd c.src (lst ++ [c.dst]), tmapAdd sc c.src c.weight))
    ([], [])

/-- One backward tightening sweep over the reversed topological order:
pull each bounded source's rank up to
`max(min(rank of bounded dsts) − weight, current rank)`. -/
def backwardSweep (topoRev : List Int) (sd : List (Int × List Int))
    (sc : List (Int × Int)) (rb : List Int) : List Int × Bool :=
  topoRev.foldl
    (fun (st : List Int × Bool) nodeIndex =>
      if ¬ tmapContains sd nodeIndex then st
      else
        let (rb, upd) := st
        let w := tmapFindRefInt sc nodeIndex
        let dsts := tmapFindOrAddList sd nodeIndex
        let m := dsts.foldl (fun m d => min m (lget rb d 0)) maxInt32
        let m2 := max (m - w) (lget rb nodeIndex 0)
        if m2 == lget rb nodeIndex 0 then (rb, upd)
        else (lset rb nodeIndex m2, true))
    (rb, false)

/-- The fixed ten backward sweeps (the source computes a change flag per
sweep but never breaks early on it). -/
def backwardPasses (topo : List Int) (sd : List (Int × List Int))
    (sc : List (Int × Int)) (rb : List Int) : List Int :=
  (List.range 10).foldl
    (fun rb _ => (backwardSweep topo.reverse sd sc rb).1) rb

/-- The rank array computed by `AssignLayers` (forward pass, plus the
backward tightening sweeps in constrained mode). -/
def assignLayersRanks (g : SugiyamaGraph) : List Int :=
  let out := buildOutEdges g
  let topo := topoOrderOf g out
  let rbF := forwardRanks g topo out
  if graphUsesFiniteMaxLen g then
    let fc := forwardConstraintsOf g topo out
    let maps := srcMapsOf fc
    backwardPasses topo maps.1 maps.2 rbF
  else rbF

/-- `AssignLayers`: write the ranks back and return the maximum rank. -/
def assignLayers (g : SugiyamaGraph) : SugiyamaGraph × Int :=
  if g.nodes.length == 0 then (g, 0)
  else
    let rb := assignLayersRanks g
    let nodes := (List.range g.nodes.length).map
      (fun i =>
        let nd := g.nodes.getD i defaultSugiyamaNode
        { nd with rank := lget rb (i : Int) 0 })
    let maxRank := rb.foldl (fun m r => max m r) 0
    ({ g with nodes := nodes }, maxRank)

/-- `AddTerminalExecTailNodes`: one synthetic exec tail (at the maximum
rank) per real terminal control-flow node below the maximum rank. -/
def addTerminalExecTailNodes (g : SugiyamaGraph) (maxRank : Int) :
    SugiyamaGraph :=
  if maxRank ≤ 0 ∨ g.nodes.isEmpty then g
  else
    let n := g.nodes.length
    let outExec := g.edges.foldl
      (fun acc e =>
        if e.kind ≠ .exec then acc
        else if e.src == e.dst then acc
        else if !(isValidIndex n e.src) then acc
        else lset acc e.src (lget acc e.src 0 + 1))
      (List.replicate n (0 : Int))
    (List.range n).foldl
      (fun (acc : SugiyamaGraph) i =>
        let node := g.nodes.getD i defaultSugiyamaNode
        if node.isDummy || !node.hasExecPins then acc
        else if lget outExec (i : Int) 0 > 0 then acc
        else if node.rank ≥ maxRank then acc
        else
          let tailSeed := "ExecTail|" ++ buildNodeKeyString node.key
          let tailKey := makeSyntheticNodeKey tailSeed
          let tail : SugiyamaNode :=
            { id := (acc.nodes.length : Int), key := tailKey, name := "Dummy",
              inputPinCount := 1, outputPinCount := 0,
              execInputPinCount := 1, execOutputPinCount := 0,
              hasExecPins := true, size := Vec2.zero, rank := maxRank,
              order := 0, isDummy := true }
          let tailEdge : SugiyamaEdge :=
            { src := (i : Int), dst := tail.id,
              srcPin := makeDummyPinKey node.key .output,
              dstPin := makeDummyPinKey tailKey .input,
              srcPinIndex := 0, dstPinIndex := 0, kind := .exec,
              minLen := 1, stableKey := tailSeed }
          { nodes := acc.nodes ++ [tail], edges := acc.edges ++ [tailEdge] })
      g

/-- One dummy-insertion step of the splitting chain of `SplitLongEdges`
(loop body for `Step = stepIdx + 1`). -/
def splitChainStep (e : SugiyamaEdge) (srcRank : Int)
    (st2 : List SugiyamaNode × List SugiyamaEdge × Int) (stepIdx : Nat) :
    List SugiyamaNode × List SugiyamaEdge × Int :=
  let nodes := st2.1
  let segs := st2.2.1
  let prev := st2.2.2
  let isExec := e.kind == EdgeKind.exec
  let step := (stepIdx : Int) + 1
  let dummyKey := makeSyntheticNodeKey
    ("Dummy|" ++ e.stableKey ++ "|" ++ toString step)
  let dummy : SugiyamaNode :=
    { id := (nodes.length : Int), key := dummyKey, name := "Dummy",
      inputPinCount := 1, outputPinCount := 1,
      execInputPinCount := if isExec then 1 else 0,
      execOutputPinCount := if isExec then 1 else 0,
      hasExecPins := isExec, size := Vec2.zero,
      rank := srcRank + step, order := 0, isDummy := true }
  let seg : SugiyamaEdge :=
    { src := prev, dst := dummy.id,
      srcPin := if prev == e.src then e.srcPin
        else makeDummyPinKey
          (lget nodes prev defaultSugiyamaNode).key .output,
      srcPinIndex := if prev == e.src then e.srcPinIndex else 0,
      dstPin := makeDummyPinKey dummyKey .input, dstPinIndex := 0,
      kind := e.kind, minLen := e.minLen,
      stableKey := e.stableKey ++ "|seg" ++ toString step }
  (nodes ++ [dummy], segs ++ [seg], dummy.id)

/-- Per-edge step of `SplitLongEdges`: keep short edges, otherwise emit the
dummy chain and the closing edge to the original destination. -/
def splitLongEdgesStep (st : List SugiyamaNode × List SugiyamaEdge)
    (e : SugiyamaEdge) : List SugiyamaNode × List SugiyamaEdge :=
  let nodes := st.1
  let newEdges := st.2
  let srcRank := (lget nodes e.src defaultSugiyamaNode).rank
  let dstRank := (lget nodes e.dst defaultSugiyamaNode).rank
  let rankDiff := dstRank - srcRank
  if rankDiff ≤ 1 then (nodes, newEdges ++ [e])
  else
    let chain := (List.range (rankDiff - 1).toNat).foldl
      (splitChainStep e srcRank) (nodes, [], e.src)
    let finalEdge : SugiyamaEdge :=
      { src := chain.2.2, dst := e.dst,
        srcPin := makeDummyPinKey
          (lget chain.1 chain.2.2 defaultSugiyamaNode).key .output,
        srcPinIndex := 0, dstPin := e.dstPin,
        dstPinIndex := e.dstPinIndex, kind := e.kind, minLen := e.minLen,
        stableKey := e.stableKey ++ "|seg" ++ toString rankDiff }
    (chain.1, newEdges ++ chain.2.1 ++ [finalEdge])

/-- `SplitLongEdges`: replace each edge spanning more than one rank by a
chain of synthetic dummy nodes, one per intermediate rank. -/
def splitLongEdges (g : SugiyamaGraph) : SugiyamaGraph :=
  let res := g.edges.foldl splitLongEdgesStep (g.nodes, [])
  { nodes := res.1, edges := res.2 }

/-! ## Cycle removal (`GraphLayout.cpp`, `RemoveCycles`) -/

/-- Effective source of an edge under its temporary-reversal flag. -/
def effSrc (e : SugiyamaEdge) : Int := if e.reversed then e.dst else e.src

/-- Effective destination. -/
def effDst (e : SugiyamaEdge) : Int := if e.reversed then e.src else e.dst

/-- Effective source pin. -/
def effSrcPin (e : SugiyamaEdge) : PinKey :=
  if e.reversed then e.dstPin else e.srcPin

/-- Effective destination pin. -/
def effDstPin (e : SugiyamaEdge) : PinKey :=
  if e.reversed then e.srcPin else e.dstPin

/-- Effective adjacency before the deterministic sort (`BuildEffectiveOutEdges`,
grouping phase; effective self-loops skipped). -/
def buildEffectiveOutEdgesRaw (g : SugiyamaGraph) : List (List Int) :=
  (List.range g.edges.length).foldl
    (fun acc ei =>
      let e := g.edges.getD ei defaultSugiyamaEdge
      if effSrc e == effDst e then acc
      else lset acc (effSrc e) (lget acc (effSrc e) [] ++ [(ei : Int)]))
    (List.replicate g.nodes.length ([] : List Int))

/-- Comparator of `BuildEffectiveOutEdges`: effective source pin, effective
destination node key, stable key, edge index. -/
def effOutEdgeLess (g : SugiyamaGraph) (a b : Int) : Bool :=
  let ea := lget g.edges a defaultSugiyamaEdge
  let eb := lget g.edges b defaultSugiyamaEdge
  let c := comparePinKey (effSrcPin ea) (effSrcPin eb)
  if c ≠ 0 then c < 0
  else
    let c := compareNodeKey (lget g.nodes (effDst ea) defaultSugiyamaNode).key
      (lget g.nodes (effDst eb) defaultSugiyamaNode).key
    if c ≠ 0 then c < 0
    else if ea.stableKey ≠ eb.stableKey then
      decide (ea.stableKey < eb.stableKey)
    else a < b

/-- `BuildEffectiveOutEdges`. -/
def buildEffectiveOutEdges (g : SugiyamaGraph) : List (List Int) :=
  (buildEffectiveOutEdgesRaw g).map (sortBy (effOutEdgeLess g))

/-- `EVisitState`. -/
inductive VisitState where
  | unvisited
  | visiting
  | done
deriving DecidableEq, Repr

/-- `FStackEntry` of the iterative DFS. -/
structure StackEntry where
  nodeIndex : Int
  nextEdge : Int
deriving DecidableEq, Repr

/-- The iterative DFS of `RemoveCycles` for one start node: walk effective
out-edges, collecting edges that point into a currently-`Visiting` node.
The fuel `2·nodes + edges + 2` always suffices (each node is pushed at most
once per pass, and each stack-top step either pops or advances one
`NextEdge`). -/
def dfsLoop (g : SugiyamaGraph) (out : List (List Int)) :
    Nat → List StackEntry → List VisitState → List Int →
      List VisitState × List Int
  | 0, _, vs, back => (vs, back)
  | fuel + 1, stack, vs, back =>
      match stack with
      | [] => (vs, back)
      | entry :: rest =>
          let edges := lget out entry.nodeIndex []
          if entry.nextEdge ≥ (edges.length : Int) then
            dfsLoop g out fuel rest (lset vs entry.nodeIndex .done) back
          else
            let ei := lget edges entry.nextEdge (-1)
            let e := lget g.edges ei defaultSugiyamaEdge
            let nxt := if e.reversed then e.src else e.dst
            let stack2 := { entry with nextEdge := entry.nextEdge + 1 } :: rest
            if lget vs nxt .unvisited == .unvisited then
              dfsLoop g out fuel (⟨nxt, 0⟩ :: stack2) (lset vs nxt .visiting) back
            else if lget vs nxt .unvisited == .visiting then
              dfsLoop g out fuel stack2 vs (back ++ [ei])
            else
              dfsLoop g out fuel stack2 vs back

/-- One full multi-source DFS pass of `RemoveCycles`, returning every back
edge found (start nodes in node-key order). -/
def removeCyclesDfs (g : SugiyamaGraph) (out : List (List Int))
    (nodeOrder : List Int) : List Int :=
  (nodeOrder.foldl
    (fun (st : List VisitState × List Int) start =>
      if !(lget st.1 start .unvisited == .unvisited) then st
      else
        dfsLoop g out (2 * g.nodes.length + g.edges.length + 2)
          [⟨start, 0⟩] (lset st.1 start .visiting) st.2)
    (List.replicate g.nodes.length VisitState.unvisited, [])).2

/-- `IsEdgeLess` of `RemoveCycles`: effective source key, effective source
pin, effective destination key, effective destination pin, edge index. -/
def backEdgeLess (g : SugiyamaGraph) (a b : Int) : Bool :=
  let ea := lget g.edges a defaultSugiyamaEdge
  let eb := lget g.edges b defaultSugiyamaEdge
  let c := compareNodeKey (lget g.nodes (effSrc ea) defaultSugiyamaNode).key
    (lget g.nodes (effSrc eb) defaultSugiyamaNode).key
  if c ≠ 0 then c < 0
  else
    let c := comparePinKey (effSrcPin ea) (effSrcPin eb)
    if c ≠ 0 then c < 0
    else
      let c := compareNodeKey
        (lget g.nodes (effDst ea) defaultSugiyamaNode).key
        (lget g.nodes (effDst eb) defaultSugiyamaNode).key
      if c ≠ 0 then c < 0
      else
        let c := comparePinKey (effDstPin ea) (effDstPin eb)
        if c ≠ 0 then c < 0
        else a < b

/-- Pick the lexicographically smallest back edge. -/
def chooseBestBackEdge (g : SugiyamaGraph) (back : List Int) : Int :=
  match back with
  | [] => -1
  | b0 :: _ => back.foldl (fun best ei =>
      if backEdgeLess g ei best then ei else best) b0

/-- The flip-and-restart loop of `RemoveCycles`.  The fuel `2^edges + 1`
covers every possible sequence of distinct reversal configurations; whether
the underlying C++ loop terminates on every input (i.e. whether a
configuration can repeat) is exactly the open question of claim C4, and
nothing proved below relies on this fuel being reached. -/
def removeCyclesLoop (nodeOrder : List Int) :
    Nat → SugiyamaGraph → SugiyamaGraph
  | 0, g => g
  | fuel + 1, g =>
      let out := buildEffectiveOutEdges g
      let back := removeCyclesDfs g out nodeOrder
      if back.isEmpty then g
      else
        let best := chooseBestBackEdge g back
        let e := lget g.edges best defaultSugiyamaEdge
        removeCyclesLoop nodeOrder fuel
          { g with edges := lset g.edges best { e with reversed := !e.reversed } }

/-- `RemoveCycles`. -/
def removeCycles (g : SugiyamaGraph) : SugiyamaGraph :=
  if g.nodes.length < 2 ∨ g.edges.isEmpty then g
  else
    let nodeOrder := sortBy
      (fun a b => nodeKeyLess (lget g.nodes a defaultSugiyamaNode).key
        (lget g.nodes b defaultSugiyamaNode).key)
      ((List.range g.nodes.length).map Int.ofNat)
    removeCyclesLoop nodeOrder (2 ^ g.edges.length + 1) g

/-- `ApplyEdgeDirections`: commit reversal flags by swapping endpoints and
pin metadata. -/
def applyEdgeDirections (g : SugiyamaGraph) : SugiyamaGraph :=
  { g with
    edges := g.edges.map
      (fun e =>
        if !e.reversed then e
        else
          { e with
            src := e.dst
            dst := e.src
            srcPin := e.dstPin
            dstPin := e.srcPin
            srcPinIndex := e.dstPinIndex
            dstPinIndex := e.srcPinIndex
            reversed := false }) }

/-! ## Initial order and crossing reduction (`GraphLayoutSugiyama.cpp`) -/

/-- Comparator of `AssignInitialOrder`: control-flow-bearing nodes first,
then larger control-flow fan-out, then node key. -/
def execLayerLess (g : SugiyamaGraph) (a b : Int) : Bool :=
  let na := lget g.nodes a defaultSugiyamaNode
  let nb := lget g.nodes b defaultSugiyamaNode
  if na.hasExecPins ≠ nb.hasExecPins then na.hasExecPins
  else if na.hasExecPins && decide (na.execOutputPinCount ≠ nb.execOutputPinCount)
  then decide (na.execOutputPinCount > nb.execOutputPinCount)
  else nodeKeyLess na.key nb.key

/-- `AssignInitialOrder`: group nodes by rank, sort each layer, persist the
orders onto the nodes; returns the graph and the per-rank lists. -/
def assignInitialOrder (g : SugiyamaGraph) (maxRank : Int) :
    SugiyamaGraph × List (List Int) :=
  let numRanks := (maxRank + 1).toNat
  let grouped := (List.range g.nodes.length).foldl
    (fun acc i =>
      let r := (g.nodes.getD i defaultSugiyamaNode).rank
      if 0 ≤ r ∧ r < (numRanks : Int) then
        lset acc r (lget acc r [] ++ [(i : Int)])
      else acc)
    (List.replicate numRanks ([] : List Int))
  let rankNodes := grouped.map (sortBy (execLayerLess g))
  let nodes := rankNodes.foldl
    (fun nodes layer =>
      (List.range layer.length).foldl
        (fun nodes o =>
          let i := lget layer (o : Int) (-1)
          lset nodes i { (lget nodes i defaultSugiyamaNode) with
            order := (o : Int) })
        nodes)
    g.nodes
  ({ g with nodes := nodes }, rankNodes)

/-- In-edge and out-edge index lists used by the barycenter sweeps
(self-loops skipped, unsorted). -/
def crInOutEdges (g : SugiyamaGraph) : List (List Int) × List (List Int) :=
  (List.range g.edges.length).foldl
    (fun (st : List (List Int) × List (List Int)) ei =>
      let e := g.edges.getD ei defaultSugiyamaEdge
      if e.src == e.dst then st
      else
        (lset st.1 e.dst (lget st.1 e.dst [] ++ [(ei : Int)]),
         lset st.2 e.src (lget st.2 e.src [] ++ [(ei : Int)])))
    (List.replicate g.nodes.length ([] : List Int),
     List.replicate g.nodes.length ([] : List Int))

/-- Sweep direction, standing in for the two policy structs. -/
inductive SweepDir where
  | fwd
  | bwd
deriving DecidableEq, Repr

/-- `NeighborRankDelta`. -/
def sweepDelta : SweepDir → Int
  | .fwd => -1
  | .bwd => 1

/-- `GetNeighborIndex`. -/
def sweepNeighborIndex (d : SweepDir) (e : SugiyamaEdge) : Int :=
  match d with
  | .fwd => e.src
  | .bwd => e.dst

/-- `GetPinKey`. -/
def sweepPinKey (d : SweepDir) (e : SugiyamaEdge) : PinKey :=
  match d with
  | .fwd => e.srcPin
  | .bwd => e.dstPin

/-- `GetPinIndex`. -/
def sweepPinIndex (d : SweepDir) (e : SugiyamaEdge) : Int :=
  match d with
  | .fwd => e.srcPinIndex
  | .bwd => e.dstPinIndex

/-- `GetPinCount`. -/
def sweepPinCount (d : SweepDir) (n : SugiyamaNode) : Int :=
  match d with
  | .fwd => n.outputPinCount
  | .bwd => n.inputPinCount

/-- `ShouldSkip` of the two policies. -/
def sweepShouldSkip (d : SweepDir) (e : SugiyamaEdge) (nb : SugiyamaNode)
    (skipDataPins : Bool) : Bool :=
  match d with
  | .fwd => nb.execOutputPinCount == 0 && !(e.kind == EdgeKind.exec)
  | .bwd => skipDataPins &&
      (e.kind == EdgeKind.exec || decide (nb.execInputPinCount > 0))

/-- `GetPinOffset`: fractional pin offset for the barycenter. -/
def getPinOffset (pinIndex pinCount : Int) : ℚ :=
  (pinIndex : ℚ) / ((max 1 pinCount : Int) : ℚ)

/-- `FOrderItem`. -/
structure OrderItem where
  nodeIndex : Int
  barycenter : ℚ
  neighborCount : Int
deriving DecidableEq, Repr

/-- Barycenter of one node during a sweep. -/
def computeBarycenter (g : SugiyamaGraph) (d : SweepDir) (skipDataPins : Bool)
    (edgeList : List Int) (rank : Int) (nodeIndex : Int) : OrderItem :=
  let node := lget g.nodes nodeIndex defaultSugiyamaNode
  let nbrEdges := edgeList.filter
    (fun ei =>
      let e := lget g.edges ei defaultSugiyamaEdge
      (lget g.nodes (sweepNeighborIndex d e) defaultSugiyamaNode).rank ==
        rank + sweepDelta d)
  let nbrEdges := sortBy
    (fun a b => pinKeyLess (sweepPinKey d (lget g.edges a defaultSugiyamaEdge))
      (sweepPinKey d (lget g.edges b defaultSugiyamaEdge))) nbrEdges
  let sc := nbrEdges.foldl
    (fun (sc : ℚ × Int) ei =>
      let e := lget g.edges ei defaultSugiyamaEdge
      let nb := lget g.nodes (sweepNeighborIndex d e) defaultSugiyamaNode
      if sweepShouldSkip d e nb skipDataPins then sc
      else
        (sc.1 + (nb.order : ℚ) +
          getPinOffset (sweepPinIndex d e) (sweepPinCount d nb), sc.2 + 1))
    (0, 0)
  if sc.2 == 0 then ⟨nodeIndex, (node.order : ℚ), 0⟩
  else ⟨nodeIndex, sc.1 / ((sc.2 : Int) : ℚ), sc.2⟩

/-- One rank step of `RunSweep`: recompute barycenters, re-sort the layer by
(barycenter, node key) and reassign orders. -/
def runSweepRank (d : SweepDir) (skipDataPins : Bool)
    (edgesFor : Int → List Int) (st : SugiyamaGraph × List (List Int))
    (rank : Int) : SugiyamaGraph × List (List Int) :=
  let g := st.1
  let rankNodes := st.2
  let layer := lget rankNodes rank []
  if layer.isEmpty then st
  else
    let items := layer.map
      (fun i => computeBarycenter g d skipDataPins (edgesFor i) rank i)
    let items := sortBy
      (fun (a b : OrderItem) =>
        if a.barycenter ≠ b.barycenter then a.barycenter < b.barycenter
        else nodeKeyLess (lget g.nodes a.nodeIndex defaultSugiyamaNode).key
          (lget g.nodes b.nodeIndex defaultSugiyamaNode).key) items
    let newLayer := items.map (·.nodeIndex)
    let nodes := (List.range items.length).foldl
      (fun nodes idx =>
        let i := (items.getD idx ⟨-1, 0, 0⟩).nodeIndex
        lset nodes i { (lget nodes i defaultSugiyamaNode) with
          order := (idx : Int) })
      g.nodes
    ({ g with nodes := nodes }, lset rankNodes rank newLayer)

/-- `RunSweep` over a list of ranks. -/
def runSweep (d : SweepDir) (skipDataPins : Bool) (edgesFor : Int → List Int)
    (ranks : List Int) (st : SugiyamaGraph × List (List Int)) :
    SugiyamaGraph × List (List Int) :=
  ranks.foldl (runSweepRank d skipDataPins edgesFor) st

/-- Forward sweep rank sequence: `1, 2, …, MaxRank`. -/
def fwdRanks (maxRank : Int) : List Int :=
  (List.range maxRank.toNat).map (fun k => (k : Int) + 1)

/-- Backward sweep rank sequence: `MaxRank − 1, …, 0`. -/
def bwdRanks (maxRank : Int) : List Int :=
  (List.range maxRank.toNat).map (fun k => maxRank - 1 - (k : Int))

/-- Comparator used by `SortRankByOrder` (and by the compact placement):
explicit order first, node key as tie-break. -/
def orderThenKeyLess (nodes : List SugiyamaNode) (a b : Int) : Bool :=
  let na := lget nodes a defaultSugiyamaNode
  let nb := lget nodes b defaultSugiyamaNode
  if na.order ≠ nb.order then na.order < nb.order
  else nodeKeyLess na.key nb.key

/-- The stack walk of `AppendNodeAndSources` inside
`ApplyMinLenZeroOrdering` (fuel `nodes + edges + 2` always suffices: each
processed stack entry is popped, and pushes happen only when a node is
newly added). -/
def amzStack (g : SugiyamaGraph) (byDst : List (Int × List Int)) :
    Nat → List Int → List Int → List Int → List Int × List Int
  | 0, _, added, newLayer => (added, newLayer)
  | fuel + 1, stack, added, newLayer =>
      match stack with
      | [] => (added, newLayer)
      | nodeIndex :: rest =>
          if tsetContains added nodeIndex then
            amzStack g byDst fuel rest added newLayer
          else
            let added2 := tsetAdd added nodeIndex
            let newLayer2 := newLayer ++ [nodeIndex]
            match tmapFind? byDst nodeIndex with
            | none => amzStack g byDst fuel rest added2 newLayer2
            | some lst =>
                let stack2 :=
                  lst.map (fun ei => (lget g.edges ei defaultSugiyamaEdge).src)
                    ++ rest
                amzStack g byDst fuel stack2 added2 newLayer2

/-- `ApplyMinLenZeroOrdering`: group each min-len-zero same-rank source
immediately after its destination, chaining recursively. -/
def applyMinLenZeroOrdering (g : SugiyamaGraph)
    (rankNodes : List (List Int)) : SugiyamaGraph × List (List Int) :=
  let n := g.nodes.length
  let maps := (List.range g.edges.length).foldl
    (fun (st : List (Int × List Int) × List Int) ei =>
      let e := g.edges.getD ei defaultSugiyamaEdge
      if e.src == e.dst then st
      else if e.minLen ≠ 0 then st
      else if !(isValidIndex n e.src) || !(isValidIndex n e.dst) then st
      else
        let sn := lget g.nodes e.src defaultSugiyamaNode
        let dn := lget g.nodes e.dst defaultSugiyamaNode
        if sn.isDummy || dn.isDummy then st
        else if sn.rank ≠ dn.rank then st
        else
          (tmapAdd st.1 e.dst (tmapFindOrAddList st.1 e.dst ++ [(ei : Int)]),
           tsetAdd st.2 e.src))
    ([], [])
  let byDst := maps.1.map
    (fun p => (p.1, sortBy
      (fun a b =>
        let ea := lget g.edges a defaultSugiyamaEdge
        let eb := lget g.edges b defaultSugiyamaEdge
        if ea.dstPinIndex ≠ eb.dstPinIndex then ea.dstPinIndex < eb.dstPinIndex
        else nodeKeyLess (lget g.nodes ea.src defaultSugiyamaNode).key
          (lget g.nodes eb.src defaultSugiyamaNode).key) p.2))
  let zeroLenSources := maps.2
  let fuel := g.nodes.length + g.edges.length + 2
  let res := rankNodes.foldl
    (fun (st : List SugiyamaNode × List (List Int)) layer =>
      let (nodes, layersAcc) := st
      if layer.isEmpty then (nodes, layersAcc ++ [layer])
      else
        let w1 := layer.foldl
          (fun (aw : List Int × List Int) nodeIndex =>
            if tsetContains aw.1 nodeIndex then aw
            else if tsetContains zeroLenSources nodeIndex then aw
            else amzStack g byDst fuel [nodeIndex] aw.1 aw.2)
          ([], [])
        let w2 := layer.foldl
          (fun (aw : List Int × List Int) nodeIndex =>
            if tsetContains aw.1 nodeIndex then aw
            else amzStack g byDst fuel [nodeIndex] aw.1 aw.2)
          w1
        let newLayer := w2.2
        let nodes2 := (List.range newLayer.length).foldl
          (fun nodes idx =>
            let i := lget newLayer (idx : Int) (-1)
            lset nodes i { (lget nodes i defaultSugiyamaNode) with
              order := (idx : Int) })
          nodes
        (nodes2, layersAcc ++ [newLayer]))
    (g.nodes, [])
  ({ g with nodes := res.1 }, res.2)

/-- `RunCrossingReduction`: the fixed alternating barycenter sweeps followed
by the min-len-zero grouping pass. -/
def runCrossingReduction (g : SugiyamaGraph) (maxRank numSweeps : Int)
    (rankNodes : List (List Int)) : SugiyamaGraph × List (List Int) :=
  if maxRank ≤ 0 ∨ numSweeps ≤ 0 then (g, rankNodes)
  else
    let inOut := crInOutEdges g
    let inE := inOut.1
    let outE := inOut.2
    let res := (List.range numSweeps.toNat).foldl
      (fun (st : SugiyamaGraph × List (List Int)) sweep =>
        let st := runSweep .fwd false (fun i => lget inE i [])
          (fwdRanks maxRank) st
        let st := if (sweep : Int) < numSweeps - 1 then
            runSweep .bwd true (fun i => lget outE i []) (bwdRanks maxRank) st
          else st
        let st := if (sweep : Int) < numSweeps - 2 then
            runSweep .bwd false (fun i => lget outE i []) (bwdRanks maxRank) st
          else st
        (st.1, st.2.map (sortBy (orderThenKeyLess st.1.nodes))))
      (g, rankNodes)
    applyMinLenZeroOrdering res.1 res.2

/-- `kSugiyamaSweeps`. -/
def kSugiyamaSweeps : Int := 8

/-- `RunSugiyama`: the full pipeline on the Sugiyama working graph. -/
def runSugiyama (g : SugiyamaGraph) (numSweeps variableGetMinLength : Int) :
    SugiyamaGraph × Int :=
  let g := removeCycles g
  let g := applyEdgeDirections g
  let g := updateEdgeMinLengths g variableGetMinLength
  let al := assignLayers g
  let g := addTerminalExecTailNodes al.1 al.2
  let g := splitLongEdges g
  let maxRank := g.nodes.foldl (fun m nd => max m nd.rank) al.2
  let io := assignInitialOrder g maxRank
  let cr := runCrossingReduction io.1 maxRank numSweeps io.2
  (cr.1, maxRank)

/-! ## Working-graph builder and orchestrator (`GraphLayout.cpp`) -/

def defaultLayoutEdge : LayoutEdge := {}

/-- Result of `BuildWorkNodes` (success flag, work nodes, id→index map,
optional error message). -/
structure BuildWorkNodesResult where
  success : Bool := true
  nodes : List LayoutNode := []
  idToIndex : List (Int × Int) := []
  error : Option String := none
deriving DecidableEq, Repr

/-- The graph-id to graph-index lookup built at the top of
`BuildWorkNodes`. -/
def graphIdToIndexOf (g : LayoutGraph) : List (Int × Int) :=
  (List.range g.nodes.length).foldl
    (fun m i => tmapAdd m (g.nodes.getD i defaultLayoutNode).id (i : Int)) []

/-- The work node copied from the graph node at `graphIndex` by
`BuildWorkNodes` (sizes clamped non-negative, ranks reset). -/
def workNodeOf (g : LayoutGraph) (graphIndex : Int) : LayoutNode :=
  let gn := lget g.nodes graphIndex defaultLayoutNode
  { id := gn.id, key := gn.key, name := gn.name,
    size := ⟨max 0 gn.size.x, max 0 gn.size.y⟩,
    position := gn.position, hasExecPins := gn.hasExecPins,
    isVariableGet := gn.isVariableGet,
    execInputPinCount := gn.execInputPinCount,
    execOutputPinCount := gn.execOutputPinCount,
    inputPinCount := gn.inputPinCount,
    outputPinCount := gn.outputPinCount,
    globalRank := 0, globalOrder := 0 }

/-- The per-id loop body of `BuildWorkNodes`. -/
def buildWorkNodesStep (g : LayoutGraph) (graphIdToIndex : List (Int × Int))
    (st : BuildWorkNodesResult) (nodeId : Int) : BuildWorkNodesResult :=
  if st.success = false then st
  else
    let graphIndex := tmapFindRefInt graphIdToIndex nodeId
    if graphIndex == -1 then
      { st with
        success := false
        error := some ("Missing node id in layout graph: "
          ++ toString nodeId ++ ".") }
    else
      let node := workNodeOf g graphIndex
      { st with
        idToIndex := tmapAdd st.idToIndex node.id (st.nodes.length : Int)
        nodes := st.nodes ++ [node] }

/-- `BuildWorkNodes`.  Note: the missing-node branch compares
`TMap::FindRef` (which yields `0` for an absent key) against `INDEX_NONE`,
so it can never be taken — the embedding reproduces this faithfully. -/
def buildWorkNodes (g : LayoutGraph) (componentNodeIds : List Int) :
    BuildWorkNodesResult :=
  (dedupSortedIds componentNodeIds).foldl
    (buildWorkNodesStep g (graphIdToIndexOf g))
    { success := true, nodes := [], idToIndex := [], error := none }

/-- `TryHandleSingleNode`: fast path returning the lone node's original
position unchanged. -/
def tryHandleSingleNode (nodes : List LayoutNode)
    (res : LayoutComponentResult) : Option LayoutComponentResult :=
  if nodes.length ≠ 1 then none
  else
    let solo := nodes.getD 0 defaultLayoutNode
    some { res with
      nodePositions := tmapAdd res.nodePositions solo.id solo.position
      bounds := boxAdd res.bounds solo.position
        (Vec2.add solo.position solo.size) }

/-- `ResolveNodeSpacingX`: per-kind spacing, with the legacy single value
overriding both when only it was customised; clamped non-negative. -/
def resolveNodeSpacingX (s : LayoutSettings) : ℚ × ℚ :=
  let outExec := s.nodeSpacingXExec
  let outData := s.nodeSpacingXData
  let execDefault := isNearlyEqual outExec defaultNodeSpacingXExec
  let dataDefault := isNearlyEqual outData defaultNodeSpacingXData
  let legacyNonDefault := !(isNearlyEqual s.nodeSpacingX defaultNodeSpacingX)
  let p := if execDefault && dataDefault && legacyNonDefault then
      (s.nodeSpacingX, s.nodeSpacingX)
    else (outExec, outData)
  (max 0 p.1, max 0 p.2)

/-- `BuildWorkEdges`: re-express edges in component-local indices with
stable keys, then sort deterministically.  The endpoint filter has the same
dead `FindRef == INDEX_NONE` comparison as `BuildWorkNodes`. -/
def buildWorkEdges (g : LayoutGraph) (nodes : List LayoutNode)
    (localIdToIndex : List (Int × Int)) : List LayoutEdge :=
  let outEdges := g.edges.foldl
    (fun acc e =>
      let srcIndex := tmapFindRefInt localIdToIndex e.src
      let dstIndex := tmapFindRefInt localIdToIndex e.dst
      if srcIndex == -1 || dstIndex == -1 then acc
      else if srcIndex == dstIndex then acc
      else
        let srcPinIndex := max 0 e.srcPinIndex
        let dstPinIndex := max 0 e.dstPinIndex
        let srcPinKey := makePinKey (lget nodes srcIndex defaultLayoutNode).key
          .output e.srcPinName srcPinIndex
        let dstPinKey := makePinKey (lget nodes dstIndex defaultLayoutNode).key
          .input e.dstPinName dstPinIndex
        let localEdge : LayoutEdge :=
          { src := srcIndex, dst := dstIndex,
            srcPinIndex := srcPinIndex, dstPinIndex := dstPinIndex,
            srcPinName := e.srcPinName, dstPinName := e.dstPinName,
            kind := e.kind,
            stableKey := buildPinKeyString srcPinKey ++ "->"
              ++ buildPinKeyString dstPinKey }
        acc ++ [localEdge])
    ([] : List LayoutEdge)
  sortBy
    (fun (a b : LayoutEdge) =>
      if a.stableKey ≠ b.stableKey then decide (a.stableKey < b.stableKey)
      else if a.src ≠ b.src then a.src < b.src
      else if a.dst ≠ b.dst then a.dst < b.dst
      else a.srcPinIndex < b.srcPinIndex)
    outEdges

/-- `BuildSugiyamaGraph`. -/
def buildSugiyamaGraph (nodes : List LayoutNode) (edges : List LayoutEdge) :
    SugiyamaGraph :=
  { nodes := (List.range nodes.length).map
      (fun i =>
        let w := nodes.getD i defaultLayoutNode
        { id := (i : Int), key := w.key, name := w.name,
          execInputPinCount := max 0 w.execInputPinCount,
          execOutputPinCount := max 0 w.execOutputPinCount,
          inputPinCount := max 0 w.inputPinCount,
          outputPinCount := max 0 w.outputPinCount,
          hasExecPins := w.hasExecPins, isVariableGet := w.isVariableGet,
          size := w.size, sourceIndex := (i : Int) }),
    edges := edges.map
      (fun e =>
        { src := e.src, dst := e.dst,
          srcPin := makePinKey (lget nodes e.src defaultLayoutNode).key
            .output e.srcPinName e.srcPinIndex,
          dstPin := makePinKey (lget nodes e.dst defaultLayoutNode).key
            .input e.dstPinName e.dstPinIndex,
          srcPinIndex := e.srcPinIndex, dstPinIndex := e.dstPinIndex,
          kind := e.kind, stableKey := e.stableKey }) }

/-- `ApplySugiyamaRanks`: write non-dummy ranks/orders back onto the work
nodes (clamped non-negative), leaving every other field untouched. -/
def applySugiyamaRanks (sg : SugiyamaGraph) (nodes : List LayoutNode) :
    List LayoutNode :=
  let nodes := nodes.map (fun n => { n with globalRank := 0, globalOrder := 0 })
  sg.nodes.foldl
    (fun nodes sn =>
      if sn.isDummy || sn.sourceIndex == -1 then nodes
      else if !(isValidIndex nodes.length sn.sourceIndex) then nodes
      else
        lset nodes sn.sourceIndex
          { (lget nodes sn.sourceIndex defaultLayoutNode) with
            globalRank := max 0 sn.rank
            globalOrder := max 0 sn.order })
    nodes

/-- The primary-map loop body of `ApplyFinalPositions` (records the placed
index). -/
def afpPrimaryStep (anchorOffset : Vec2) (nodes : List LayoutNode)
    (st : List Int × LayoutComponentResult) (p : Int × Vec2) :
    List Int × LayoutComponentResult :=
  if !(isValidIndex nodes.length p.1) then st
  else
    let positioned := tsetAdd st.1 p.1
    let pos := Vec2.add p.2 anchorOffset
    let nd := lget nodes p.1 defaultLayoutNode
    (positioned,
     { st.2 with
       nodePositions := tmapAdd st.2.nodePositions nd.id pos
       bounds := boxAdd st.2.bounds pos (Vec2.add pos nd.size) })

/-- The secondary-map loop body of `ApplyFinalPositions` (skips indices the
primary map already placed). -/
def afpSecondaryStep (anchorOffset : Vec2) (nodes : List LayoutNode)
    (st : List Int × LayoutComponentResult) (p : Int × Vec2) :
    List Int × LayoutComponentResult :=
  if !(isValidIndex nodes.length p.1) || tsetContains st.1 p.1 then st
  else
    let pos := Vec2.add p.2 anchorOffset
    let nd := lget nodes p.1 defaultLayoutNode
    (st.1,
     { st.2 with
       nodePositions := tmapAdd st.2.nodePositions nd.id pos
       bounds := boxAdd st.2.bounds pos (Vec2.add pos nd.size) })

/-- `ApplyFinalPositions`: primary map first (tracking placed indices),
then the secondary map, adding the anchor offset to every position. -/
def applyFinalPositions (primary secondary : List (Int × Vec2))
    (anchorOffset : Vec2) (nodes : List LayoutNode)
    (res : LayoutComponentResult) : LayoutComponentResult :=
  let st1 := primary.foldl (afpPrimaryStep anchorOffset nodes) ([], res)
  (secondary.foldl (afpSecondaryStep anchorOffset nodes) st1).2

/-! ## Compact placement (`GraphLayoutPlacementCompact.cpp`) -/

/-- Clamped rank `max(0, GlobalRank)` used throughout the placement. -/
def clampRank (n : LayoutNode) : Int :=
  max 0 n.globalRank

/-- `FConstraint`: minimum vertical separation `Target ≥ Source + Delta`. -/
structure Constraint where
  target : Int := -1
  source : Int := -1
  delta : ℚ := 0
deriving DecidableEq, Repr

/-- Maximum clamped rank over the nodes. -/
def compactMaxRank (nodes : List LayoutNode) : Int :=
  nodes.foldl (fun m n => max m (clampRank n)) 0

/-- Per-rank column widths and horizontal spacing (maximum over the rank's
nodes of width resp. kind-appropriate spacing). -/
def compactRankWidthSpacing (nodes : List LayoutNode) (sxExec sxData : ℚ)
    (maxRank : Int) : List ℚ × List ℚ :=
  nodes.foldl
    (fun (st : List ℚ × List ℚ) n =>
      let r := clampRank n
      (lset st.1 r (max (lget st.1 r 0) n.size.x),
       lset st.2 r (max (lget st.2 r 0)
         (if n.hasExecPins then sxExec else sxData))))
    (List.replicate (maxRank + 1).toNat (0 : ℚ),
     List.replicate (maxRank + 1).toNat (0 : ℚ))

/-- Replace (near-)zero rank spacings by the combined default. -/
def compactFillSpacing (spacings : List ℚ) (sxExec sxData : ℚ) : List ℚ :=
  let defaultSpacingX := max sxExec sxData
  spacings.map (fun v => if v ≤ kindaSmallNumber then defaultSpacingX else v)

/-- Accumulated per-rank left edges. -/
def compactRankXLeft (widths spacings : List ℚ) : List ℚ :=
  ((List.range widths.length).foldl
    (fun (st : List ℚ × ℚ) r =>
      (st.1 ++ [st.2],
       st.2 + lget widths (r : Int) 0 + lget spacings (r : Int) 0))
    ([], 0)).1

/-- (GlobalOrder, node key) comparator used to sort each rank's layer. -/
def layoutOrderKeyLess (nodes : List LayoutNode) (a b : Int) : Bool :=
  let na := lget nodes a defaultLayoutNode
  let nb := lget nodes b defaultLayoutNode
  if na.globalOrder ≠ nb.globalOrder then na.globalOrder < nb.globalOrder
  else nodeKeyLess na.key nb.key

/-- Node indices grouped by clamped rank, each layer sorted by
(order, key). -/
def compactRankNodes (nodes : List LayoutNode) (maxRank : Int) :
    List (List Int) :=
  let grouped := (List.range nodes.length).foldl
    (fun acc i =>
      let r := clampRank (nodes.getD i defaultLayoutNode)
      lset acc r (lget acc r [] ++ [(i : Int)]))
    (List.replicate (maxRank + 1).toNat ([] : List Int))
  grouped.map (sortBy (layoutOrderKeyLess nodes))

/-- `IsPreferredExecEdge`: adjacent-rank sources first, then smallest
order, then the stable tie-break chain. -/
def isPreferredExecEdge (nodes : List LayoutNode) (edges : List LayoutEdge)
    (cand : LayoutEdge) (candIdx curIdx : Int) : Bool :=
  if curIdx == -1 then true
  else
    let cur := lget edges curIdx defaultLayoutEdge
    let dstRank := (lget nodes cand.dst defaultLayoutNode).globalRank
    let candAdj :=
      (lget nodes cand.src defaultLayoutNode).globalRank == dstRank - 1
    let curAdj :=
      (lget nodes cur.src defaultLayoutNode).globalRank == dstRank - 1
    if candAdj ≠ curAdj then candAdj
    else
      let candOrder := (lget nodes cand.src defaultLayoutNode).globalOrder
      let curOrder := (lget nodes cur.src defaultLayoutNode).globalOrder
      if candAdj && decide (candOrder ≠ curOrder) then
        decide (candOrder < curOrder)
      else if cand.src ≠ cur.src then
        nodeKeyLess (lget nodes cand.src defaultLayoutNode).key
          (lget nodes cur.src defaultLayoutNode).key
      else if cand.srcPinName ≠ cur.srcPinName then
        decide (cand.srcPinName < cur.srcPinName)
      else if cand.srcPinIndex ≠ cur.srcPinIndex then
        cand.srcPinIndex < cur.srcPinIndex
      else if cand.dstPinName ≠ cur.dstPinName then
        decide (cand.dstPinName < cur.dstPinName)
      else if cand.dstPinIndex ≠ cur.dstPinIndex then
        cand.dstPinIndex < cur.dstPinIndex
      else if cand.stableKey ≠ cur.stableKey then
        decide (cand.stableKey < cur.stableKey)
      else candIdx < curIdx

/-- The deterministically chosen incoming exec alignment edge per
destination node. -/
def execConstraintEdgeIndexOf (nodes : List LayoutNode)
    (edges : List LayoutEdge) : List Int :=
  (List.range edges.length).foldl
    (fun acc ei =>
      let e := edges.getD ei defaultLayoutEdge
      if !(e.kind == EdgeKind.exec) then acc
      else if !(isValidIndex nodes.length e.src)
          || !(isValidIndex nodes.length e.dst) then acc
      else if e.src == e.dst then acc
      else
        let cur := lget acc e.dst (-1)
        if isPreferredExecEdge nodes edges e (ei : Int) cur then
          lset acc e.dst (ei : Int)
        else acc)
    (List.replicate nodes.length (-1 : Int))

/-- `IsPreferredVariableGetDestination`. -/
def isPreferredVariableGetDestination (nodes : List LayoutNode)
    (cand cur : Int) : Bool :=
  if cur == -1 then true
  else
    let co := (lget nodes cand defaultLayoutNode).globalOrder
    let cu := (lget nodes cur defaultLayoutNode).globalOrder
    if co ≠ cu then co < cu
    else if nodeKeyLess (lget nodes cand defaultLayoutNode).key
        (lget nodes cur defaultLayoutNode).key then true
    else if nodeKeyLess (lget nodes cur defaultLayoutNode).key
        (lget nodes cand defaultLayoutNode).key then false
    else cand < cur

/-- One representative destination per rank for each variable-get source
(`VariableGetDestinationsByRank`). -/
def vargetDestsOf (nodes : List LayoutNode) (edges : List LayoutEdge) :
    List (List (Int × Int)) :=
  edges.foldl
    (fun acc e =>
      if e.kind == EdgeKind.exec then acc
      else if !(isValidIndex nodes.length e.src)
          || !(isValidIndex nodes.length e.dst) then acc
      else if e.src == e.dst then acc
      else if !(lget nodes e.src defaultLayoutNode).isVariableGet then acc
      else if (lget nodes e.dst defaultLayoutNode).isVariableGet then acc
      else
        let destRank := (lget nodes e.dst defaultLayoutNode).globalRank
        let dests := lget acc e.src []
        match dests.findIdx? (fun p => p.1 == destRank) with
        | none => lset acc e.src (dests ++ [(destRank, e.dst)])
        | some idx =>
            let curDest := (dests.getD idx (0, -1)).2
            if isPreferredVariableGetDestination nodes e.dst curDest then
              lset acc e.src (dests.set idx (destRank, e.dst))
            else acc)
    (List.replicate nodes.length ([] : List (Int × Int)))

/-- One index step of the intra-rank constraint builder. -/
def intraLayerStep (nodes : List LayoutNode) (layer : List Int)
    (syExec syData : ℚ) (cs : List Constraint) (idx : Nat) :
    List Constraint :=
  if idx == 0 then cs
  else
    let prev := lget layer ((idx : Int) - 1) (-1)
    let curr := lget layer (idx : Int) (-1)
    let spacingY := if (lget nodes curr defaultLayoutNode).hasExecPins
      then syExec else syData
    cs ++ [⟨curr, prev,
      (lget nodes prev defaultLayoutNode).size.y + spacingY⟩]

/-- Intra-rank ordering constraints: each node at least the previous
node's bottom edge plus its kind-appropriate vertical spacing below. -/
def intraRankConstraints (nodes : List LayoutNode)
    (rankNodes : List (List Int)) (syExec syData : ℚ) : List Constraint :=
  rankNodes.foldl
    (fun cs layer =>
      (List.range layer.length).foldl
        (intraLayerStep nodes layer syExec syData) cs)
    []

/-- The variable-get alignment constraints of one iteration (best-placed
representative destination by current Y, weakened when an exec node
follows in the same rank). -/
def vargetAlignConstraints (nodes : List LayoutNode)
    (rankNodes : List (List Int)) (vargetDests : List (List (Int × Int)))
    (ys : List ℚ) : List Constraint :=
  rankNodes.foldl
    (fun cs layer =>
      (List.range layer.length).foldl
        (fun cs (idx : Nat) =>
          if idx == 0 then cs
          else
            let srcIndex := lget layer (idx : Int) (-1)
            if !(lget nodes srcIndex defaultLayoutNode).isVariableGet then cs
            else
              let dests := lget vargetDests srcIndex []
              if dests.isEmpty then cs
              else
                let best := dests.foldl
                  (fun (bd : Int × ℚ) p =>
                    let destIndex := p.2
                    if !(isValidIndex nodes.length destIndex) then bd
                    else
                      let destY := lget ys destIndex 0
                      if bd.1 == -1 ∨ destY < bd.2 - kindaSmallNumber then
                        (destIndex, destY)
                      else if isNearlyEqual destY bd.2 then
                        let co :=
                          (lget nodes destIndex defaultLayoutNode).globalOrder
                        let cu := (lget nodes bd.1 defaultLayoutNode).globalOrder
                        if co ≠ cu then
                          (if co < cu then (destIndex, destY) else bd)
                        else if nodeKeyLess
                            (lget nodes destIndex defaultLayoutNode).key
                            (lget nodes bd.1 defaultLayoutNode).key then
                          (destIndex, destY)
                        else bd
                      else bd)
                  (-1, 0)
                if best.1 == -1 then cs
                else
                  let hasExecAfter := (layer.drop (idx + 1)).any
                    (fun j => (lget nodes j defaultLayoutNode).hasExecPins)
                  if hasExecAfter then cs
                  else cs ++ [⟨srcIndex, best.1, 0⟩])
        cs)
    []

/-- The zero-delta exec alignment constraints (one per chosen incoming
exec edge). -/
def execAlignConstraints (nodes : List LayoutNode) (edges : List LayoutEdge)
    (execIdx : List Int) : List Constraint :=
  (List.range edges.length).foldl
    (fun cs ei =>
      let e := edges.getD ei defaultLayoutEdge
      if !(e.kind == EdgeKind.exec) then cs
      else if !(isValidIndex nodes.length e.src)
          || !(isValidIndex nodes.length e.dst) then cs
      else if e.src == e.dst then cs
      else if !(lget execIdx e.dst (-1) == (ei : Int)) then cs
      else cs ++ [⟨e.dst, e.src, 0⟩])
    []

/-- The constraint list built at the top of one relaxation iteration. -/
def relaxConstraintsAt (nodes : List LayoutNode) (edges : List LayoutEdge)
    (rankNodes : List (List Int)) (vargetDests : List (List (Int × Int)))
    (execIdx : List Int) (syExec syData : ℚ) (maxIterations iteration : Int)
    (ys : List ℚ) : List Constraint :=
  let cs := intraRankConstraints nodes rankNodes syExec syData
  let cs := if iteration < maxIterations - 2 then
      cs ++ vargetAlignConstraints nodes rankNodes vargetDests ys
    else cs
  if iteration < maxIterations - 2 then
    cs ++ execAlignConstraints nodes edges execIdx
  else cs

/-- One constraint application of the relaxation pass. -/
def relaxStep (n : Nat) (st : List ℚ × Bool) (c : Constraint) :
    List ℚ × Bool :=
  if !(isValidIndex n c.source) || !(isValidIndex n c.target) then st
  else
    let cand := lget st.1 c.source 0 + c.delta
    if cand > lget st.1 c.target 0 + kindaSmallNumber then
      (lset st.1 c.target cand, true)
    else st

/-- One application pass over the constraint list: raise each violated
target just to its bound, flagging whether anything moved. -/
def relaxPass (n : Nat) (cs : List Constraint) (ys : List ℚ) :
    List ℚ × Bool :=
  cs.foldl (relaxStep n) (ys, false)

/-- The bounded relaxation loop `for (Iteration < 4 && bUpdated)`; returns
the final Y array, the number of iterations executed and whether the last
executed iteration still changed something (the warning flag). -/
def relaxGo (nodes : List LayoutNode) (edges : List LayoutEdge)
    (rankNodes : List (List Int)) (vargetDests : List (List (Int × Int)))
    (execIdx : List Int) (syExec syData : ℚ) (maxIterations : Int)
    (ys : List ℚ) (it : Nat) : List ℚ × Nat × Bool :=
  if h : it < 4 then
    let cs := relaxConstraintsAt nodes edges rankNodes vargetDests execIdx
      syExec syData maxIterations (it : Int) ys
    let r := relaxPass nodes.length cs ys
    if r.2 then
      relaxGo nodes edges rankNodes vargetDests execIdx syExec syData
        maxIterations r.1 (it + 1)
    else (r.1, it + 1, false)
  else (ys, it, true)
termination_by 4 - it

/-- The full relaxation state of `PlaceGlobalRankOrderCompact` (starting
from all-zero Y positions at iteration 0). -/
def compactRelax (nodes : List LayoutNode) (edges : List LayoutEdge)
    (syExec syData : ℚ) : List ℚ × Nat × Bool :=
  let maxRank := compactMaxRank nodes
  let rankNodes := compactRankNodes nodes maxRank
  let execIdx := execConstraintEdgeIndexOf nodes edges
  let vdests := vargetDestsOf nodes edges
  let maxIterations := max 3 (nodes.length : Int)
  relaxGo nodes edges rankNodes vdests execIdx syExec syData maxIterations
    (List.replicate nodes.length (0 : ℚ)) 0

/-- The number of relaxation iterations the compact placement executes
(zero when there is nothing to place). -/
def relaxItersOf (nodes : List LayoutNode) (edges : List LayoutEdge)
    (syExec syData : ℚ) : Nat :=
  if nodes.isEmpty then 0
  else (compactRelax nodes edges (max 0 syExec) (max 0 syData)).2.1

/-- `GetAlignedOffset`. -/
def getAlignedOffset (alignment : RankAlignment)
    (columnWidth nodeWidth : ℚ) : ℚ :=
  let extra := max 0 (columnWidth - nodeWidth)
  match alignment with
  | .left => 0
  | .right => extra
  | .center => extra / 2

/-- `IsBetterAnchor`: exec pins first, then node key, then index. -/
def isBetterAnchor (nodes : List LayoutNode) (cand cur : Int) : Bool :=
  if cand == -1 then false
  else if cur == -1 then true
  else
    let ce := (lget nodes cand defaultLayoutNode).hasExecPins
    let ue := (lget nodes cur defaultLayoutNode).hasExecPins
    if ce ≠ ue then ce
    else if nodeKeyLess (lget nodes cand defaultLayoutNode).key
        (lget nodes cur defaultLayoutNode).key then true
    else if nodeKeyLess (lget nodes cur defaultLayoutNode).key
        (lget nodes cand defaultLayoutNode).key then false
    else cand < cur

/-- First anchor pass: best among rank-0 order-0 nodes. -/
def anchorFirstPass (nodes : List LayoutNode) : Int :=
  (List.range nodes.length).foldl
    (fun a i =>
      let n := nodes.getD i defaultLayoutNode
      if n.globalRank == 0 && n.globalOrder == 0 then
        (if isBetterAnchor nodes (i : Int) a then (i : Int) else a)
      else a)
    (-1)

/-- Second anchor pass: best overall. -/
def anchorSecondPass (nodes : List LayoutNode) : Int :=
  (List.range nodes.length).foldl
    (fun a (i : Nat) =>
      if isBetterAnchor nodes (i : Int) a then (i : Int) else a)
    (-1)

/-- Anchor selection: prefer a rank-0 order-0 node, else best overall. -/
def anchorIndexOf (nodes : List LayoutNode) : Int :=
  let first := anchorFirstPass nodes
  if first == -1 then anchorSecondPass nodes else first

/-- `PlaceGlobalRankOrderCompact`. -/
def placeGlobalRankOrderCompact (nodes : List LayoutNode)
    (edges : List LayoutEdge) (sxExec sxData syExec syData : ℚ)
    (alignment : RankAlignment) : GlobalPlacement :=
  if nodes.isEmpty then {}
  else
    let sxExec := max 0 sxExec
    let sxData := max 0 sxData
    let syExec := max 0 syExec
    let syData := max 0 syData
    let maxRank := compactMaxRank nodes
    let ws := compactRankWidthSpacing nodes sxExec sxData maxRank
    let widths := ws.1
    let spacings := compactFillSpacing ws.2 sxExec sxData
    let xlefts := compactRankXLeft widths spacings
    let relax := compactRelax nodes edges syExec syData
    let ys := relax.1
    let positions := (List.range nodes.length).foldl
      (fun ps i =>
        let nd := nodes.getD i defaultLayoutNode
        let r := clampRank nd
        let x := lget xlefts r 0
          + getAlignedOffset alignment (lget widths r 0) nd.size.x
        tmapAdd ps (i : Int) ⟨x, lget ys (i : Int) 0⟩)
      []
    { positions := positions, anchorNodeIndex := anchorIndexOf nodes }

/-- `ComputeGlobalAnchorOffset` (`GraphLayoutPlacement.cpp`). -/
def computeGlobalAnchorOffset (nodes : List LayoutNode)
    (placement : GlobalPlacement) : Vec2 :=
  if placement.anchorNodeIndex == -1 then Vec2.zero
  else
    match tmapFind? placement.positions placement.anchorNodeIndex with
    | none => Vec2.zero
    | some anchorPos =>
        if !(isValidIndex nodes.length placement.anchorNodeIndex) then
          Vec2.zero
        else
          Vec2.sub
            (lget nodes placement.anchorNodeIndex defaultLayoutNode).position
            anchorPos

/-! ## `LayoutComponent` (`GraphLayout.cpp`) -/

/-- The outcome of `LayoutComponent`: return value, output result (reset on
entry and on failure) and optional error message. -/
structure LayoutOutcome where
  success : Bool := false
  result : LayoutComponentResult := {}
  error : Option String := none
deriving DecidableEq, Repr

/-- The component's work edges. -/
def workEdgesOf (g : LayoutGraph) (ids : List Int) : List LayoutEdge :=
  let b := buildWorkNodes g ids
  buildWorkEdges g b.nodes b.idToIndex

/-- The work nodes after the Sugiyama ranks and orders were written back. -/
def rankedNodesOf (g : LayoutGraph) (ids : List Int) (s : LayoutSettings) :
    List LayoutNode :=
  let b := buildWorkNodes g ids
  let edges := buildWorkEdges g b.nodes b.idToIndex
  let sg := buildSugiyamaGraph b.nodes edges
  let rs := runSugiyama sg kSugiyamaSweeps (max 0 s.variableGetMinLength)
  applySugiyamaRanks rs.1 b.nodes

/-- The compact placement computed by `LayoutComponent`. -/
def placementOf (g : LayoutGraph) (ids : List Int) (s : LayoutSettings) :
    GlobalPlacement :=
  let sp := resolveNodeSpacingX s
  placeGlobalRankOrderCompact (rankedNodesOf g ids s) (workEdgesOf g ids)
    sp.1 sp.2 (max 0 s.nodeSpacingYExec) (max 0 s.nodeSpacingYData)
    s.rankAlignment

/-- `LayoutComponent`. -/
def layoutComponent (g : LayoutGraph) (ids : List Int)
    (s : LayoutSettings) : LayoutOutcome :=
  if ids.isEmpty then
    ⟨false, {}, some "Layout component is empty."⟩
  else
    let b := buildWorkNodes g ids
    if b.success = false then ⟨false, {}, b.error⟩
    else
      match tryHandleSingleNode b.nodes {} with
      | some res => ⟨true, res, none⟩
      | none =>
          let placement := placementOf g ids s
          let anchorOffset :=
            computeGlobalAnchorOffset (rankedNodesOf g ids s) placement
          let res := applyFinalPositions [] placement.positions anchorOffset
            (rankedNodesOf g ids s) {}
          ⟨true, res, none⟩

/-! ## Specification-side predicates and helper views -/

/-- Both endpoints of a Sugiyama edge are valid indices into a node array
of length `n`. -/
def edgeEndpointsValid (n : Nat) (e : SugiyamaEdge) : Prop :=
  0 ≤ e.src ∧ e.src < (n : Int) ∧ 0 ≤ e.dst ∧ e.dst < (n : Int)

instance (n : Nat) (e : SugiyamaEdge) : Decidable (edgeEndpointsValid n e) :=
  inferInstanceAs (Decidable (_ ∧ _ ∧ _ ∧ _))

/-- An edge with valid endpoints whose rank span in `nodes` is at most
one. -/
def EdgeSpanOK (nodes : List SugiyamaNode) (e : SugiyamaEdge) : Prop :=
  edgeEndpointsValid nodes.length e ∧
  (lget nodes e.dst defaultSugiyamaNode).rank
    - (lget nodes e.src defaultSugiyamaNode).rank ≤ 1

/-- The dummy chain state after `k` steps of `splitChainStep`. -/
def splitChainOf (e : SugiyamaEdge) (srcRank : Int)
    (nodes0 : List SugiyamaNode) (k : Nat) :
    List SugiyamaNode × List SugiyamaEdge × Int :=
  (List.range k).foldl (splitChainStep e srcRank) (nodes0, [], e.src)

/-- The closing edge emitted by `splitLongEdgesStep` in the long branch,
from the last dummy to the original destination. -/
def splitFinalEdge (st : List SugiyamaNode × List SugiyamaEdge)
    (e : SugiyamaEdge) : SugiyamaEdge :=
  let srcRank := (lget st.1 e.src defaultSugiyamaNode).rank
  let dstRank := (lget st.1 e.dst defaultSugiyamaNode).rank
  let rankDiff := dstRank - srcRank
  let chain := splitChainOf e srcRank st.1 (rankDiff - 1).toNat
  { src := chain.2.2, dst := e.dst,
    srcPin := makeDummyPinKey
      (lget chain.1 chain.2.2 defaultSugiyamaNode).key .output,
    srcPinIndex := 0, dstPin := e.dstPin,
    dstPinIndex := e.dstPinIndex, kind := e.kind, minLen := e.minLen,
    stableKey := e.stableKey ++ "|seg" ++ toString rankDiff }

/-- The number of in-edges of `v` (self-loops excluded) whose source has
not yet been emitted into the topological prefix `t` — the quantity the
`InDegree` array of `AssignLayers` tracks. -/
def kahnInCnt (g : SugiyamaGraph) (t : List Int) (v : Int) : Nat :=
  g.edges.countP
    (fun e => e.dst == v && !(e.src == e.dst) && !(t.contains e.src))

/-- A rational that is the value of a finite IEEE-754 single-precision
float: an integer significand of magnitude below `2²⁴` scaled by a power
of two of exponent at least `−149`.  Every normal and denormal 32-bit
float (the type of the `FLayoutSettings` spacing fields) has this form. -/
def float32Repr (q : ℚ) : Prop :=
  ∃ m e : Int, |m| < 2 ^ 24 ∧ -149 ≤ e ∧ q = (m : ℚ) * (2 : ℚ) ^ e

/-- A node sequence respects the edges of the graph: every (non-self-loop)
edge into a listed node has its source strictly earlier in the sequence. -/
def TopoRespects (g : SugiyamaGraph) (t : List Int) : Prop :=
  ∀ l1 y l2, t = l1 ++ y :: l2 →
    ∀ e ∈ g.edges, ¬ (e.src = e.dst) → e.dst = y → e.src ∈ l1

/-! ## Concrete instances used by counterexamples and witnesses -/

/-- Default-constructed `FLayoutSettings`. -/
def defaultSettings : LayoutSettings := {}

/-- A small distinct node key. -/
def mkTestKey (k : Nat) : NodeKey := ⟨⟨k, 0, 0, 0⟩⟩

/-- C1 failing input: a graph with a single node of id `7`. -/
def c1Graph : LayoutGraph :=
  { nodes := [{ id := 7, key := mkTestKey 1, hasExecPins := true,
                position := ⟨10, 20⟩, size := ⟨100, 50⟩ }],
    edges := [] }

/-- C1 failing component id list: id `42` is absent from `c1Graph`. -/
def c1Ids : List Int := [7, 42]

/-- C2 counterexample working graph (already direction-normalized, acyclic):
`S`(0) and `B`(1) are control-flow nodes, `A`(2) is a pure data node, `V`(3)
is a single-consumer variable-get; edges `S→B` (exec), `S→A` (data, MaxLen
bounded), `V→A` (data, bounded, min length = VariableGetMinLength). -/
def c2Graph : SugiyamaGraph :=
  { nodes :=
      [ { id := 0, key := mkTestKey 0, hasExecPins := true },
        { id := 1, key := mkTestKey 1, hasExecPins := true },
        { id := 2, key := mkTestKey 2 },
        { id := 3, key := mkTestKey 3, isVariableGet := true } ],
    edges :=
      [ { src := 0, dst := 1, kind := .exec, stableKey := "e0" },
        { src := 0, dst := 2, kind := .data, stableKey := "e1" },
        { src := 3, dst := 2, kind := .data, stableKey := "e2" } ] }

/-- An edge-respecting potential witnessing that `c2Graph` is a DAG. -/
def c2Cert (i : Int) : Nat :=
  if i == 3 then 0 else i.toNat + 1

/-- C3 counterexample working graph: a variable-get data producer `P`(0)
feeding a control-flow consumer `C`(1); with `VariableGetMinLength = 0` the
edge gets min length 0 and both nodes share rank 0. -/
def c3Graph : SugiyamaGraph :=
  { nodes :=
      [ { id := 0, key := mkTestKey 0, isVariableGet := true },
        { id := 1, key := mkTestKey 1, hasExecPins := true } ],
    edges := [ { src := 0, dst := 1, kind := .data, stableKey := "p" } ] }

/-- Witness graph for the multi-node claims: two control-flow nodes joined
by one exec edge. -/
def witnessGraph : LayoutGraph :=
  { nodes :=
      [ { id := 1, key := mkTestKey 1, hasExecPins := true,
          position := ⟨5, 6⟩, size := ⟨100, 40⟩, execOutputPinCount := 1,
          outputPinCount := 1 },
        { id := 2, key := mkTestKey 2, hasExecPins := true,
          position := ⟨300, 6⟩, size := ⟨100, 40⟩, execInputPinCount := 1,
          inputPinCount := 1 } ],
    edges := [ { src := 1, dst := 2, srcPinIndex := 0, dstPinIndex := 0,
                 srcPinName := "Exec", dstPinName := "Exec", kind := .exec } ] }

/-- Witness component id list for `witnessGraph`. -/
def witnessIds : List Int := [1, 2]

/-- C9 witness settings: the legacy spacing is customised to `120` (a
float-representable value) while both per-kind spacings stay at their
compiled defaults. -/
def c9Settings : LayoutSettings :=
  { nodeSpacingX := 120 }

/-- C3 amended-claim witness graph: two ranked nodes three ranks apart,
joined by one edge, so the splitting pass actually inserts dummies. -/
def c3SplitGraph : SugiyamaGraph :=
  { nodes :=
      [ { id := 0, key := mkTestKey 0, hasExecPins := true, rank := 0 },
        { id := 1, key := mkTestKey 1, hasExecPins := true, rank := 3 } ],
    edges := [ { src := 0, dst := 1, kind := .exec, stableKey := "w" } ] }

set_option maxRecDepth 40000

/-! ## Claim C5 — determinism of `LayoutComponent` -/

/-- C5: for every graph, component id list and settings, two independent
calls of `LayoutComponent` produce identical outcomes (success flag, node
position map, bounds and error).  In the embedding `layoutComponent` is a
pure function — every container iteration order it relies on (sorted
arrays, add-only `TMap`s iterated in insertion order, key-ordered queues)
is deterministic, so the two runs are definitionally the same value. -/
theorem c5_layout_component_deterministic (g : LayoutGraph) (ids : List Int)
    (s : LayoutSettings) :
    layoutComponent g ids s = layoutComponent g ids s := rfl

/-! ## Claim C1 — missing node ids are not detected (code bug) -/

/-- C1 (code behaviour at the failing input): requesting component
`[7, 42]` against a graph whose only node has id `7` must, per the spec,
fail with `MissingNode` and leave the output empty.  In the code,
`TMap<int32,int32>::FindRef` returns `0` (the default-constructed value)
for the absent id `42`, never `INDEX_NONE`, so the missing-node check in
`BuildWorkNodes` cannot fire: the id silently resolves to graph node
index 0, `BuildWorkNodes` reports success with two copies of node 7, and
`LayoutComponent` returns `true` with a non-empty position map and no
error. -/
theorem c1_missing_node_goes_undetected :
    (buildWorkNodes c1Graph c1Ids).success = true ∧
    (buildWorkNodes c1Graph c1Ids).error = none ∧
    (buildWorkNodes c1Graph c1Ids).nodes.length = 2 ∧
    (layoutComponent c1Graph c1Ids defaultSettings).success = true ∧
    (layoutComponent c1Graph c1Ids defaultSettings).error = none ∧
    (layoutComponent c1Graph c1Ids defaultSettings).result.nodePositions
      ≠ [] := by
  decide

/-! ## Claim C9 — legacy horizontal-spacing resolution -/

/-- `ResolveNodeSpacingX`, evaluated: the legacy `NodeSpacingX` overrides
both per-kind horizontal spacings exactly when both per-kind values are
within the `IsNearlyEqual` tolerance (`10⁻⁸`) of their compiled defaults
while the legacy value is not; otherwise the per-kind values are used; the
resolved pair is clamped non-negative. -/
theorem resolveNodeSpacingX_eval (s : LayoutSettings) :
    resolveNodeSpacingX s =
      (if (isNearlyEqual s.nodeSpacingXExec defaultNodeSpacingXExec
          && isNearlyEqual s.nodeSpacingXData defaultNodeSpacingXData
          && !(isNearlyEqual s.nodeSpacingX defaultNodeSpacingX)) = true then
        (max 0 s.nodeSpacingX, max 0 s.nodeSpacingX)
      else
        (max 0 s.nodeSpacingXExec, max 0 s.nodeSpacingXData)) ∧
    0 ≤ (resolveNodeSpacingX s).1 ∧ 0 ≤ (resolveNodeSpacingX s).2 := by
  have key : resolveNodeSpacingX s =
      (if (isNearlyEqual s.nodeSpacingXExec defaultNodeSpacingXExec
          && isNearlyEqual s.nodeSpacingXData defaultNodeSpacingXData
          && !(isNearlyEqual s.nodeSpacingX defaultNodeSpacingX)) = true then
        (max 0 s.nodeSpacingX, max 0 s.nodeSpacingX)
      else
        (max 0 s.nodeSpacingXExec, max 0 s.nodeSpacingXData)) := by
    unfold resolveNodeSpacingX
    rcases h : (isNearlyEqual s.nodeSpacingXExec defaultNodeSpacingXExec
      && isNearlyEqual s.nodeSpacingXData defaultNodeSpacingXData
      && !(isNearlyEqual s.nodeSpacingX defaultNodeSpacingX)) with _ | _ <;>
      simp [h]
  refine ⟨key, ?_, ?_⟩ <;> rw [key] <;> split <;> exact le_max_left 0 _

/-- No representable 32-bit float other than `300.0f` itself lies within
the `UE_SMALL_NUMBER = 10⁻⁸` tolerance of `300`: the float spacing near
`300` is `2⁻¹⁵ ≈ 3·10⁻⁵`, far above the tolerance. -/
theorem float32Repr_near_default {q : ℚ} (h : float32Repr q)
    (hnear : |q - 300| ≤ smallNumber) : q = 300 := by
  obtain ⟨m, e, hm, hemin, rfl⟩ := h
  rw [show smallNumber = (1 : ℚ) / 100000000 from rfl] at hnear
  by_cases heA : 3 ≤ e
  · exfalso
    set k : Int := m * 2 ^ (e - 3).toNat with hk
    have hsplit : (2:ℚ) ^ e = (2:ℚ) ^ (e - 3) * (2:ℚ) ^ (3 : Int) := by
      rw [← zpow_add₀ (by norm_num : (2:ℚ) ≠ 0)]
      rw [show e - 3 + 3 = e by ring]
    have h1 : ((k : Int) : ℚ) = (m : ℚ) * (2:ℚ) ^ (e - 3) := by
      rw [hk]
      push_cast
      rw [← zpow_natCast (2:ℚ) (e - 3).toNat,
        Int.toNat_of_nonneg (by omega : (0 : Int) ≤ e - 3)]
    have hq : (m : ℚ) * (2:ℚ) ^ e = (k : ℚ) * 8 := by
      rw [h1, hsplit]
      rw [show (2:ℚ) ^ (3 : Int) = 8 by norm_num]
      ring
    rw [hq] at hnear
    have hcast : (k : ℚ) * 8 - 300 = ((8 * k - 300 : Int) : ℚ) := by
      push_cast
      ring
    rw [hcast] at hnear
    have h4 : (8 * k - 300 ≥ 4) ∨ (8 * k - 300 ≤ -4) := by omega
    have habs : (4 : ℚ) ≤ |((8 * k - 300 : Int) : ℚ)| := by
      rcases h4 with h | h
      · calc (4:ℚ) ≤ ((8 * k - 300 : Int) : ℚ) := by exact_mod_cast h
          _ ≤ |((8 * k - 300 : Int) : ℚ)| := le_abs_self _
      · have : (4:ℚ) ≤ -((8 * k - 300 : Int) : ℚ) := by
          have : ((8 * k - 300 : Int) : ℚ) ≤ -4 := by exact_mod_cast h
          linarith
        exact le_trans this (neg_le_abs _)
    linarith
  · by_cases heB : e ≤ -27
    · exfalso
      have h2e : (2:ℚ) ^ e ≤ (2:ℚ) ^ (-27 : Int) :=
        zpow_le_zpow_right₀ (by norm_num) heB
      have hpos : (0:ℚ) < (2:ℚ) ^ e := zpow_pos (by norm_num) e
      have hmq : |(m : ℚ)| < 2 ^ 24 := by
        rw [← Int.cast_abs]
        exact_mod_cast hm
      have hqbound : |(m : ℚ) * (2:ℚ) ^ e| ≤ 1 / 8 := by
        rw [abs_mul, abs_of_pos hpos]
        calc |(m:ℚ)| * (2:ℚ) ^ e ≤ 2 ^ 24 * (2:ℚ) ^ (-27 : Int) :=
              mul_le_mul (le_of_lt hmq) h2e (le_of_lt hpos) (by norm_num)
          _ = 1 / 8 := by norm_num
      have hq1 : (m : ℚ) * (2:ℚ) ^ e ≤ 1 / 8 :=
        le_trans (le_abs_self _) hqbound
      have hq2 := abs_le.mp hnear
      linarith [hq2.1]
    · set k : Int := 75 * 2 ^ (2 - e).toNat with hk
      have hk300 : (k : ℚ) * (2:ℚ) ^ e = 300 := by
        rw [hk]
        push_cast
        rw [← zpow_natCast (2:ℚ) (2 - e).toNat,
          Int.toNat_of_nonneg (by omega : (0 : Int) ≤ 2 - e)]
        rw [mul_assoc, ← zpow_add₀ (by norm_num : (2:ℚ) ≠ 0)]
        rw [show 2 - e + e = (2 : Int) by ring]
        norm_num
      have hdiff : (m : ℚ) * (2:ℚ) ^ e - 300 = ((m - k : Int) : ℚ) * (2:ℚ) ^ e := by
        rw [← hk300]
        push_cast
        ring
      rw [hdiff] at hnear
      have hpos : (0:ℚ) < (2:ℚ) ^ e := zpow_pos (by norm_num) e
      have h2e : (2:ℚ) ^ (-26 : Int) ≤ (2:ℚ) ^ e :=
        zpow_le_zpow_right₀ (by norm_num) (by omega)
      have hmk : m = k := by
        by_contra hne
        have h1 : (1 : ℚ) ≤ |((m - k : Int) : ℚ)| := by
          rw [← Int.cast_abs]
          exact_mod_cast Int.one_le_abs (by omega : m - k ≠ 0)
        rw [abs_mul, abs_of_pos hpos] at hnear
        have hge : (2:ℚ) ^ e ≤ |((m - k : Int) : ℚ)| * (2:ℚ) ^ e :=
          le_mul_of_one_le_left (le_of_lt hpos) h1
        have hsmall : (1:ℚ) / 100000000 < (2:ℚ) ^ (-26 : Int) := by norm_num
        have hchain : (2:ℚ) ^ (-26 : Int) ≤ (1:ℚ) / 100000000 :=
          le_trans h2e (le_trans hge hnear)
        exact absurd hchain (not_le.mpr hsmall)
      rw [hmk]
      exact hk300

/-- C9: the `FLayoutSettings` spacing fields are 32-bit floats, and no
representable float other than the compiled default `300.0f` lies within
the `IsNearlyEqual` tolerance (`10⁻⁸`) of it, so over the program's input
space the tolerance tests coincide with exact equality.  Hence the spacing
pair `LayoutComponent` obtains from `ResolveNodeSpacingX` is: the (clamped)
legacy `NodeSpacingX` for both exec and data exactly when both per-kind
spacings equal their defaults while the legacy value differs from its
default; the (clamped) per-kind values in every other case; and both
resolved spacings are non-negative. -/
theorem c9_legacy_spacing (s : LayoutSettings)
    (hx : float32Repr s.nodeSpacingX)
    (hxe : float32Repr s.nodeSpacingXExec)
    (hxd : float32Repr s.nodeSpacingXData) :
    (s.nodeSpacingXExec = defaultNodeSpacingXExec →
      s.nodeSpacingXData = defaultNodeSpacingXData →
      s.nodeSpacingX ≠ defaultNodeSpacingX →
      resolveNodeSpacingX s
        = (max 0 s.nodeSpacingX, max 0 s.nodeSpacingX)) ∧
    (¬ (s.nodeSpacingXExec = defaultNodeSpacingXExec ∧
        s.nodeSpacingXData = defaultNodeSpacingXData ∧
        s.nodeSpacingX ≠ defaultNodeSpacingX) →
      resolveNodeSpacingX s
        = (max 0 s.nodeSpacingXExec, max 0 s.nodeSpacingXData)) ∧
    0 ≤ (resolveNodeSpacingX s).1 ∧ 0 ≤ (resolveNodeSpacingX s).2 := by
  have hiff : ∀ a : ℚ, float32Repr a →
      ((isNearlyEqual a 300) = true ↔ a = 300) := by
    intro a ha
    unfold isNearlyEqual
    rw [decide_eq_true_eq]
    constructor
    · intro h
      exact float32Repr_near_default ha h
    · intro h
      rw [h]
      norm_num [smallNumber]
  have h300e : defaultNodeSpacingXExec = (300:ℚ) := rfl
  have h300d : defaultNodeSpacingXData = (300:ℚ) := rfl
  have h300l : defaultNodeSpacingX = (300:ℚ) := rfl
  have hE : isNearlyEqual s.nodeSpacingXExec defaultNodeSpacingXExec = true
      ↔ s.nodeSpacingXExec = defaultNodeSpacingXExec := by
    rw [h300e]
    exact hiff _ hxe
  have hD : isNearlyEqual s.nodeSpacingXData defaultNodeSpacingXData = true
      ↔ s.nodeSpacingXData = defaultNodeSpacingXData := by
    rw [h300d]
    exact hiff _ hxd
  have hL : isNearlyEqual s.nodeSpacingX defaultNodeSpacingX = true
      ↔ s.nodeSpacingX = defaultNodeSpacingX := by
    rw [h300l]
    exact hiff _ hx
  obtain ⟨hkey, hnn1, hnn2⟩ := resolveNodeSpacingX_eval s
  refine ⟨?_, ?_, hnn1, hnn2⟩
  · intro h1 h2 h3
    have hcond : (isNearlyEqual s.nodeSpacingXExec defaultNodeSpacingXExec
        && isNearlyEqual s.nodeSpacingXData defaultNodeSpacingXData
        && !(isNearlyEqual s.nodeSpacingX defaultNodeSpacingX)) = true := by
      rw [Bool.and_eq_true, Bool.and_eq_true, Bool.not_eq_true']
      refine ⟨⟨hE.mpr h1, hD.mpr h2⟩, ?_⟩
      cases hb : isNearlyEqual s.nodeSpacingX defaultNodeSpacingX
      · rfl
      · exact absurd (hL.mp hb) h3
    rw [hkey, if_pos hcond]
  · intro hnot
    have hcond : (isNearlyEqual s.nodeSpacingXExec defaultNodeSpacingXExec
        && isNearlyEqual s.nodeSpacingXData defaultNodeSpacingXData
        && !(isNearlyEqual s.nodeSpacingX defaultNodeSpacingX)) = false := by
      cases hb : (isNearlyEqual s.nodeSpacingXExec defaultNodeSpacingXExec
        && isNearlyEqual s.nodeSpacingXData defaultNodeSpacingXData
        && !(isNearlyEqual s.nodeSpacingX defaultNodeSpacingX))
      · rfl
      · exfalso
        rw [Bool.and_eq_true, Bool.and_eq_true, Bool.not_eq_true'] at hb
        refine hnot ⟨hE.mp hb.1.1, hD.mp hb.1.2, ?_⟩
        intro hc
        exact Bool.false_ne_true (hb.2.symm.trans (hL.mpr hc))
    rw [hkey, if_neg (by rw [hcond]; exact Bool.false_ne_true)]

/-- Witness for `c9_legacy_spacing` at `c9Settings` (legacy spacing `120`,
per-kind spacings at their defaults): the three representability
hypotheses are discharged with explicit significand/exponent pairs, and
the theorem yields the legacy-override behaviour. -/
theorem c9_legacy_spacing_witness :
    (float32Repr c9Settings.nodeSpacingX ∧
     float32Repr c9Settings.nodeSpacingXExec ∧
     float32Repr c9Settings.nodeSpacingXData) ∧
    ((c9Settings.nodeSpacingXExec = defaultNodeSpacingXExec →
       c9Settings.nodeSpacingXData = defaultNodeSpacingXData →
       c9Settings.nodeSpacingX ≠ defaultNodeSpacingX →
       resolveNodeSpacingX c9Settings
         = (max 0 c9Settings.nodeSpacingX, max 0 c9Settings.nodeSpacingX)) ∧
     (¬ (c9Settings.nodeSpacingXExec = defaultNodeSpacingXExec ∧
         c9Settings.nodeSpacingXData = defaultNodeSpacingXData ∧
         c9Settings.nodeSpacingX ≠ defaultNodeSpacingX) →
       resolveNodeSpacingX c9Settings
         = (max 0 c9Settings.nodeSpacingXExec,
            max 0 c9Settings.nodeSpacingXData)) ∧
     0 ≤ (resolveNodeSpacingX c9Settings).1 ∧
     0 ≤ (resolveNodeSpacingX c9Settings).2) :=
  ⟨⟨⟨120, 0, by norm_num, by norm_num, by norm_num [c9Settings, defaultNodeSpacingXExec, defaultNodeSpacingXData, defaultNodeSpacingX]⟩,
    ⟨300, 0, by norm_num, by norm_num, by norm_num [c9Settings, defaultNodeSpacingXExec, defaultNodeSpacingXData, defaultNodeSpacingX]⟩,
    ⟨300, 0, by norm_num, by norm_num, by norm_num [c9Settings, defaultNodeSpacingXExec, defaultNodeSpacingXData, defaultNodeSpacingX]⟩⟩,
   c9_legacy_spacing c9Settings
     ⟨120, 0, by norm_num, by norm_num, by norm_num [c9Settings, defaultNodeSpacingXExec, defaultNodeSpacingXData, defaultNodeSpacingX]⟩
     ⟨300, 0, by norm_num, by norm_num, by norm_num [c9Settings, defaultNodeSpacingXExec, defaultNodeSpacingXData, defaultNodeSpacingX]⟩
     ⟨300, 0, by norm_num, by norm_num, by norm_num [c9Settings, defaultNodeSpacingXExec, defaultNodeSpacingXData, defaultNodeSpacingX]⟩⟩

/-! ## Claim C2 — rank monotonicity after layer assignment -/

/-- C2 counterexample: on the acyclic, direction-normalized graph
`c2Graph` with `VariableGetMinLength = 2` the constrained-mode backward
tightening raises the rank of `S` (node 0) from 0 to 1 — pulled towards
its MaxLen-bounded data destination `A` (rank 2) — without rechecking the
unbounded exec edge `S→B`, leaving `rank[B] = 1 < rank[S] + MinLen = 2`. -/
theorem c2_counterexample :
    removeCycles c2Graph = c2Graph ∧
    graphUsesFiniteMaxLen (updateEdgeMinLengths c2Graph 2) = true ∧
    ¬ (∀ e ∈ ((assignLayers (updateEdgeMinLengths c2Graph 2)).1).edges,
        (lget ((assignLayers (updateEdgeMinLengths c2Graph 2)).1).nodes
          e.dst defaultSugiyamaNode).rank ≥
        (lget ((assignLayers (updateEdgeMinLengths c2Graph 2)).1).nodes
          e.src defaultSugiyamaNode).rank + e.minLen) := by
  decide

/-! ## Claim C3 — edge spans after long-edge splitting -/

/-- C3 counterexample: with `VariableGetMinLength = 0` the variable-get
edge of `c3Graph` gets min length 0, both endpoints are ranked 0, and
`SplitLongEdges` keeps the edge untouched — its rank span is 0, not 1. -/
theorem c3_counterexample :
    ¬ (∀ e ∈ (splitLongEdges
          (assignLayers (updateEdgeMinLengths c3Graph 0)).1).edges,
        (lget (splitLongEdges
            (assignLayers (updateEdgeMinLengths c3Graph 0)).1).nodes
          e.dst defaultSugiyamaNode).rank -
        (lget (splitLongEdges
            (assignLayers (updateEdgeMinLengths c3Graph 0)).1).nodes
          e.src defaultSugiyamaNode).rank = 1) := by
  decide

/-! ## Basic lemmas about the container model -/

theorem lset_length (xs : List α) (i : Int) (v : α) :
    (lset xs i v).length = xs.length := by
  unfold lset
  split
  · rfl
  · exact List.length_set xs i.toNat v

theorem isValidIndex_iff {n : Nat} {i : Int} :
    isValidIndex n i = true ↔ 0 ≤ i ∧ i < (n : Int) := by
  simp [isValidIndex]

theorem lget_append_left {xs ys : List α} {i : Int} (d : α)
    (h0 : 0 ≤ i) (h : i < (xs.length : Int)) :
    lget (xs ++ ys) i d = lget xs i d := by
  unfold lget
  rw [if_neg (by omega), if_neg (by omega)]
  have ht : i.toNat < xs.length := by omega
  rw [List.getD_eq_getElem?_getD, List.getD_eq_getElem?_getD,
    List.getElem?_append_left ht]

theorem lget_append_concat (xs : List α) (v : α) (ys : List α) (d : α) :
    lget (xs ++ v :: ys) ((xs.length : Nat) : Int) d = v := by
  unfold lget
  rw [if_neg (by omega)]
  have ht : ((xs.length : Nat) : Int).toNat = xs.length := by omega
  rw [ht, List.getD_eq_getElem?_getD, List.getElem?_append_right (Nat.le_refl _)]
  simp

theorem lget_concat (xs : List α) (v : α) (d : α) :
    lget (xs ++ [v]) ((xs.length : Nat) : Int) d = v :=
  lget_append_concat xs v [] d

/-! ## Claim C3 (amended): every edge spans at most one rank after
splitting -/

theorem edgeSpanOK_append (nodes ext : List SugiyamaNode)
    (s : SugiyamaEdge) (h : EdgeSpanOK nodes s) :
    EdgeSpanOK (nodes ++ ext) s := by
  unfold EdgeSpanOK edgeEndpointsValid at h ⊢
  obtain ⟨⟨h1, h2, h3, h4⟩, h5⟩ := h
  have hl : (nodes.length : Int) ≤ ((nodes ++ ext).length : Int) := by
    rw [List.length_append]
    push_cast
    omega
  refine ⟨⟨h1, by omega, h3, by omega⟩, ?_⟩
  rw [lget_append_left _ h3 h4, lget_append_left _ h1 h2]
  exact h5

theorem splitChainStep_facts (e : SugiyamaEdge) (srcRank : Int)
    (st2 : List SugiyamaNode × List SugiyamaEdge × Int) (stepIdx : Nat) :
    ∃ dummy : SugiyamaNode,
      (splitChainStep e srcRank st2 stepIdx).1 = st2.1 ++ [dummy] ∧
      dummy.rank = srcRank + ((stepIdx : Int) + 1) ∧
      (splitChainStep e srcRank st2 stepIdx).2.2 = (st2.1.length : Int) ∧
      ∃ seg : SugiyamaEdge,
        (splitChainStep e srcRank st2 stepIdx).2.1 = st2.2.1 ++ [seg] ∧
        seg.src = st2.2.2 ∧ seg.dst = (st2.1.length : Int) :=
  ⟨_, rfl, rfl, rfl, _, rfl, rfl, rfl⟩

theorem splitChain_spec (e : SugiyamaEdge) (srcRank : Int)
    (nodes0 : List SugiyamaNode)
    (hs0 : 0 ≤ e.src) (hsLt : e.src < (nodes0.length : Int))
    (hrank : (lget nodes0 e.src defaultSugiyamaNode).rank = srcRank)
    (k : Nat) :
    (∃ ext, (splitChainOf e srcRank nodes0 k).1 = nodes0 ++ ext) ∧
    (0 ≤ (splitChainOf e srcRank nodes0 k).2.2 ∧
      (splitChainOf e srcRank nodes0 k).2.2
        < ((splitChainOf e srcRank nodes0 k).1.length : Int)) ∧
    (lget (splitChainOf e srcRank nodes0 k).1
      (splitChainOf e srcRank nodes0 k).2.2 defaultSugiyamaNode).rank
      = srcRank + k ∧
    ∀ s ∈ (splitChainOf e srcRank nodes0 k).2.1,
      EdgeSpanOK (splitChainOf e srcRank nodes0 k).1 s := by
  induction k with
  | zero =>
      refine ⟨⟨[], by simp [splitChainOf]⟩, ⟨hs0, ?_⟩, ?_, ?_⟩
      · simpa [splitChainOf] using hsLt
      · simpa [splitChainOf] using hrank
      · intro s hs
        simp [splitChainOf] at hs
  | succ k ih =>
      have hstep : splitChainOf e srcRank nodes0 (k + 1)
          = splitChainStep e srcRank (splitChainOf e srcRank nodes0 k) k := by
        unfold splitChainOf
        rw [List.range_succ, List.foldl_append]
        simp
      obtain ⟨⟨ext, hext⟩, ⟨hp0, hpLt⟩, hprank, hsegs⟩ := ih
      obtain ⟨dummy, hd1, hdrank, hd2, seg, hs1, hssrc, hsdst⟩ :=
        splitChainStep_facts e srcRank (splitChainOf e srcRank nodes0 k) k
      rw [hstep]
      set C := splitChainOf e srcRank nodes0 k with hC
      have hlen : ((C.1 ++ [dummy]).length : Int) = (C.1.length : Int) + 1 := by
        rw [List.length_append, List.length_singleton]
        push_cast
        ring
      refine ⟨⟨ext ++ [dummy], ?_⟩, ⟨?_, ?_⟩, ?_, ?_⟩
      · rw [hd1, hext, List.append_assoc]
      · rw [hd2]
        exact Int.natCast_nonneg _
      · rw [hd2, hd1, hlen]
        omega
      · rw [hd2, hd1, lget_concat, hdrank]
        push_cast
        ring
      · intro s hs
        rw [hs1] at hs
        rw [hd1]
        rcases List.mem_append.mp hs with hmem | hmem
        · exact edgeSpanOK_append C.1 [dummy] s (hsegs s hmem)
        · have hseq : s = seg := by simpa using hmem
          subst hseq
          unfold EdgeSpanOK edgeEndpointsValid
          refine ⟨⟨?_, ?_, ?_, ?_⟩, ?_⟩
          · rw [hssrc]
            exact hp0
          · rw [hssrc, hlen]
            omega
          · rw [hsdst]
            exact Int.natCast_nonneg _
          · rw [hsdst, hlen]
            omega
          · rw [hsdst, lget_concat, hssrc, lget_append_left _ hp0 hpLt,
              hprank, hdrank]
            omega

theorem splitLongEdgesStep_short
    (st : List SugiyamaNode × List SugiyamaEdge) (e : SugiyamaEdge)
    (h : (lget st.1 e.dst defaultSugiyamaNode).rank
      - (lget st.1 e.src defaultSugiyamaNode).rank ≤ 1) :
    splitLongEdgesStep st e = (st.1, st.2 ++ [e]) := by
  simp only [splitLongEdgesStep]
  rw [if_pos h]

theorem splitLongEdgesStep_long
    (st : List SugiyamaNode × List SugiyamaEdge) (e : SugiyamaEdge)
    (h : ¬ ((lget st.1 e.dst defaultSugiyamaNode).rank
      - (lget st.1 e.src defaultSugiyamaNode).rank ≤ 1)) :
    splitLongEdgesStep st e =
      ((splitChainOf e (lget st.1 e.src defaultSugiyamaNode).rank st.1
          ((lget st.1 e.dst defaultSugiyamaNode).rank
            - (lget st.1 e.src defaultSugiyamaNode).rank - 1).toNat).1,
        st.2 ++ (splitChainOf e (lget st.1 e.src defaultSugiyamaNode).rank
          st.1 ((lget st.1 e.dst defaultSugiyamaNode).rank
            - (lget st.1 e.src defaultSugiyamaNode).rank - 1).toNat).2.1
          ++ [splitFinalEdge st e]) := by
  simp only [splitLongEdgesStep, splitChainOf, splitFinalEdge]
  rw [if_neg h]

theorem splitFinalEdge_src
    (st : List SugiyamaNode × List SugiyamaEdge) (e : SugiyamaEdge) :
    (splitFinalEdge st e).src =
      (splitChainOf e (lget st.1 e.src defaultSugiyamaNode).rank st.1
        ((lget st.1 e.dst defaultSugiyamaNode).rank
          - (lget st.1 e.src defaultSugiyamaNode).rank - 1).toNat).2.2 := rfl

theorem splitFinalEdge_dst
    (st : List SugiyamaNode × List SugiyamaEdge) (e : SugiyamaEdge) :
    (splitFinalEdge st e).dst = e.dst := rfl

theorem splitLongEdgesStep_inv (g : SugiyamaGraph)
    (hg : ∀ e2 ∈ g.edges, edgeEndpointsValid g.nodes.length e2)
    (st : List SugiyamaNode × List SugiyamaEdge)
    (ext : List SugiyamaNode) (hst1 : st.1 = g.nodes ++ ext)
    (hst2 : ∀ s ∈ st.2, EdgeSpanOK st.1 s)
    (e : SugiyamaEdge) (he : e ∈ g.edges) :
    (∃ ext2, (splitLongEdgesStep st e).1 = g.nodes ++ ext2) ∧
    ∀ s ∈ (splitLongEdgesStep st e).2,
      EdgeSpanOK (splitLongEdgesStep st e).1 s := by
  have hge := hg e he
  unfold edgeEndpointsValid at hge
  obtain ⟨hv1, hv2, hv3, hv4⟩ := hge
  have hlen : (g.nodes.length : Int) ≤ (st.1.length : Int) := by
    rw [hst1, List.length_append]
    push_cast
    omega
  by_cases hshort :
      (lget st.1 e.dst defaultSugiyamaNode).rank
        - (lget st.1 e.src defaultSugiyamaNode).rank ≤ 1
  · rw [splitLongEdgesStep_short st e hshort]
    dsimp only
    refine ⟨⟨ext, hst1⟩, ?_⟩
    intro s hs
    rcases List.mem_append.mp hs with hmem | hmem
    · exact hst2 s hmem
    · have hseq : s = e := by simpa using hmem
      subst hseq
      unfold EdgeSpanOK edgeEndpointsValid
      exact ⟨⟨hv1, by omega, hv3, by omega⟩, hshort⟩
  · rw [splitLongEdgesStep_long st e hshort]
    dsimp only
    obtain ⟨⟨ext2, hchain1⟩, ⟨hp0, hpLt⟩, hprank, hsegs⟩ :=
      splitChain_spec e ((lget st.1 e.src defaultSugiyamaNode).rank) st.1
        hv1 (by omega) rfl
        (((lget st.1 e.dst defaultSugiyamaNode).rank
          - (lget st.1 e.src defaultSugiyamaNode).rank - 1).toNat)
    have hchlen : (st.1.length : Int)
        ≤ (((splitChainOf e (lget st.1 e.src defaultSugiyamaNode).rank st.1
          ((lget st.1 e.dst defaultSugiyamaNode).rank
            - (lget st.1 e.src defaultSugiyamaNode).rank
            - 1).toNat).1).length : Int) := by
      rw [hchain1, List.length_append]
      push_cast
      omega
    refine ⟨⟨ext ++ ext2, by rw [hchain1, hst1, List.append_assoc]⟩, ?_⟩
    intro s hs
    rcases List.mem_append.mp hs with hmid | hfin
    · rcases List.mem_append.mp hmid with hold | hseg
      · rw [hchain1]
        exact edgeSpanOK_append st.1 ext2 s (hst2 s hold)
      · exact hsegs s hseg
    · have hseq : s = splitFinalEdge st e := by simpa using hfin
      subst hseq
      unfold EdgeSpanOK edgeEndpointsValid
      rw [splitFinalEdge_src, splitFinalEdge_dst]
      refine ⟨⟨hp0, hpLt, hv3, by omega⟩, ?_⟩
      rw [hprank, hchain1, lget_append_left _ hv3 (by omega)]
      omega

theorem splitLongEdges_fold (g : SugiyamaGraph)
    (hg : ∀ e2 ∈ g.edges, edgeEndpointsValid g.nodes.length e2) :
    ∀ es : List SugiyamaEdge, (∀ e2 ∈ es, e2 ∈ g.edges) →
      ∀ st : List SugiyamaNode × List SugiyamaEdge,
        (∃ ext, st.1 = g.nodes ++ ext) →
        (∀ s ∈ st.2, EdgeSpanOK st.1 s) →
        (∃ ext, (es.foldl splitLongEdgesStep st).1 = g.nodes ++ ext) ∧
        ∀ s ∈ (es.foldl splitLongEdgesStep st).2,
          EdgeSpanOK (es.foldl splitLongEdgesStep st).1 s := by
  intro es
  induction es with
  | nil =>
      intro _ st h1 h2
      exact ⟨h1, h2⟩
  | cons e rest ih =>
      intro hsub st h1 h2
      obtain ⟨ext, hext⟩ := h1
      have hstep := splitLongEdgesStep_inv g hg st ext hext h2 e
        (hsub e (by simp))
      rw [List.foldl_cons]
      exact ih (fun e2 he2 => hsub e2 (by simp [he2])) _ hstep.1 hstep.2

/-- C3 (amended): if every edge of the ranked working graph has valid
endpoint indices, then after `SplitLongEdges` every edge of the resulting
graph has valid endpoints and spans at most one rank
(`rank[dst] - rank[src] ≤ 1`); long edges are replaced by unit-span dummy
chains while short edges — including zero-span min-gap edges — are kept. -/
theorem c3_amended (g : SugiyamaGraph)
    (hg : ∀ e ∈ g.edges, edgeEndpointsValid g.nodes.length e) :
    ∀ s ∈ (splitLongEdges g).edges,
      EdgeSpanOK (splitLongEdges g).nodes s := by
  have h := splitLongEdges_fold g hg g.edges (fun _ h => h)
    (g.nodes, ([] : List SugiyamaEdge)) ⟨[], by simp⟩
    (by intro s hs; simp at hs)
  exact h.2

theorem c3_amended_witness :
    (∀ e ∈ c3SplitGraph.edges,
      edgeEndpointsValid c3SplitGraph.nodes.length e) ∧
    ∀ s ∈ (splitLongEdges c3SplitGraph).edges,
      EdgeSpanOK (splitLongEdges c3SplitGraph).nodes s :=
  ⟨by decide, c3_amended c3SplitGraph (by decide)⟩

/-! ## Further container lemmas shared by the remaining claims -/

theorem lset_out (xs : List α) (i : Int) (v : α)
    (h : ¬ (0 ≤ i ∧ i < (xs.length : Int))) : lset xs i v = xs := by
  unfold lset
  split
  · rfl
  · rename_i hge
    push_neg at hge h
    exact List.set_eq_of_length_le (by omega)

theorem lget_out (xs : List α) (i : Int) (d : α)
    (h : ¬ (0 ≤ i ∧ i < (xs.length : Int))) : lget xs i d = d := by
  unfold lget
  split
  · rfl
  · rename_i hge
    push_neg at hge h
    exact List.getD_eq_default _ _ (by omega)

theorem lget_lset_self (xs : List α) (i : Int) (v d : α)
    (h0 : 0 ≤ i) (h : i < (xs.length : Int)) :
    lget (lset xs i v) i d = v := by
  unfold lget lset
  rw [if_neg (by omega), if_neg (by omega)]
  have ht : i.toNat < xs.length := by omega
  rw [List.getD_eq_getElem?_getD, List.getElem?_set_self (by omega)]
  rfl

theorem lget_lset_ne (xs : List α) (i j : Int) (v d : α) (h : i ≠ j) :
    lget (lset xs i v) j d = lget xs j d := by
  unfold lget lset
  by_cases hi : i < 0
  · rw [if_pos hi]
  · rw [if_neg hi]
    by_cases hj : j < 0
    · rw [if_pos hj, if_pos hj]
    · rw [if_neg hj, if_neg hj, List.getD_eq_getElem?_getD,
        List.getD_eq_getElem?_getD, List.getElem?_set_ne (by omega)]

theorem lget_eq_getD (xs : List α) (i : Nat) (d : α) :
    lget xs (i : Int) d = xs.getD i d := by
  unfold lget
  rw [if_neg (by omega), Int.toNat_natCast]

theorem lget_replicate (n : Nat) (x : α) (i : Int) (d : α) :
    lget (List.replicate n x) i d = if 0 ≤ i ∧ i < (n : Int) then x else d := by
  unfold lget
  split
  · rw [if_neg (by omega)]
  · rename_i hge
    push_neg at hge
    by_cases h : i < (n : Int)
    · rw [if_pos ⟨hge, h⟩, List.getD_eq_getElem?_getD,
        List.getElem?_replicate, if_pos (by omega)]
      rfl
    · rw [if_neg (by omega), List.getD_eq_default]
      rw [List.length_replicate]
      omega

theorem tmapContains_iff (m : List (Int × β)) (k : Int) :
    tmapContains m k = true ↔ ∃ v, (k, v) ∈ m := by
  unfold tmapContains
  rw [List.any_eq_true]
  constructor
  · rintro ⟨p, hp, he⟩
    exact ⟨p.2, by cases p with | _ a b => simp_all⟩
  · rintro ⟨v, hv⟩
    exact ⟨(k, v), hv, by simp⟩

theorem tmapFind?_mem {m : List (Int × β)} {k : Int} {v : β}
    (h : tmapFind? m k = some v) : (k, v) ∈ m := by
  unfold tmapFind? at h
  cases hf : m.find? (fun p => p.1 == k) with
  | none => rw [hf] at h; simp at h
  | some q =>
      rw [hf] at h
      simp at h
      have hq := List.find?_some hf
      have hmem := List.mem_of_find?_eq_some hf
      have hqe : q = (k, v) := by
        cases q with
        | _ a b =>
            simp only [beq_iff_eq] at hq
            simp only at h
            rw [hq, h]
      rwa [hqe] at hmem

theorem tmapAdd_mem {m : List (Int × β)} {k : Int} {v : β} {p : Int × β}
    (h : p ∈ tmapAdd m k v) : p ∈ m ∨ p = (k, v) := by
  unfold tmapAdd at h
  split at h
  · rcases List.mem_map.mp h with ⟨q, hq, he⟩
    by_cases h1 : q.1 == k
    · rw [if_pos h1] at he
      exact Or.inr he.symm
    · rw [if_neg h1] at he
      exact Or.inl (he ▸ hq)
  · rcases List.mem_append.mp h with hm | hm
    · exact Or.inl hm
    · exact Or.inr (by simpa using hm)

theorem tmapAdd_cons_ne {p : Int × β} {rest : List (Int × β)} {k : Int}
    {v : β} (hp : (p.1 == k) = false) :
    tmapAdd (p :: rest) k v = p :: tmapAdd rest k v := by
  unfold tmapAdd tmapContains
  rw [List.any_cons, hp, Bool.false_or]
  split
  · rw [List.map_cons, if_neg (by simp [hp])]
  · rfl

theorem tmapFind?_tmapAdd_self (m : List (Int × β)) (k : Int) (v : β) :
    tmapFind? (tmapAdd m k v) k = some v := by
  induction m with
  | nil => simp [tmapAdd, tmapContains, tmapFind?]
  | cons p rest ih =>
      by_cases hp : p.1 == k
      · have hc : tmapContains (p :: rest) k = true := by
          unfold tmapContains
          rw [List.any_cons, hp, Bool.true_or]
        unfold tmapAdd
        rw [if_pos hc, List.map_cons, hp]
        unfold tmapFind?
        rw [List.find?_cons_of_pos _ (by simp)]
        rfl
      · rw [tmapAdd_cons_ne (by simpa using hp)]
        unfold tmapFind?
        rw [List.find?_cons_of_neg _ (by simpa using hp)]
        exact ih

theorem find?_map_replace_ne {rest : List (Int × β)} {k k2 : Int} {v : β}
    (h : k2 ≠ k) :
    (rest.map (fun p => if p.1 == k then (k, v) else p)).find?
        (fun p => p.1 == k2)
      = rest.find? (fun p => p.1 == k2) := by
  induction rest with
  | nil => rfl
  | cons q rq ih =>
      rw [List.map_cons]
      by_cases hq : q.1 == k
      · rw [if_pos hq]
        simp only [beq_iff_eq] at hq
        have h1 : ¬ ((((k, v) : Int × β).1 == k2) = true) := by
          simp only [beq_iff_eq]
          omega
        have h2 : ¬ ((q.1 == k2) = true) := by
          simp only [beq_iff_eq]
          omega
        rw [show List.find? (fun p => p.1 == k2)
              ((k, v) :: rq.map (fun p => if p.1 == k then (k, v) else p))
            = List.find? (fun p => p.1 == k2)
              (rq.map (fun p => if p.1 == k then (k, v) else p))
            from List.find?_cons_of_neg _ h1,
          show List.find? (fun p => p.1 == k2) (q :: rq)
            = List.find? (fun p => p.1 == k2) rq
            from List.find?_cons_of_neg _ h2]
        exact ih
      · rw [if_neg hq]
        by_cases hq2 : (q.1 == k2) = true
        · rw [show List.find? (fun p => p.1 == k2)
                (q :: rq.map (fun p => if p.1 == k then (k, v) else p))
              = some q from List.find?_cons_of_pos _ hq2,
            show List.find? (fun p => p.1 == k2) (q :: rq) = some q
              from List.find?_cons_of_pos _ hq2]
        · rw [show List.find? (fun p => p.1 == k2)
                (q :: rq.map (fun p => if p.1 == k then (k, v) else p))
              = List.find? (fun p => p.1 == k2)
                (rq.map (fun p => if p.1 == k then (k, v) else p))
              from List.find?_cons_of_neg _ hq2,
            show List.find? (fun p => p.1 == k2) (q :: rq)
              = List.find? (fun p => p.1 == k2) rq
              from List.find?_cons_of_neg _ hq2]
          exact ih

theorem tmapFind?_tmapAdd_ne (m : List (Int × β)) (k k2 : Int) (v : β)
    (h : k2 ≠ k) : tmapFind? (tmapAdd m k v) k2 = tmapFind? m k2 := by
  unfold tmapAdd
  split
  · unfold tmapFind?
    rw [find?_map_replace_ne h]
  · unfold tmapFind?
    rw [List.find?_append]
    have h1 : (([(k, v)] : List (Int × β)).find? (fun p => p.1 == k2))
        = none := by
      rw [List.find?_cons_of_neg _ (by simp only [beq_iff_eq]; omega)]
      rfl
    rw [h1, Option.or_none]

theorem tmapFind?_of_mem_nodupKeys {m : List (Int × β)} {k : Int} {v : β}
    (hmem : (k, v) ∈ m) (hnd : (m.map Prod.fst).Nodup) :
    tmapFind? m k = some v := by
  induction m with
  | nil => simp at hmem
  | cons p rest ih =>
      rw [List.map_cons, List.nodup_cons] at hnd
      rcases List.mem_cons.mp hmem with he | hm
      · unfold tmapFind?
        rw [← he, List.find?_cons_of_pos _ (by simp)]
        rfl
      · have hpk : ¬ ((p.1 == k) = true) := by
          simp only [beq_iff_eq]
          intro hc
          exact hnd.1 (hc ▸ List.mem_map.mpr ⟨(k, v), hm, rfl⟩)
        unfold tmapFind?
        rw [show List.find? (fun p => p.1 == k) (p :: rest)
            = List.find? (fun p => p.1 == k) rest
            from List.find?_cons_of_neg _ hpk]
        exact ih hm hnd.2

theorem insertBy_perm (less : α → α → Bool) (x : α) (l : List α) :
    (insertBy less x l).Perm (x :: l) := by
  induction l with
  | nil => exact List.Perm.refl _
  | cons y ys ih =>
      unfold insertBy
      split
      · exact List.Perm.refl _
      · exact (List.Perm.cons y ih).trans (List.Perm.swap x y ys)

theorem sortBy_perm (less : α → α → Bool) (l : List α) :
    (sortBy less l).Perm l := by
  suffices h : ∀ (l acc : List α),
      (l.foldl (fun acc x => insertBy less x acc) acc).Perm (acc ++ l) by
    have := h l []
    simpa [sortBy] using this
  intro l
  induction l with
  | nil => intro acc; simp
  | cons x rest ih =>
      intro acc
      rw [List.foldl_cons]
      refine (ih (insertBy less x acc)).trans ?_
      have h1 : (insertBy less x acc ++ rest).Perm ((x :: acc) ++ rest) :=
        (insertBy_perm less x acc).append_right rest
      refine h1.trans ?_
      simp only [List.cons_append]
      exact (List.perm_middle).symm

theorem chain'_le_insertBy (x : Int) (l : List Int)
    (h : l.Chain' (· ≤ ·)) :
    (insertBy (fun a b => a < b) x l).Chain' (· ≤ ·) := by
  induction l with
  | nil => simp [insertBy]
  | cons y ys ih =>
      by_cases hlt : x < y
      · have hstep : insertBy (fun a b => a < b) x (y :: ys)
            = x :: y :: ys := by
          simp [insertBy, hlt]
        rw [hstep]
        exact List.chain'_cons.mpr ⟨le_of_lt hlt, h⟩
      · have hstep : insertBy (fun a b => a < b) x (y :: ys)
            = y :: insertBy (fun a b => a < b) x ys := by
          simp [insertBy, hlt]
        rw [hstep]
        refine List.chain'_cons'.mpr ⟨?_, ih h.tail⟩
        intro hd hhd
        cases ys with
        | nil =>
            simp [insertBy] at hhd
            omega
        | cons z zs =>
            have hyz : y ≤ z := (List.chain'_cons.mp h).1
            by_cases hxz : x < z
            · simp [insertBy, hxz] at hhd
              omega
            · simp [insertBy, hxz] at hhd
              omega

theorem sortBy_lt_chain (ids : List Int) :
    (sortBy (fun a b => a < b) ids).Chain' (· ≤ ·) := by
  suffices h : ∀ (l acc : List Int), acc.Chain' (· ≤ ·) →
      (l.foldl (fun acc x => insertBy (fun a b => a < b) x acc) acc).Chain'
        (· ≤ ·) by
    exact h ids [] (by simp)
  intro l
  induction l with
  | nil => intro acc h; simpa using h
  | cons x rest ih =>
      intro acc h
      rw [List.foldl_cons]
      exact ih _ (chain'_le_insertBy x acc h)

theorem chain'_lt_of (l : List Int) (h1 : l.Chain' (· ≤ ·))
    (h2 : l.Chain' (· ≠ ·)) : l.Chain' (· < ·) := by
  induction l with
  | nil => simp
  | cons x ys ih =>
      cases ys with
      | nil => simp
      | cons y zs =>
          rw [List.chain'_cons] at h1 h2 ⊢
          exact ⟨by omega, ih h1.2 h2.2⟩

theorem dedupSortedIds_nodup (ids : List Int) :
    (dedupSortedIds ids).Nodup := by
  unfold dedupSortedIds
  have h1 := sortBy_lt_chain ids
  have h2 : (List.destutter (· ≠ ·) (sortBy (fun a b => a < b) ids)).Chain'
      (· ≠ ·) := List.destutter_is_chain' _ _
  have hsub : List.Sublist
      (List.destutter (· ≠ ·) (sortBy (fun a b => a < b) ids))
      (sortBy (fun a b => a < b) ids) :=
    List.destutter_sublist _ _
  have h1p : (sortBy (fun a b => a < b) ids).Pairwise (· ≤ ·) :=
    List.chain'_iff_pairwise.mp h1
  have h3 : (List.destutter (· ≠ ·) (sortBy (fun a b => a < b) ids)).Pairwise
      (· ≤ ·) := h1p.sublist hsub
  have h4 := chain'_lt_of _ (List.chain'_iff_pairwise.mpr h3) h2
  have h5 : (List.destutter (· ≠ ·) (sortBy (fun a b => a < b) ids)).Pairwise
      (· < ·) := List.chain'_iff_pairwise.mp h4
  exact h5.imp (fun h => by omega)

theorem dedupSortedIds_ne_nil (ids : List Int) (h : ids ≠ []) :
    dedupSortedIds ids ≠ [] := by
  unfold dedupSortedIds
  have hp := sortBy_perm (fun a b => a < b) ids
  have hs : sortBy (fun a b => a < b) ids ≠ [] := by
    intro hc
    exact h (List.Perm.nil_eq (hc ▸ hp) |>.symm)
  cases hd : sortBy (fun a b => a < b) ids with
  | nil => exact absurd hd hs
  | cons x xs =>
      simp only [List.destutter]
      exact List.destutter'_ne_nil _ _

theorem tmapAdd_fold_range_eq (G : Nat → β) (n : Nat) :
    (List.range n).foldl (fun ps (i : Nat) => tmapAdd ps (i : Int) (G i)) []
      = (List.range n).map (fun (i : Nat) => ((i : Int), G i)) := by
  induction n with
  | zero => rfl
  | succ n ih =>
      rw [List.range_succ, List.foldl_append, List.map_append, ih]
      simp only [List.foldl_cons, List.foldl_nil, List.map_cons,
        List.map_nil]
      have hc : tmapContains
          ((List.range n).map (fun (i : Nat) => ((i : Int), G i))) (n : Int)
            = false := by
        unfold tmapContains
        rw [List.any_eq_false]
        intro p hp
        rcases List.mem_map.mp hp with ⟨i, hi, he⟩
        have hin := List.mem_range.mp hi
        rw [← he]
        dsimp only
        simp only [beq_iff_eq, beq_eq_false_iff_ne, ne_eq]
        omega
      unfold tmapAdd
      rw [hc]
      simp

theorem map_lget_range_eq (l : List α) (d : α) :
    (List.range l.length).map (fun (i : Nat) => lget l (i : Int) d) = l := by
  refine List.ext_getElem (by simp) ?_
  intro i h1 h2
  simp only [List.getElem_map, List.getElem_range]
  rw [lget_eq_getD]
  exact List.getD_eq_getElem l d h2

/-! ## The graph-id index map and `BuildWorkNodes` -/

theorem graphIdToIndex_fold_mem (g : LayoutGraph) :
    ∀ (l : List Nat), (∀ j ∈ l, j < g.nodes.length) →
      ∀ (m0 : List (Int × Int)),
        (∀ p ∈ m0, 0 ≤ p.2 ∧ p.2 < (g.nodes.length : Int) ∧
          (lget g.nodes p.2 defaultLayoutNode).id = p.1) →
        ∀ p ∈ l.foldl
            (fun m i =>
              tmapAdd m (g.nodes.getD i defaultLayoutNode).id (i : Int)) m0,
          0 ≤ p.2 ∧ p.2 < (g.nodes.length : Int) ∧
          (lget g.nodes p.2 defaultLayoutNode).id = p.1 := by
  intro l
  induction l with
  | nil =>
      intro _ m0 hm0 p hp
      exact hm0 p hp
  | cons j rest ih =>
      intro hl m0 hm0
      rw [List.foldl_cons]
      refine ih (fun x hx => hl x (by simp [hx])) _ ?_
      intro p hp
      rcases tmapAdd_mem hp with hm | he
      · exact hm0 p hm
      · subst he
        have hj : j < g.nodes.length := hl j (by simp)
        refine ⟨by omega, by push_cast; omega, ?_⟩
        rw [lget_eq_getD]

theorem graphIdToIndex_spec (g : LayoutGraph) (i idx : Int)
    (h : tmapFind? (graphIdToIndexOf g) i = some idx) :
    0 ≤ idx ∧ idx < (g.nodes.length : Int) ∧
    (lget g.nodes idx defaultLayoutNode).id = i := by
  have hmem := tmapFind?_mem h
  exact graphIdToIndex_fold_mem g (List.range g.nodes.length)
    (fun j hj => List.mem_range.mp hj) [] (by simp) (i, idx) hmem

/-! ## Claim C6 — single-node identity -/

/-- C6: whenever the requested component id list deduplicates to exactly
one id and that id is present in the graph, `LayoutComponent` succeeds via
the single-node fast path and its position map carries exactly that node
with its original position unchanged. -/
theorem c6_single_node_identity (g : LayoutGraph) (ids : List Int)
    (s : LayoutSettings) (i idx : Int)
    (hids : dedupSortedIds ids = [i])
    (hfind : tmapFind? (graphIdToIndexOf g) i = some idx) :
    (layoutComponent g ids s).success = true ∧
    (layoutComponent g ids s).error = none ∧
    (layoutComponent g ids s).result.nodePositions =
      [(i, (lget g.nodes idx defaultLayoutNode).position)] := by
  obtain ⟨hidx0, hidxlt, hid⟩ := graphIdToIndex_spec g i idx hfind
  have hne : ids.isEmpty = false := by
    cases ids with
    | nil => simp [dedupSortedIds, sortBy, List.destutter] at hids
    | cons a t => rfl
  have href : tmapFindRefInt (graphIdToIndexOf g) i = idx := by
    unfold tmapFindRefInt
    rw [hfind]
    rfl
  have hb : buildWorkNodes g ids =
      ⟨true, [workNodeOf g idx],
        [((lget g.nodes idx defaultLayoutNode).id, 0)], none⟩ := by
    unfold buildWorkNodes
    rw [hids, List.foldl_cons, List.foldl_nil]
    simp only [buildWorkNodesStep]
    rw [if_neg (by simp), href,
      if_neg (by simp only [beq_iff_eq]; omega)]
    simp [tmapAdd, tmapContains, workNodeOf]
  have htry : tryHandleSingleNode [workNodeOf g idx]
      ({} : LayoutComponentResult) =
      some ⟨[((lget g.nodes idx defaultLayoutNode).id,
          (lget g.nodes idx defaultLayoutNode).position)],
        boxAdd none (workNodeOf g idx).position
          (Vec2.add (workNodeOf g idx).position (workNodeOf g idx).size)⟩ := by
    unfold tryHandleSingleNode
    rw [if_neg (by simp)]
    simp [tmapAdd, tmapContains, workNodeOf]
  have hlc : layoutComponent g ids s =
      ⟨true, ⟨[((lget g.nodes idx defaultLayoutNode).id,
          (lget g.nodes idx defaultLayoutNode).position)],
        boxAdd none (workNodeOf g idx).position
          (Vec2.add (workNodeOf g idx).position (workNodeOf g idx).size)⟩,
        none⟩ := by
    unfold layoutComponent
    rw [hne]
    rw [if_neg (by simp), hb]
    dsimp only
    rw [htry]
    rfl
  rw [hlc]
  refine ⟨rfl, rfl, ?_⟩
  rw [hid]

theorem c6_witness :
    dedupSortedIds [7] = [7] ∧
    tmapFind? (graphIdToIndexOf c1Graph) 7 = some 0 ∧
    ((layoutComponent c1Graph [7] defaultSettings).success = true ∧
     (layoutComponent c1Graph [7] defaultSettings).error = none ∧
     (layoutComponent c1Graph [7] defaultSettings).result.nodePositions =
       [(7, (lget c1Graph.nodes 0 defaultLayoutNode).position)]) :=
  ⟨by decide, by decide,
    c6_single_node_identity c1Graph [7] defaultSettings 7 0
      (by decide) (by decide)⟩

/-! ## Claim C10 — the output position map carries exactly the resolved
component ids -/

theorem buildWorkNodes_fold (g : LayoutGraph) :
    ∀ (l : List Int),
      (∀ x ∈ l, (tmapFind? (graphIdToIndexOf g) x).isSome = true) →
      ∀ st : BuildWorkNodesResult, st.success = true →
        (l.foldl (buildWorkNodesStep g (graphIdToIndexOf g)) st).success
            = true ∧
        (l.foldl (buildWorkNodesStep g (graphIdToIndexOf g)) st).nodes.map
            (fun n => n.id)
          = st.nodes.map (fun n => n.id) ++ l := by
  intro l
  induction l with
  | nil =>
      intro _ st hst
      exact ⟨hst, by simp⟩
  | cons x rest ih =>
      intro hl st hst
      obtain ⟨idx, hidx⟩ := Option.isSome_iff_exists.mp (hl x (by simp))
      obtain ⟨hidx0, hidxlt, hid⟩ := graphIdToIndex_spec g x idx hidx
      have href : tmapFindRefInt (graphIdToIndexOf g) x = idx := by
        unfold tmapFindRefInt
        rw [hidx]
        rfl
      have hstep : buildWorkNodesStep g (graphIdToIndexOf g) st x
          = { st with
              idToIndex := tmapAdd st.idToIndex (workNodeOf g idx).id
                (st.nodes.length : Int)
              nodes := st.nodes ++ [workNodeOf g idx] } := by
        simp only [buildWorkNodesStep]
        rw [if_neg (by rw [hst]; simp), href,
          if_neg (by simp only [beq_iff_eq]; omega)]
      rw [List.foldl_cons, hstep]
      have hrec := ih (fun y hy => hl y (by simp [hy]))
        { st with
          idToIndex := tmapAdd st.idToIndex (workNodeOf g idx).id
            (st.nodes.length : Int)
          nodes := st.nodes ++ [workNodeOf g idx] } hst
      refine ⟨hrec.1, ?_⟩
      rw [hrec.2]
      have hwid : (workNodeOf g idx).id = x := hid
      simp [hwid]

theorem buildWorkNodes_chars (g : LayoutGraph) (ids : List Int)
    (hpresent : ∀ x ∈ dedupSortedIds ids,
      (tmapFind? (graphIdToIndexOf g) x).isSome = true) :
    (buildWorkNodes g ids).success = true ∧
    (buildWorkNodes g ids).nodes.map (fun n => n.id) = dedupSortedIds ids := by
  have h := buildWorkNodes_fold g (dedupSortedIds ids) hpresent
    { success := true, nodes := [], idToIndex := [], error := none } rfl
  exact ⟨h.1, by simpa using h.2⟩

theorem lget_map_field (f : α → α) (proj : α → γ)
    (hpf : ∀ a, proj (f a) = proj a) (xs : List α) (j : Int) (d : α) :
    proj (lget (xs.map f) j d) = proj (lget xs j d) := by
  unfold lget
  split
  · rfl
  · rw [List.getD_eq_getElem?_getD, List.getD_eq_getElem?_getD,
      List.getElem?_map]
    cases h : xs[j.toNat]? with
    | none => simp
    | some a => simp [hpf]

theorem applySugiyamaRanks_facts (sg : SugiyamaGraph)
    (nodes : List LayoutNode) :
    (applySugiyamaRanks sg nodes).length = nodes.length ∧
    ∀ j : Int,
      (lget (applySugiyamaRanks sg nodes) j defaultLayoutNode).id
          = (lget nodes j defaultLayoutNode).id ∧
      (lget (applySugiyamaRanks sg nodes) j defaultLayoutNode).position
          = (lget nodes j defaultLayoutNode).position := by
  unfold applySugiyamaRanks
  suffices h : ∀ (l : List SugiyamaNode) (ns : List LayoutNode),
      ns.length = nodes.length →
      (∀ j : Int, (lget ns j defaultLayoutNode).id
          = (lget nodes j defaultLayoutNode).id ∧
        (lget ns j defaultLayoutNode).position
          = (lget nodes j defaultLayoutNode).position) →
      (l.foldl
          (fun ns sn =>
            if sn.isDummy || sn.sourceIndex == -1 then ns
            else if !(isValidIndex ns.length sn.sourceIndex) then ns
            else
              lset ns sn.sourceIndex
                { (lget ns sn.sourceIndex defaultLayoutNode) with
                  globalRank := max 0 sn.rank
                  globalOrder := max 0 sn.order }) ns).length
          = nodes.length ∧
      ∀ j : Int,
        (lget (l.foldl
            (fun ns sn =>
              if sn.isDummy || sn.sourceIndex == -1 then ns
              else if !(isValidIndex ns.length sn.sourceIndex) then ns
              else
                lset ns sn.sourceIndex
                  { (lget ns sn.sourceIndex defaultLayoutNode) with
                    globalRank := max 0 sn.rank
                    globalOrder := max 0 sn.order }) ns) j
            defaultLayoutNode).id
            = (lget nodes j defaultLayoutNode).id ∧
        (lget (l.foldl
            (fun ns sn =>
              if sn.isDummy || sn.sourceIndex == -1 then ns
              else if !(isValidIndex ns.length sn.sourceIndex) then ns
              else
                lset ns sn.sourceIndex
                  { (lget ns sn.sourceIndex defaultLayoutNode) with
                    globalRank := max 0 sn.rank
                    globalOrder := max 0 sn.order }) ns) j
            defaultLayoutNode).position
            = (lget nodes j defaultLayoutNode).position by
    refine h sg.nodes
      (nodes.map (fun n =>
        { n with globalRank := 0, globalOrder := 0 })) (by simp) ?_
    intro j
    constructor
    · exact lget_map_field
        (fun n => { n with globalRank := 0, globalOrder := 0 })
        (fun n => n.id) (fun a => rfl) nodes j defaultLayoutNode
    · exact lget_map_field
        (fun n => { n with globalRank := 0, globalOrder := 0 })
        (fun n => n.position) (fun a => rfl) nodes j defaultLayoutNode
  intro l
  induction l with
  | nil =>
      intro ns h1 h2
      exact ⟨h1, h2⟩
  | cons sn rest ih =>
      intro ns h1 h2
      rw [List.foldl_cons]
      by_cases hc1 : (sn.isDummy || sn.sourceIndex == -1) = true
      · rw [if_pos hc1]
        exact ih ns h1 h2
      · rw [if_neg hc1]
        by_cases hc2 : (!(isValidIndex ns.length sn.sourceIndex)) = true
        · rw [if_pos hc2]
          exact ih ns h1 h2
        · rw [if_neg hc2]
          have hvalid : 0 ≤ sn.sourceIndex
              ∧ sn.sourceIndex < (ns.length : Int) := by
            simp only [Bool.not_eq_true] at hc2
            have := isValidIndex_iff.mp (by
              cases h : isValidIndex ns.length sn.sourceIndex
              · rw [h] at hc2; simp at hc2
              · rfl)
            exact this
          refine ih _ (by rw [lset_length]; exact h1) ?_
          intro j
          by_cases hj : sn.sourceIndex = j
          · subst hj
            rw [lget_lset_self _ _ _ _ hvalid.1 hvalid.2]
            exact ⟨(h2 sn.sourceIndex).1, (h2 sn.sourceIndex).2⟩
          · rw [lget_lset_ne _ _ _ _ _ hj]
            exact h2 j

theorem tryHandleSingleNode_none (nodes : List LayoutNode)
    (res : LayoutComponentResult) (h : nodes.length ≠ 1) :
    tryHandleSingleNode nodes res = none := by
  unfold tryHandleSingleNode
  rw [if_pos h]

theorem placeCompact_positions_ex (nodes : List LayoutNode)
    (edges : List LayoutEdge) (a b c d : ℚ) (al : RankAlignment)
    (h : nodes.isEmpty = false) :
    ∃ G : Nat → Vec2,
      (placeGlobalRankOrderCompact nodes edges a b c d al).positions
        = (List.range nodes.length).map (fun (i : Nat) => ((i : Int), G i)) := by
  simp only [placeGlobalRankOrderCompact, h, Bool.false_eq_true, if_false]
  exact ⟨_, tmapAdd_fold_range_eq _ _⟩

theorem map_fst_pairs (f : Nat → Int) (v : Nat → Vec2) (l : List Nat) :
    (l.map (fun i => (f i, v i))).map Prod.fst = l.map f := by
  rw [List.map_map]
  rfl

theorem afp_secondary_fold (nodes : List LayoutNode) (G : Nat → Vec2)
    (off : Vec2)
    (hinj : ∀ a b : Nat, a < nodes.length → b < nodes.length →
      (lget nodes (a : Int) defaultLayoutNode).id
        = (lget nodes (b : Int) defaultLayoutNode).id → a = b) :
    ∀ m : Nat, m ≤ nodes.length →
      ∃ bnd : Option (Vec2 × Vec2),
        ((List.range m).map (fun (i : Nat) => ((i : Int), G i))).foldl
            (afpSecondaryStep off nodes) ([], ({} : LayoutComponentResult))
          = ([], ⟨(List.range m).map (fun (i : Nat) =>
              ((lget nodes (i : Int) defaultLayoutNode).id,
                Vec2.add (G i) off)), bnd⟩) := by
  intro m
  induction m with
  | zero => exact fun _ => ⟨none, rfl⟩
  | succ m ih =>
      intro hm
      obtain ⟨bnd, hb⟩ := ih (by omega)
      rw [List.range_succ, List.map_append, List.foldl_append, hb]
      simp only [List.map_cons, List.map_nil, List.foldl_cons,
        List.foldl_nil]
      have hvalid : isValidIndex nodes.length ((m : Nat) : Int) = true :=
        isValidIndex_iff.mpr ⟨by omega, by omega⟩
      have hcond : (!(isValidIndex nodes.length ((m : Nat) : Int))
          || tsetContains [] ((m : Nat) : Int)) = false := by
        rw [hvalid]
        rfl
      have hcontains : tmapContains
          ((List.range m).map (fun (i : Nat) =>
            ((lget nodes (i : Int) defaultLayoutNode).id,
              Vec2.add (G i) off)))
          (lget nodes ((m : Nat) : Int) defaultLayoutNode).id = false := by
        unfold tmapContains
        rw [List.any_eq_false]
        intro p hp
        rcases List.mem_map.mp hp with ⟨j, hj, he⟩
        have hjm := List.mem_range.mp hj
        rw [← he]
        dsimp only
        simp only [beq_iff_eq, beq_eq_false_iff_ne, ne_eq]
        intro hc
        have := hinj j m (by omega) (by omega) hc
        omega
      refine ⟨boxAdd bnd (Vec2.add (G m) off)
        (Vec2.add (Vec2.add (G m) off)
          (lget nodes ((m : Nat) : Int) defaultLayoutNode).size), ?_⟩
      simp only [afpSecondaryStep]
      rw [if_neg (by rw [hcond]; simp)]
      unfold tmapAdd
      rw [hcontains, if_neg (by simp), List.map_append]
      rfl

theorem applyFinalPositions_of_rangeMap (nodes : List LayoutNode)
    (G : Nat → Vec2) (off : Vec2)
    (hinj : ∀ a b : Nat, a < nodes.length → b < nodes.length →
      (lget nodes (a : Int) defaultLayoutNode).id
        = (lget nodes (b : Int) defaultLayoutNode).id → a = b) :
    (applyFinalPositions []
        ((List.range nodes.length).map (fun (i : Nat) => ((i : Int), G i)))
        off nodes ({} : LayoutComponentResult)).nodePositions
      = (List.range nodes.length).map (fun (i : Nat) =>
          ((lget nodes (i : Int) defaultLayoutNode).id,
            Vec2.add (G i) off)) := by
  obtain ⟨bnd, hb⟩ := afp_secondary_fold nodes G off hinj nodes.length
    (Nat.le_refl _)
  unfold applyFinalPositions
  simp only [List.foldl_nil]
  rw [hb]

theorem rankedNodes_facts (g : LayoutGraph) (ids : List Int)
    (s : LayoutSettings) :
    (rankedNodesOf g ids s).length = (buildWorkNodes g ids).nodes.length ∧
    ∀ j : Int,
      (lget (rankedNodesOf g ids s) j defaultLayoutNode).id
          = (lget (buildWorkNodes g ids).nodes j defaultLayoutNode).id ∧
      (lget (rankedNodesOf g ids s) j defaultLayoutNode).position
          = (lget (buildWorkNodes g ids).nodes j defaultLayoutNode).position := by
  unfold rankedNodesOf
  exact applySugiyamaRanks_facts _ _

theorem ranked_ids_eq (g : LayoutGraph) (ids : List Int) (s : LayoutSettings)
    (hpresent : ∀ x ∈ dedupSortedIds ids,
      (tmapFind? (graphIdToIndexOf g) x).isSome = true) :
    (List.range (rankedNodesOf g ids s).length).map
        (fun (i : Nat) =>
          (lget (rankedNodesOf g ids s) (i : Int) defaultLayoutNode).id)
      = dedupSortedIds ids := by
  obtain ⟨hlen, hjfacts⟩ := rankedNodes_facts g ids s
  obtain ⟨hsucc, hids⟩ := buildWorkNodes_chars g ids hpresent
  rw [hlen]
  have h1 : ∀ i ∈ List.range (buildWorkNodes g ids).nodes.length,
      (lget (rankedNodesOf g ids s) (i : Int) defaultLayoutNode).id
        = (lget (buildWorkNodes g ids).nodes (i : Int) defaultLayoutNode).id :=
    fun i _ => (hjfacts i).1
  rw [List.map_congr_left h1]
  have h3 := congrArg (List.map (fun (n : LayoutNode) => n.id))
    (map_lget_range_eq (buildWorkNodes g ids).nodes defaultLayoutNode)
  rw [List.map_map] at h3
  rw [hids] at h3
  exact h3

theorem ranked_ids_inj (g : LayoutGraph) (ids : List Int) (s : LayoutSettings)
    (hpresent : ∀ x ∈ dedupSortedIds ids,
      (tmapFind? (graphIdToIndexOf g) x).isSome = true) :
    ∀ a b : Nat, a < (rankedNodesOf g ids s).length →
      b < (rankedNodesOf g ids s).length →
      (lget (rankedNodesOf g ids s) (a : Int) defaultLayoutNode).id
        = (lget (rankedNodesOf g ids s) (b : Int) defaultLayoutNode).id →
      a = b := by
  intro a b ha hb hab
  have hnd : ((List.range (rankedNodesOf g ids s).length).map
      (fun (i : Nat) =>
        (lget (rankedNodesOf g ids s) (i : Int) defaultLayoutNode).id)).Nodup := by
    rw [ranked_ids_eq g ids s hpresent]
    exact dedupSortedIds_nodup ids
  have hlen : ((List.range (rankedNodesOf g ids s).length).map
      (fun (i : Nat) =>
        (lget (rankedNodesOf g ids s) (i : Int) defaultLayoutNode).id)).length
      = (rankedNodesOf g ids s).length := by simp
  have ha2 : a < ((List.range (rankedNodesOf g ids s).length).map
      (fun (i : Nat) =>
        (lget (rankedNodesOf g ids s) (i : Int) defaultLayoutNode).id)).length := by
    omega
  have hb2 : b < ((List.range (rankedNodesOf g ids s).length).map
      (fun (i : Nat) =>
        (lget (rankedNodesOf g ids s) (i : Int) defaultLayoutNode).id)).length := by
    omega
  have hgl := (@List.Nodup.getElem_inj_iff _ _ hnd _ ha2 _ hb2).mp
  refine hgl ?_
  simp only [List.getElem_map, List.getElem_range]
  exact hab

/-- C10: whenever every requested id is present in the graph and the
component resolves to at least two work nodes, `LayoutComponent` succeeds
and its position map lists exactly the distinct resolved node ids, in
sorted order, with no synthetic (dummy or exec-tail) entries. -/
theorem c10_output_ids_exact (g : LayoutGraph) (ids : List Int)
    (s : LayoutSettings)
    (hpresent : ∀ x ∈ dedupSortedIds ids,
      (tmapFind? (graphIdToIndexOf g) x).isSome = true)
    (hfew : 2 ≤ (dedupSortedIds ids).length) :
    (layoutComponent g ids s).success = true ∧
    (layoutComponent g ids s).result.nodePositions.map Prod.fst
      = dedupSortedIds ids := by
  obtain ⟨hsucc, hids⟩ := buildWorkNodes_chars g ids hpresent
  have hlen : (buildWorkNodes g ids).nodes.length
      = (dedupSortedIds ids).length := by
    rw [← hids]
    simp
  have hne : ids.isEmpty = false := by
    cases ids with
    | nil => simp [dedupSortedIds, sortBy, List.destutter] at hfew
    | cons a t => rfl
  have htry : tryHandleSingleNode (buildWorkNodes g ids).nodes
      ({} : LayoutComponentResult) = none :=
    tryHandleSingleNode_none _ _ (by omega)
  have hlc : layoutComponent g ids s =
      ⟨true, applyFinalPositions [] (placementOf g ids s).positions
        (computeGlobalAnchorOffset (rankedNodesOf g ids s)
          (placementOf g ids s)) (rankedNodesOf g ids s)
        ({} : LayoutComponentResult), none⟩ := by
    simp only [layoutComponent, hne, Bool.false_eq_true, if_false, hsucc,
      htry]
    rfl
  rw [hlc]
  refine ⟨rfl, ?_⟩
  obtain ⟨hrlen, hrfacts⟩ := rankedNodes_facts g ids s
  have hrne : (rankedNodesOf g ids s).isEmpty = false := by
    cases hr : rankedNodesOf g ids s with
    | nil =>
        exfalso
        rw [hr] at hrlen
        simp at hrlen
        omega
    | cons a t => rfl
  have hpos : ∃ G : Nat → Vec2, (placementOf g ids s).positions
      = (List.range (rankedNodesOf g ids s).length).map
        (fun (i : Nat) => ((i : Int), G i)) := by
    unfold placementOf
    exact placeCompact_positions_ex _ _ _ _ _ _ _ hrne
  obtain ⟨G, hG⟩ := hpos
  dsimp only
  rw [hG,
    applyFinalPositions_of_rangeMap (rankedNodesOf g ids s) G _
      (ranked_ids_inj g ids s hpresent),
    map_fst_pairs]
  exact ranked_ids_eq g ids s hpresent

theorem c10_witness :
    (∀ x ∈ dedupSortedIds witnessIds,
      (tmapFind? (graphIdToIndexOf witnessGraph) x).isSome = true) ∧
    2 ≤ (dedupSortedIds witnessIds).length ∧
    ((layoutComponent witnessGraph witnessIds defaultSettings).success
        = true ∧
     (layoutComponent witnessGraph witnessIds
        defaultSettings).result.nodePositions.map Prod.fst
        = dedupSortedIds witnessIds) :=
  ⟨by decide, by decide,
    c10_output_ids_exact witnessGraph witnessIds defaultSettings
      (by decide) (by decide)⟩

/-! ## Claim C7 — anchor stability -/

theorem foldl_choice_bound (f : Int → Nat → Int)
    (hf : ∀ (a : Int) (i : Nat), f a i = a ∨ f a i = (i : Int)) (n : Nat) :
    ∀ l : List Nat, (∀ x ∈ l, x < n) → ∀ a : Int,
      (a = -1 ∨ (0 ≤ a ∧ a < (n : Int))) →
      (l.foldl f a = -1 ∨ (0 ≤ l.foldl f a ∧ l.foldl f a < (n : Int))) := by
  intro l
  induction l with
  | nil => intro _ a ha; exact ha
  | cons x rest ih =>
      intro hl a ha
      rw [List.foldl_cons]
      refine ih (fun y hy => hl y (by simp [hy])) (f a x) ?_
      rcases hf a x with he | he
      · rw [he]; exact ha
      · rw [he]
        right
        have := hl x (by simp)
        constructor
        · omega
        · omega

theorem foldl_choice_bound_pos (f : Int → Nat → Int)
    (hf : ∀ (a : Int) (i : Nat), f a i = a ∨ f a i = (i : Int)) (n : Nat) :
    ∀ l : List Nat, (∀ x ∈ l, x < n) → ∀ a : Int,
      0 ≤ a → a < (n : Int) →
      0 ≤ l.foldl f a ∧ l.foldl f a < (n : Int) := by
  intro l
  induction l with
  | nil => intro _ a h0 h1; exact ⟨h0, h1⟩
  | cons x rest ih =>
      intro hl a h0 h1
      rw [List.foldl_cons]
      rcases hf a x with he | he
      · rw [he]
        exact ih (fun y hy => hl y (by simp [hy])) a h0 h1
      · rw [he]
        have := hl x (by simp)
        exact ih (fun y hy => hl y (by simp [hy])) _ (by omega) (by omega)

theorem anchorFirstPass_cases (nodes : List LayoutNode) :
    anchorFirstPass nodes = -1 ∨
    (0 ≤ anchorFirstPass nodes
      ∧ anchorFirstPass nodes < (nodes.length : Int)) := by
  unfold anchorFirstPass
  refine foldl_choice_bound _ ?_ nodes.length _
    (fun x hx => List.mem_range.mp hx) (-1) (Or.inl rfl)
  intro a i
  dsimp only
  split
  · split
    · exact Or.inr rfl
    · exact Or.inl rfl
  · exact Or.inl rfl

theorem anchorSecondPass_bounds (nodes : List LayoutNode) (h : nodes ≠ []) :
    0 ≤ anchorSecondPass nodes
      ∧ anchorSecondPass nodes < (nodes.length : Int) := by
  unfold anchorSecondPass
  obtain ⟨m, hm⟩ : ∃ m, nodes.length = m + 1 := by
    cases hn : nodes with
    | nil => exact absurd hn h
    | cons y ys => exact ⟨ys.length, by simp⟩
  rw [hm, List.range_succ_eq_map, List.foldl_cons]

  have hfirst : (if isBetterAnchor nodes ((0 : Nat) : Int) (-1)
      then ((0 : Nat) : Int) else (-1)) = ((0 : Nat) : Int) := by
    rw [if_pos]
    unfold isBetterAnchor
    rw [if_neg (by simp), if_pos (by simp)]
  rw [hfirst]
  have hres := foldl_choice_bound_pos
    (fun a (i : Nat) =>
      if isBetterAnchor nodes (i : Int) a then (i : Int) else a)
    (by
      intro a i
      dsimp only
      split
      · exact Or.inr rfl
      · exact Or.inl rfl)
    nodes.length ((List.range m).map Nat.succ)
    (by
      intro x hx
      rcases List.mem_map.mp hx with ⟨j, hj, he⟩
      have := List.mem_range.mp hj
      omega)
    ((0 : Nat) : Int) (by omega) (by omega)
  constructor
  · exact hres.1
  · have h2 := hres.2
    rw [hm] at h2
    exact h2

theorem anchorIndexOf_bounds (nodes : List LayoutNode) (h : nodes ≠ []) :
    0 ≤ anchorIndexOf nodes
      ∧ anchorIndexOf nodes < (nodes.length : Int) := by
  unfold anchorIndexOf
  rcases anchorFirstPass_cases nodes with h1 | h1
  · rw [h1]
    dsimp only
    rw [if_pos (by decide)]
    exact anchorSecondPass_bounds nodes h
  · dsimp only
    rw [if_neg (by simp only [beq_iff_eq]; omega)]
    exact h1

theorem Vec2.add_sub_cancel (a b : Vec2) :
    Vec2.add b (Vec2.sub a b) = a := by
  cases a with
  | _ ax ay =>
      cases b with
      | _ bx bY =>
          simp only [Vec2.add, Vec2.sub, Vec2.mk.injEq]
          constructor
          · ring
          · ring

theorem placeCompact_anchor (nodes : List LayoutNode)
    (edges : List LayoutEdge) (a b c d : ℚ) (al : RankAlignment)
    (h : nodes.isEmpty = false) :
    (placeGlobalRankOrderCompact nodes edges a b c d al).anchorNodeIndex
      = anchorIndexOf nodes := by
  simp only [placeGlobalRankOrderCompact, h, Bool.false_eq_true, if_false]

theorem rangeMap_fst_nodup (G : Nat → Vec2) (n : Nat) :
    (((List.range n).map (fun (i : Nat) => ((i : Int), G i))).map
      Prod.fst).Nodup := by
  rw [map_fst_pairs]
  exact (List.nodup_range n).map (fun a b hab => by omega)

theorem computeGlobalAnchorOffset_eval (nodes : List LayoutNode)
    (pl : GlobalPlacement) (G : Nat → Vec2) (aN : Nat)
    (hpos : pl.positions = (List.range nodes.length).map
      (fun (i : Nat) => ((i : Int), G i)))
    (hanchor : pl.anchorNodeIndex = ((aN : Nat) : Int))
    (haN : aN < nodes.length) :
    computeGlobalAnchorOffset nodes pl
      = Vec2.sub (lget nodes ((aN : Nat) : Int) defaultLayoutNode).position
          (G aN) := by
  unfold computeGlobalAnchorOffset
  rw [hanchor, if_neg (by simp only [beq_iff_eq]; omega)]
  have hfind : tmapFind? pl.positions ((aN : Nat) : Int) = some (G aN) := by
    rw [hpos]
    exact tmapFind?_of_mem_nodupKeys
      (List.mem_map.mpr ⟨aN, List.mem_range.mpr haN, rfl⟩)
      (rangeMap_fst_nodup G nodes.length)
  rw [hfind]
  dsimp only
  rw [if_neg (by
    rw [isValidIndex_iff.mpr ⟨by omega, by omega⟩]
    simp)]

/-- C7: on a multi-node component whose ids are all present, the
deterministically chosen anchor node's final position in the result equals
its original position — the anchor offset translates the whole layout so
the anchor stays fixed. -/
theorem c7_anchor_stability (g : LayoutGraph) (ids : List Int)
    (s : LayoutSettings)
    (hpresent : ∀ x ∈ dedupSortedIds ids,
      (tmapFind? (graphIdToIndexOf g) x).isSome = true)
    (hfew : 2 ≤ (dedupSortedIds ids).length) :
    tmapFind? (layoutComponent g ids s).result.nodePositions
        (lget (rankedNodesOf g ids s)
          (anchorIndexOf (rankedNodesOf g ids s)) defaultLayoutNode).id
      = some (lget (rankedNodesOf g ids s)
          (anchorIndexOf (rankedNodesOf g ids s)) defaultLayoutNode).position := by
  obtain ⟨hsucc, hids⟩ := buildWorkNodes_chars g ids hpresent
  have hlen : (buildWorkNodes g ids).nodes.length
      = (dedupSortedIds ids).length := by
    rw [← hids]
    simp
  have hne : ids.isEmpty = false := by
    cases ids with
    | nil => simp [dedupSortedIds, sortBy, List.destutter] at hfew
    | cons a t => rfl
  have htry : tryHandleSingleNode (buildWorkNodes g ids).nodes
      ({} : LayoutComponentResult) = none :=
    tryHandleSingleNode_none _ _ (by omega)
  have hlc : layoutComponent g ids s =
      ⟨true, applyFinalPositions [] (placementOf g ids s).positions
        (computeGlobalAnchorOffset (rankedNodesOf g ids s)
          (placementOf g ids s)) (rankedNodesOf g ids s)
        ({} : LayoutComponentResult), none⟩ := by
    simp only [layoutComponent, hne, Bool.false_eq_true, if_false, hsucc,
      htry]
    rfl
  obtain ⟨hrlen, hrfacts⟩ := rankedNodes_facts g ids s
  have hrne : (rankedNodesOf g ids s).isEmpty = false := by
    cases hr : rankedNodesOf g ids s with
    | nil =>
        exfalso
        rw [hr] at hrlen
        simp at hrlen
        omega
    | cons a t => rfl
  have hrne2 : rankedNodesOf g ids s ≠ [] := by
    intro hc
    rw [hc] at hrne
    simp at hrne
  obtain ⟨G, hG⟩ : ∃ G : Nat → Vec2, (placementOf g ids s).positions
      = (List.range (rankedNodesOf g ids s).length).map
        (fun (i : Nat) => ((i : Int), G i)) := by
    unfold placementOf
    exact placeCompact_positions_ex _ _ _ _ _ _ _ hrne
  obtain ⟨ha0, halt⟩ := anchorIndexOf_bounds (rankedNodesOf g ids s) hrne2
  obtain ⟨aN, haN⟩ : ∃ aN : Nat,
      anchorIndexOf (rankedNodesOf g ids s) = ((aN : Nat) : Int) :=
    ⟨(anchorIndexOf (rankedNodesOf g ids s)).toNat, by omega⟩
  have haNlt : aN < (rankedNodesOf g ids s).length := by omega
  have hanchor : (placementOf g ids s).anchorNodeIndex
      = ((aN : Nat) : Int) := by
    unfold placementOf
    rw [placeCompact_anchor _ _ _ _ _ _ _ hrne]
    exact haN
  have hoff : computeGlobalAnchorOffset (rankedNodesOf g ids s)
      (placementOf g ids s)
      = Vec2.sub (lget (rankedNodesOf g ids s) ((aN : Nat) : Int)
          defaultLayoutNode).position (G aN) :=
    computeGlobalAnchorOffset_eval _ _ G aN hG hanchor haNlt
  rw [hlc]
  dsimp only
  rw [hG]
  rw [applyFinalPositions_of_rangeMap (rankedNodesOf g ids s) G _
    (ranked_ids_inj g ids s hpresent)]
  rw [hoff]
  rw [haN]
  have hnd : (((List.range (rankedNodesOf g ids s).length).map
      (fun (i : Nat) =>
        ((lget (rankedNodesOf g ids s) (i : Int) defaultLayoutNode).id,
          Vec2.add (G i)
            (Vec2.sub (lget (rankedNodesOf g ids s) ((aN : Nat) : Int)
              defaultLayoutNode).position (G aN))))).map Prod.fst).Nodup := by
    rw [map_fst_pairs, ranked_ids_eq g ids s hpresent]
    exact dedupSortedIds_nodup ids
  have hmem : ((lget (rankedNodesOf g ids s) ((aN : Nat) : Int)
        defaultLayoutNode).id,
      Vec2.add (G aN)
        (Vec2.sub (lget (rankedNodesOf g ids s) ((aN : Nat) : Int)
          defaultLayoutNode).position (G aN)))
      ∈ (List.range (rankedNodesOf g ids s).length).map
        (fun (i : Nat) =>
          ((lget (rankedNodesOf g ids s) (i : Int) defaultLayoutNode).id,
            Vec2.add (G i)
              (Vec2.sub (lget (rankedNodesOf g ids s) ((aN : Nat) : Int)
                defaultLayoutNode).position (G aN)))) :=
    List.mem_map.mpr ⟨aN, List.mem_range.mpr haNlt, rfl⟩
  have hfound := tmapFind?_of_mem_nodupKeys hmem hnd
  rw [Vec2.add_sub_cancel] at hfound
  exact hfound

theorem c7_witness :
    (∀ x ∈ dedupSortedIds witnessIds,
      (tmapFind? (graphIdToIndexOf witnessGraph) x).isSome = true) ∧
    2 ≤ (dedupSortedIds witnessIds).length ∧
    tmapFind? (layoutComponent witnessGraph witnessIds
        defaultSettings).result.nodePositions
        (lget (rankedNodesOf witnessGraph witnessIds defaultSettings)
          (anchorIndexOf (rankedNodesOf witnessGraph witnessIds
            defaultSettings)) defaultLayoutNode).id
      = some (lget (rankedNodesOf witnessGraph witnessIds defaultSettings)
          (anchorIndexOf (rankedNodesOf witnessGraph witnessIds
            defaultSettings)) defaultLayoutNode).position :=
  ⟨by decide, by decide,
    c7_anchor_stability witnessGraph witnessIds defaultSettings
      (by decide) (by decide)⟩

/-! ## Claim C8 — bounded relaxation, and layout never fails -/

theorem relaxFold_length (n : Nat) (cs : List Constraint) :
    ∀ st : List ℚ × Bool,
      (cs.foldl (relaxStep n) st).1.length = st.1.length := by
  induction cs with
  | nil => intro st; rfl
  | cons c rest ih =>
      intro st
      rw [List.foldl_cons]
      rw [ih]
      unfold relaxStep
      split
      · rfl
      · dsimp only
        split
        · exact lset_length _ _ _
        · rfl

theorem relaxFold_mono (n : Nat) (cs : List Constraint) :
    ∀ (st : List ℚ × Bool) (j : Int),
      lget st.1 j 0 ≤ lget (cs.foldl (relaxStep n) st).1 j 0 := by
  induction cs with
  | nil => intro st j; exact le_refl _
  | cons c rest ih =>
      intro st j
      refine le_trans ?_ (ih (relaxStep n st c) j)
      unfold relaxStep
      split
      · exact le_refl _
      · dsimp only
        split
        · rename_i hvalid hupd
          by_cases hj : c.target = j
          · subst hj
            by_cases hb : 0 ≤ c.target ∧ c.target < (st.1.length : Int)
            · rw [lget_lset_self _ _ _ _ hb.1 hb.2]
              have heps : (0 : ℚ) < kindaSmallNumber := by
                unfold kindaSmallNumber
                norm_num
              linarith
            · rw [lset_out _ _ _ hb]
          · rw [lget_lset_ne _ _ _ _ _ hj]
        · exact le_refl _

theorem relaxFold_stable (n : Nat) (cs : List Constraint) :
    ∀ (st : List ℚ × Bool) (j : Int), (∀ c ∈ cs, c.target ≠ j) →
      lget (cs.foldl (relaxStep n) st).1 j 0 = lget st.1 j 0 := by
  induction cs with
  | nil => intro st j _; rfl
  | cons c rest ih =>
      intro st j hj
      rw [List.foldl_cons, ih _ j (fun c2 h2 => hj c2 (by simp [h2]))]
      unfold relaxStep
      split
      · rfl
      · dsimp only
        split
        · exact lget_lset_ne _ _ _ _ _ (hj c (by simp))
        · rfl

theorem relaxFold_noop (n : Nat) (cs : List Constraint) (ys : List ℚ)
    (h : ∀ c ∈ cs,
      (isValidIndex n c.source && isValidIndex n c.target) = true →
      ¬ (lget ys c.source 0 + c.delta
        > lget ys c.target 0 + kindaSmallNumber)) :
    cs.foldl (relaxStep n) (ys, false) = (ys, false) := by
  induction cs with
  | nil => rfl
  | cons c rest ih =>
      rw [List.foldl_cons]
      have hstep : relaxStep n (ys, false) c = (ys, false) := by
        unfold relaxStep
        split
        · rfl
        · rename_i hvalid
          have hv2 : (isValidIndex n c.source && isValidIndex n c.target)
              = true := by
            cases hs : isValidIndex n c.source
            · rw [hs] at hvalid
              simp at hvalid
            · cases ht : isValidIndex n c.target
              · rw [ht] at hvalid
                simp at hvalid
              · rfl
          dsimp only
          rw [if_neg (h c (by simp) hv2)]
      rw [hstep]
      exact ih (fun c2 h2 => h c2 (by simp [h2]))

theorem relaxGo_count_le (nodes : List LayoutNode)
    (edges : List LayoutEdge) (rankNodes : List (List Int))
    (vdests : List (List (Int × Int))) (execIdx : List Int)
    (sE sD : ℚ) (mi : Int) :
    ∀ (k it : Nat), 4 - it ≤ k → it ≤ 4 → ∀ ys : List ℚ,
      (relaxGo nodes edges rankNodes vdests execIdx sE sD mi ys it).2.1
        ≤ 4 := by
  intro k
  induction k with
  | zero =>
      intro it hit hle ys
      unfold relaxGo
      rw [dif_neg (by omega)]
      exact hle
  | succ k ih =>
      intro it hit hle ys
      unfold relaxGo
      split
      · rename_i hlt
        dsimp only
        split
        · exact ih (it + 1) (by omega) (by omega) _
        · dsimp only
          omega
      · exact hle

theorem buildWorkNodes_success (g : LayoutGraph) (ids : List Int) :
    (buildWorkNodes g ids).success = true := by
  unfold buildWorkNodes
  suffices h : ∀ (l : List Int) (st : BuildWorkNodesResult),
      st.success = true →
      (l.foldl (buildWorkNodesStep g (graphIdToIndexOf g)) st).success
        = true by
    exact h _ _ rfl
  intro l
  induction l with
  | nil => intro st hst; exact hst
  | cons x rest ih =>
      intro st hst
      rw [List.foldl_cons]
      refine ih _ ?_
      have hge : 0 ≤ tmapFindRefInt (graphIdToIndexOf g) x := by
        unfold tmapFindRefInt
        cases hf : tmapFind? (graphIdToIndexOf g) x with
        | none => simp
        | some idx =>
            have := graphIdToIndex_spec g x idx hf
            simpa using this.1
      simp only [buildWorkNodesStep]
      rw [if_neg (by rw [hst]; simp),
        if_neg (by simp only [beq_iff_eq]; omega)]
      exact hst

theorem layoutComponent_succeeds (g : LayoutGraph) (ids : List Int)
    (s : LayoutSettings) (hne : ids ≠ []) :
    (layoutComponent g ids s).success = true := by
  have hempty : ids.isEmpty = false := by
    cases ids with
    | nil => exact absurd rfl hne
    | cons a t => rfl
  have hsucc := buildWorkNodes_success g ids
  simp only [layoutComponent, hempty, Bool.false_eq_true, if_false, hsucc]
  cases htry : tryHandleSingleNode (buildWorkNodes g ids).nodes
      ({} : LayoutComponentResult) with
  | none => rfl
  | some res => rfl

theorem relaxStep_length (n : Nat) (st : List ℚ × Bool) (c : Constraint) :
    (relaxStep n st c).1.length = st.1.length := by
  unfold relaxStep
  split
  · rfl
  · dsimp only
    split
    · exact lset_length _ _ _
    · rfl

theorem relaxFold_establishes (n : Nat) :
    ∀ (cs : List Constraint) (st : List ℚ × Bool),
      st.1.length = n →
      cs.Pairwise (fun c c2 => c2.target ≠ c.source) →
      (∀ c ∈ cs, c.source ≠ c.target) →
      ∀ c ∈ cs,
        (isValidIndex n c.source && isValidIndex n c.target) = true →
        ¬ (lget (cs.foldl (relaxStep n) st).1 c.source 0 + c.delta
          > lget (cs.foldl (relaxStep n) st).1 c.target 0
            + kindaSmallNumber) := by
  intro cs
  induction cs with
  | nil =>
      intro st _ _ _ c hc
      simp at hc
  | cons c0 rest ih =>
      intro st hstlen hpw hsrcne c hc hv
      have hpw2 := List.pairwise_cons.mp hpw
      rw [List.foldl_cons]
      have hab : isValidIndex n c.source = true
          ∧ isValidIndex n c.target = true := by
        simpa [Bool.and_eq_true] using hv
      have ha : isValidIndex n c.source = true := hab.1
      have hb : isValidIndex n c.target = true := hab.2
      rcases List.mem_cons.mp hc with he | hmem
      · subst he
        have heps : (0 : ℚ) < kindaSmallNumber := by
          unfold kindaSmallNumber
          norm_num
        have hcne : c.source ≠ c.target := hsrcne c (by simp)
        have hbT := isValidIndex_iff.mp hb
        have hsat1 : ¬ (lget (relaxStep n st c).1 c.source 0 + c.delta
            > lget (relaxStep n st c).1 c.target 0 + kindaSmallNumber) := by
          by_cases hupd : lget st.1 c.source 0 + c.delta
              > lget st.1 c.target 0 + kindaSmallNumber
          · have hstep : relaxStep n st c
                = (lset st.1 c.target (lget st.1 c.source 0 + c.delta),
                   true) := by
              unfold relaxStep
              rw [if_neg (by rw [ha, hb]; simp)]
              dsimp only
              rw [if_pos hupd]
            rw [hstep]
            dsimp only
            rw [lget_lset_ne _ _ _ _ _ (fun hx => hcne hx.symm),
              lget_lset_self _ _ _ _ hbT.1 (by rw [hstlen]; exact hbT.2)]
            push_neg
            linarith
          · have hstep : relaxStep n st c = st := by
              unfold relaxStep
              rw [if_neg (by rw [ha, hb]; simp)]
              dsimp only
              rw [if_neg hupd]
            rw [hstep]
            exact hupd
        have hsrcstable := relaxFold_stable n rest (relaxStep n st c)
          c.source (fun c2 h2 => hpw2.1 c2 h2)
        have htgtmono := relaxFold_mono n rest (relaxStep n st c) c.target
        rw [hsrcstable]
        push_neg at hsat1 ⊢
        linarith
      · exact ih (relaxStep n st c0)
          (by rw [relaxStep_length]; exact hstlen) hpw2.2
          (fun c2 h2 => hsrcne c2 (by simp [h2])) c hmem hv

theorem intra_inner (nodes : List LayoutNode) (sE sD : ℚ)
    (layer : List Int) (hl : layer.Nodup) :
    ∀ m : Nat, m ≤ layer.length → ∀ acc : List Constraint,
      acc.Pairwise (fun c c2 => c2.target ≠ c.source) →
      (∀ c ∈ acc, c.source ≠ c.target) →
      (∀ c ∈ acc, ∀ x ∈ layer, c.source ≠ x ∧ c.target ≠ x) →
      ((List.range m).foldl (intraLayerStep nodes layer sE sD) acc).Pairwise
          (fun c c2 => c2.target ≠ c.source) ∧
      (∀ c ∈ (List.range m).foldl (intraLayerStep nodes layer sE sD) acc,
        c.source ≠ c.target) ∧
      (∀ c ∈ (List.range m).foldl (intraLayerStep nodes layer sE sD) acc,
        c ∈ acc ∨ ∃ k : Nat, 1 ≤ k ∧ k < m ∧
          c.source = lget layer ((k : Int) - 1) (-1) ∧
          c.target = lget layer ((k : Nat) : Int) (-1)) := by
  intro m
  induction m with
  | zero =>
      intro _ acc h1 h2 h3
      exact ⟨h1, h2, fun c hc => Or.inl hc⟩
  | succ m ih =>
      intro hm acc h1 h2 h3
      obtain ⟨ih1, ih2, ih3⟩ := ih (by omega) acc h1 h2 h3
      rw [List.range_succ, List.foldl_append, List.foldl_cons,
        List.foldl_nil]
      by_cases hm0 : m = 0
      · subst hm0
        have hstep : intraLayerStep nodes layer sE sD
            ((List.range 0).foldl (intraLayerStep nodes layer sE sD) acc) 0
            = (List.range 0).foldl (intraLayerStep nodes layer sE sD) acc :=
          rfl
        rw [hstep]
        refine ⟨ih1, ih2, ?_⟩
        intro c hc
        rcases ih3 c hc with hacc | ⟨k, hk1, hk2, _, _⟩
        · exact Or.inl hacc
        · omega
      · have hgetk : ∀ (k : Nat) (hk : k < layer.length),
            lget layer ((k : Nat) : Int) (-1) = layer.get ⟨k, hk⟩ := by
          intro k hk
          rw [lget_eq_getD, List.getD_eq_getElem layer (-1) hk]
          rfl
        have hmlt : m < layer.length := by omega
        have hm1lt : m - 1 < layer.length := by omega
        have hcast : ((m : Nat) : Int) - 1 = (((m - 1 : Nat) : Nat) : Int) := by
          omega
        have hne_idx : ∀ (a b : Nat) (ha : a < layer.length)
            (hb : b < layer.length), a ≠ b →
            lget layer ((a : Nat) : Int) (-1)
              ≠ lget layer ((b : Nat) : Int) (-1) := by
          intro a b ha hb hab
          rw [hgetk a ha, hgetk b hb]
          intro hc
          exact hab (hl.getElem_inj_iff.mp hc)
        have hmem_m : lget layer ((m : Nat) : Int) (-1) ∈ layer := by
          rw [hgetk m hmlt]
          exact layer.get_mem _ _
        have hstep : intraLayerStep nodes layer sE sD
            ((List.range m).foldl (intraLayerStep nodes layer sE sD) acc) m
            = ((List.range m).foldl (intraLayerStep nodes layer sE sD) acc)
              ++ [⟨lget layer ((m : Nat) : Int) (-1),
                  lget layer ((m : Int) - 1) (-1),
                  (lget nodes (lget layer ((m : Int) - 1) (-1))
                    defaultLayoutNode).size.y
                    + (if (lget nodes (lget layer ((m : Nat) : Int) (-1))
                        defaultLayoutNode).hasExecPins = true
                      then sE else sD)⟩] := by
          unfold intraLayerStep
          rw [if_neg (by simpa using hm0)]
        rw [hstep]
        refine ⟨?_, ?_, ?_⟩
        · rw [List.pairwise_append]
          refine ⟨ih1, by simp, ?_⟩
          intro c hc c2 hc2
          have hgoal : lget layer ((m : Nat) : Int) (-1) ≠ c.source := by
            rcases ih3 c hc with hacc | ⟨k, hk1, hk2, hsrc, _⟩
            · intro hx
              exact (h3 c hacc (lget layer ((m : Nat) : Int) (-1))
                hmem_m).1 hx.symm
            · rw [hsrc,
                show ((k : Int) - 1) = (((k - 1 : Nat) : Nat) : Int) from
                  by omega]
              exact hne_idx m (k - 1) hmlt (by omega) (by omega)
          have hc2e : c2 = ⟨lget layer ((m : Nat) : Int) (-1),
              lget layer ((m : Int) - 1) (-1),
              (lget nodes (lget layer ((m : Int) - 1) (-1))
                defaultLayoutNode).size.y
                + (if (lget nodes (lget layer ((m : Nat) : Int) (-1))
                    defaultLayoutNode).hasExecPins = true
                  then sE else sD)⟩ := by
            simpa using hc2
          rw [hc2e]
          exact hgoal
        · intro c hc
          rcases List.mem_append.mp hc with hold | hnew
          · exact ih2 c hold
          · have hce : c = ⟨lget layer ((m : Nat) : Int) (-1),
                lget layer ((m : Int) - 1) (-1),
                (lget nodes (lget layer ((m : Int) - 1) (-1))
                  defaultLayoutNode).size.y
                  + (if (lget nodes (lget layer ((m : Nat) : Int) (-1))
                      defaultLayoutNode).hasExecPins = true
                    then sE else sD)⟩ := by
              simpa using hnew
            rw [hce]
            show lget layer ((m : Int) - 1) (-1)
              ≠ lget layer ((m : Nat) : Int) (-1)
            rw [hcast]
            exact hne_idx (m - 1) m hm1lt hmlt (by omega)
        · intro c hc
          rcases List.mem_append.mp hc with hold | hnew
          · rcases ih3 c hold with hacc | ⟨k, hk1, hk2, hs, ht⟩
            · exact Or.inl hacc
            · exact Or.inr ⟨k, hk1, by omega, hs, ht⟩
          · have hce : c = ⟨lget layer ((m : Nat) : Int) (-1),
                lget layer ((m : Int) - 1) (-1),
                (lget nodes (lget layer ((m : Int) - 1) (-1))
                  defaultLayoutNode).size.y
                  + (if (lget nodes (lget layer ((m : Nat) : Int) (-1))
                      defaultLayoutNode).hasExecPins = true
                    then sE else sD)⟩ := by
              simpa using hnew
            rw [hce]
            exact Or.inr ⟨m, by omega, by omega, rfl, rfl⟩

theorem intra_structure (nodes : List LayoutNode) (sE sD : ℚ) :
    ∀ (layers : List (List Int)) (acc : List Constraint),
      (layers.flatten).Nodup →
      acc.Pairwise (fun c c2 => c2.target ≠ c.source) →
      (∀ c ∈ acc, c.source ≠ c.target) →
      (∀ c ∈ acc, ∀ x ∈ layers.flatten, c.source ≠ x ∧ c.target ≠ x) →
      (layers.foldl
          (fun cs layer => (List.range layer.length).foldl
            (intraLayerStep nodes layer sE sD) cs) acc).Pairwise
          (fun c c2 => c2.target ≠ c.source) ∧
      ∀ c ∈ layers.foldl
          (fun cs layer => (List.range layer.length).foldl
            (intraLayerStep nodes layer sE sD) cs) acc,
        c.source ≠ c.target := by
  intro layers
  induction layers with
  | nil =>
      intro acc _ h1 h2 _
      exact ⟨h1, h2⟩
  | cons ℓ rest ih =>
      intro acc hnd h1 h2 h3
      rw [List.flatten_cons, List.nodup_append] at hnd
      obtain ⟨hℓ, hrest, hdisj⟩ := hnd
      have hmem : ∀ x ∈ ℓ, x ∈ (ℓ :: rest).flatten := by
        intro x hx
        rw [List.flatten_cons]
        exact List.mem_append.mpr (Or.inl hx)
      obtain ⟨p1, p2, p3⟩ := intra_inner nodes sE sD ℓ hℓ ℓ.length
        (Nat.le_refl _) acc h1 h2
        (fun c hc x hx => h3 c hc x (hmem x hx))
      rw [List.foldl_cons]
      refine ih _ hrest p1 p2 ?_
      intro c hc x hx
      rcases p3 c hc with hacc | ⟨k, hk1, hk2, hs, ht⟩
      · refine h3 c hacc x ?_
        rw [List.flatten_cons]
        exact List.mem_append.mpr (Or.inr hx)
      · have hgetk : ∀ (k2 : Nat) (hk : k2 < ℓ.length),
            lget ℓ ((k2 : Nat) : Int) (-1) = ℓ.get ⟨k2, hk⟩ := by
          intro k2 hk
          rw [lget_eq_getD, List.getD_eq_getElem ℓ (-1) hk]
          rfl
        have hsrc_mem : c.source ∈ ℓ := by
          rw [hs, show ((k : Int) - 1) = (((k - 1 : Nat) : Nat) : Int) from
            by omega, hgetk (k - 1) (by omega)]
          exact ℓ.get_mem _ _
        have htgt_mem : c.target ∈ ℓ := by
          rw [ht, hgetk k (by omega)]
          exact ℓ.get_mem _ _
        exact ⟨fun he => hdisj (he ▸ hsrc_mem) hx,
          fun he => hdisj (he ▸ htgt_mem) hx⟩

theorem flatten_lset_perm :
    ∀ (acc : List (List Int)) (t : Nat), t < acc.length → ∀ v : Int,
      ((acc.set t ((acc.getD t []) ++ [v])).flatten).Perm
        (acc.flatten ++ [v]) := by
  intro acc
  induction acc with
  | nil => intro t ht; simp at ht
  | cons a as ih =>
      intro t ht v
      cases t with
      | zero =>
          simp only [List.set_cons_zero, List.getD_cons_zero,
            List.flatten_cons]
          rw [List.append_assoc, List.append_assoc]
          exact List.Perm.append_left a (List.perm_append_comm)
      | succ t =>
          simp only [List.set_cons_succ, List.getD_cons_succ,
            List.flatten_cons]
          rw [List.append_assoc]
          exact List.Perm.append_left a (ih t (by simpa using ht) v)

theorem flatten_map_perm (f : List Int → List Int)
    (hf : ∀ x, (f x).Perm x) :
    ∀ L : List (List Int), ((L.map f).flatten).Perm L.flatten := by
  intro L
  induction L with
  | nil => exact List.Perm.refl _
  | cons a as ih =>
      simp only [List.map_cons, List.flatten_cons]
      exact (hf a).append ih

theorem grouped_flatten_nodup (nodes : List LayoutNode) :
    ∀ (l : List Nat) (acc : List (List Int)), l.Nodup →
      (∀ x ∈ acc.flatten, ∀ i ∈ l, x ≠ ((i : Nat) : Int)) →
      (acc.flatten).Nodup →
      ((l.foldl
        (fun acc i =>
          let r := clampRank (nodes.getD i defaultLayoutNode)
          lset acc r (lget acc r [] ++ [(i : Int)]))
        acc).flatten).Nodup := by
  intro l
  induction l with
  | nil => intro acc _ _ h; exact h
  | cons i rest ih =>
      intro acc hnd hfresh hacc
      rw [List.foldl_cons]
      have hndr : rest.Nodup := (List.nodup_cons.mp hnd).2
      have hi_notin : i ∉ rest := (List.nodup_cons.mp hnd).1
      by_cases hr : 0 ≤ clampRank (nodes.getD i defaultLayoutNode)
          ∧ clampRank (nodes.getD i defaultLayoutNode)
            < (acc.length : Int)
      · have hlset : lset acc (clampRank (nodes.getD i defaultLayoutNode))
            (lget acc (clampRank (nodes.getD i defaultLayoutNode)) []
              ++ [(i : Int)])
            = acc.set (clampRank (nodes.getD i defaultLayoutNode)).toNat
              ((acc.getD (clampRank
                (nodes.getD i defaultLayoutNode)).toNat [])
                ++ [(i : Int)]) := by
          unfold lset lget
          rw [if_neg (by omega), if_neg (by omega)]
        have hperm := flatten_lset_perm acc
          (clampRank (nodes.getD i defaultLayoutNode)).toNat
          (by omega) ((i : Nat) : Int)
        refine ih _ hndr ?_ ?_
        · intro x hx i2 hi2
          have hx2 : x ∈ acc.flatten ++ [((i : Nat) : Int)] := by
            rw [hlset] at hx
            exact hperm.mem_iff.mp hx
          rcases List.mem_append.mp hx2 with hold | hnewx
          · exact hfresh x hold i2 (by simp [hi2])
          · have hxe : x = ((i : Nat) : Int) := by simpa using hnewx
            rw [hxe]
            simp only [ne_eq, Int.natCast_inj]
            intro hc
            exact hi_notin (hc ▸ hi2)
        · rw [hlset]
          refine (hperm.nodup_iff).mpr ?_
          rw [List.nodup_append]
          refine ⟨hacc, by simp, ?_⟩
          intro x hx
          simp only [List.mem_singleton]
          exact hfresh x hx i (by simp)
      · have hlset : lset acc (clampRank (nodes.getD i defaultLayoutNode))
            (lget acc (clampRank (nodes.getD i defaultLayoutNode)) []
              ++ [(i : Int)]) = acc := lset_out _ _ _ hr
        rw [hlset]
        exact ih _ hndr
          (fun x hx i2 hi2 => hfresh x hx i2 (by simp [hi2])) hacc

theorem compactRankNodes_flatten_nodup (nodes : List LayoutNode)
    (maxRank : Int) :
    ((compactRankNodes nodes maxRank).flatten).Nodup := by
  unfold compactRankNodes
  refine ((flatten_map_perm _
    (fun x => sortBy_perm (layoutOrderKeyLess nodes) x) _).nodup_iff).mpr ?_
  refine grouped_flatten_nodup nodes (List.range nodes.length)
    (List.replicate (maxRank + 1).toNat ([] : List Int))
    (List.nodup_range _) ?_ ?_
  · intro x hx
    exfalso
    rw [List.flatten_eq_nil_iff.mpr (by
      intro ys hys
      exact (List.eq_of_mem_replicate hys))] at hx
    exact (List.not_mem_nil x) hx
  · rw [List.flatten_eq_nil_iff.mpr (by
      intro ys hys
      exact (List.eq_of_mem_replicate hys))]
    exact List.nodup_nil

theorem relaxConstraintsAt_intra (nodes : List LayoutNode)
    (edges : List LayoutEdge) (rankNodes : List (List Int))
    (vdests : List (List (Int × Int))) (execIdx : List Int)
    (sE sD : ℚ) (mi itZ : Int) (ys : List ℚ)
    (h : ¬ (itZ < mi - 2)) :
    relaxConstraintsAt nodes edges rankNodes vdests execIdx sE sD mi itZ ys
      = intraRankConstraints nodes rankNodes sE sD := by
  simp only [relaxConstraintsAt, if_neg h]

theorem relaxGo_established_stops (nodes : List LayoutNode)
    (edges : List LayoutEdge) (rankNodes : List (List Int))
    (vdests : List (List (Int × Int))) (execIdx : List Int)
    (sE sD : ℚ) (mi : Int)
    (hpw : (intraRankConstraints nodes rankNodes sE sD).Pairwise
      (fun c c2 => c2.target ≠ c.source))
    (hsn : ∀ c ∈ intraRankConstraints nodes rankNodes sE sD,
      c.source ≠ c.target)
    (it : Nat) (hit4 : it + 2 ≤ 4)
    (h1 : ¬ ((it : Int) < mi - 2))
    (h2 : ¬ (((it + 1 : Nat) : Int) < mi - 2))
    (ys : List ℚ) (hlen : ys.length = nodes.length) :
    (relaxGo nodes edges rankNodes vdests execIdx sE sD mi ys it).2.1
      ≤ it + 2 := by
  unfold relaxGo
  rw [dif_pos (by omega : it < 4)]
  dsimp only
  rw [relaxConstraintsAt_intra nodes edges rankNodes vdests execIdx sE sD
    mi (it : Int) ys h1]
  split
  · unfold relaxGo
    rw [dif_pos (by omega : it + 1 < 4)]
    dsimp only
    rw [relaxConstraintsAt_intra nodes edges rankNodes vdests execIdx sE sD
      mi ((it + 1 : Nat) : Int) _ h2]
    have hest := relaxFold_establishes nodes.length
      (intraRankConstraints nodes rankNodes sE sD) (ys, false)
      (by simpa using hlen) hpw hsn
    have hnoop : relaxPass nodes.length
        (intraRankConstraints nodes rankNodes sE sD)
        (relaxPass nodes.length
          (intraRankConstraints nodes rankNodes sE sD) ys).1
        = ((relaxPass nodes.length
            (intraRankConstraints nodes rankNodes sE sD) ys).1, false) := by
      unfold relaxPass
      exact relaxFold_noop _ _ _ (fun c hc hv => hest c hc hv)
    rw [hnoop]
    rw [if_neg (by simp)]
  · dsimp only
    omega

theorem relaxGo_zero_le_three (nodes : List LayoutNode)
    (edges : List LayoutEdge) (rankNodes : List (List Int))
    (vdests : List (List (Int × Int))) (execIdx : List Int)
    (sE sD : ℚ) (mi : Int)
    (hpw : (intraRankConstraints nodes rankNodes sE sD).Pairwise
      (fun c c2 => c2.target ≠ c.source))
    (hsn : ∀ c ∈ intraRankConstraints nodes rankNodes sE sD,
      c.source ≠ c.target)
    (hmi : mi - 2 ≤ 1)
    (ys : List ℚ) (hlen : ys.length = nodes.length) :
    (relaxGo nodes edges rankNodes vdests execIdx sE sD mi ys 0).2.1
      ≤ 3 := by
  unfold relaxGo
  rw [dif_pos (by omega : (0 : Nat) < 4)]
  dsimp only
  split
  · have hlen1 : (relaxPass nodes.length
        (relaxConstraintsAt nodes edges rankNodes vdests execIdx sE sD mi
          ((0 : Nat) : Int) ys) ys).1.length = nodes.length := by
      unfold relaxPass
      rw [relaxFold_length]
      exact hlen
    have hb := relaxGo_established_stops nodes edges rankNodes vdests
      execIdx sE sD mi hpw hsn 1 (by omega)
      (by push_cast; omega) (by push_cast; omega) _ hlen1
    exact le_trans hb (by omega)
  · dsimp only
    omega

theorem relaxItersOf_le (nodes : List LayoutNode) (edges : List LayoutEdge)
    (sE sD : ℚ) :
    relaxItersOf nodes edges sE sD ≤ max 3 nodes.length := by
  unfold relaxItersOf
  split
  · omega
  · unfold compactRelax
    dsimp only
    by_cases hn : nodes.length ≤ 3
    · have hpwsn := intra_structure nodes (max 0 sE) (max 0 sD)
        (compactRankNodes nodes (compactMaxRank nodes)) []
        (compactRankNodes_flatten_nodup nodes (compactMaxRank nodes))
        (by simp) (by simp) (by simp)
      have hcast3 : (nodes.length : Int) ≤ 3 := by exact_mod_cast hn
      have hmi : (max 3 (nodes.length : Int)) - 2 ≤ 1 := by
        rw [max_eq_left hcast3]
        decide
      have hb := relaxGo_zero_le_three nodes edges
        (compactRankNodes nodes (compactMaxRank nodes))
        (vargetDestsOf nodes edges)
        (execConstraintEdgeIndexOf nodes edges)
        (max 0 sE) (max 0 sD) (max 3 (nodes.length : Int))
        hpwsn.1 hpwsn.2 hmi
        (List.replicate nodes.length (0 : ℚ)) (by simp)
      exact le_trans hb (Nat.le_max_left 3 _)
    · have hb := relaxGo_count_le nodes edges
        (compactRankNodes nodes (compactMaxRank nodes))
        (vargetDestsOf nodes edges)
        (execConstraintEdgeIndexOf nodes edges)
        (max 0 sE) (max 0 sD) (max 3 (nodes.length : Int))
        4 0 (by omega) (by omega)
        (List.replicate nodes.length (0 : ℚ))
      refine le_trans hb (le_trans (by omega : 4 ≤ nodes.length)
        (Nat.le_max_right 3 _))

/-- C8: the compact placement's constraint relaxation executes at most
`max(3, nodeCount)` iterations — it stops as soon as an iteration changes
no position — and hitting the cap is only logged: for any nonempty
component request the layout call itself still succeeds. -/
theorem c8_relaxation_bounded (nodes : List LayoutNode)
    (edges : List LayoutEdge) (syExec syData : ℚ) (g : LayoutGraph)
    (ids : List Int) (s : LayoutSettings) (hne : ids ≠ []) :
    relaxItersOf nodes edges syExec syData ≤ max 3 nodes.length ∧
    (layoutComponent g ids s).success = true :=
  ⟨relaxItersOf_le nodes edges syExec syData,
   layoutComponent_succeeds g ids s hne⟩

theorem c8_witness :
    (([1, 2] : List Int) ≠ []) ∧
    (relaxItersOf [defaultLayoutNode] [] 0 0
        ≤ max 3 ([defaultLayoutNode] : List LayoutNode).length ∧
     (layoutComponent witnessGraph [1, 2] defaultSettings).success
        = true) :=
  ⟨by decide,
   c8_relaxation_bounded [defaultLayoutNode] [] 0 0 witnessGraph [1, 2]
     defaultSettings (by decide)⟩

/-! ## Claim C2 — rank monotonicity: supporting development -/

theorem lget_mem (xs : List α) (x : Int) (d : α) (h0 : 0 ≤ x)
    (h : x < (xs.length : Int)) : lget xs x d ∈ xs := by
  unfold lget
  rw [if_neg (by omega), List.getD_eq_getElem xs d (by omega)]
  exact xs.getElem_mem _

theorem lget_map_valid (f : α → γ) (xs : List α) (j : Int) (d : α) (d2 : γ)
    (h0 : 0 ≤ j) (h : j < (xs.length : Int)) :
    lget (xs.map f) j d2 = f (lget xs j d) := by
  unfold lget
  rw [if_neg (by omega), if_neg (by omega),
    List.getD_eq_getElem (xs.map f) d2 (by simp; omega),
    List.getD_eq_getElem xs d (by omega)]
  simp

theorem countP_range_getD (es : List α) (d : α) (q : α → Bool) :
    (List.range es.length).countP (fun i => q (es.getD i d))
      = es.countP q := by
  induction es using List.reverseRecOn with
  | nil => rfl
  | append_singleton es0 x ih =>
      rw [List.length_append, List.length_singleton, List.range_succ,
        List.countP_append, List.countP_append]
      congr 1
      · rw [← ih]
        refine List.countP_congr ?_
        intro i hi
        have hilt := List.mem_range.mp hi
        rw [List.getD_eq_getElem (es0 ++ [x]) d (by
            rw [List.length_append, List.length_singleton]; omega),
          List.getD_eq_getElem es0 d hilt,
          List.getElem_append_left hilt]
      · simp only [List.countP_cons, List.countP_nil]
        rw [List.getD_eq_getElem (es0 ++ [x]) d (by
            rw [List.length_append, List.length_singleton]; omega)]
        rw [List.getElem_append_right (Nat.le_refl _)]
        simp

theorem countP_and_split (l : List α) (p q : α → Bool) :
    l.countP p = l.countP (fun a => p a && q a)
      + l.countP (fun a => p a && !q a) := by
  induction l with
  | nil => rfl
  | cons x rest ih =>
      simp only [List.countP_cons]
      cases hp : p x <;> cases hq : q x <;> simp [hp, hq] <;> omega

theorem buildOutEdgesRaw_char (g : SugiyamaGraph)
    (hval : ∀ e ∈ g.edges, 0 ≤ e.src ∧ e.src < (g.nodes.length : Int) ∧
      0 ≤ e.dst ∧ e.dst < (g.nodes.length : Int)) :
    (buildOutEdgesRaw g).length = g.nodes.length ∧
    ∀ u : Nat, u < g.nodes.length →
      lget (buildOutEdgesRaw g) ((u : Nat) : Int) []
        = ((List.range g.edges.length).filter
            (fun ei =>
              !((g.edges.getD ei defaultSugiyamaEdge).src
                == (g.edges.getD ei defaultSugiyamaEdge).dst)
              && ((g.edges.getD ei defaultSugiyamaEdge).src
                == ((u : Nat) : Int)))).map (fun (ei : Nat) => (ei : Int)) := by
  unfold buildOutEdgesRaw
  suffices h : ∀ m : Nat, m ≤ g.edges.length →
      ((List.range m).foldl
        (fun acc ei =>
          let e := g.edges.getD ei defaultSugiyamaEdge
          if e.src == e.dst then acc
          else lset acc e.src (lget acc e.src [] ++ [(ei : Int)]))
        (List.replicate g.nodes.length ([] : List Int))).length
          = g.nodes.length ∧
      ∀ u : Nat, u < g.nodes.length →
        lget ((List.range m).foldl
          (fun acc ei =>
            let e := g.edges.getD ei defaultSugiyamaEdge
            if e.src == e.dst then acc
            else lset acc e.src (lget acc e.src [] ++ [(ei : Int)]))
          (List.replicate g.nodes.length ([] : List Int)))
          ((u : Nat) : Int) []
          = ((List.range m).filter
              (fun ei =>
                !((g.edges.getD ei defaultSugiyamaEdge).src
                  == (g.edges.getD ei defaultSugiyamaEdge).dst)
                && ((g.edges.getD ei defaultSugiyamaEdge).src
                  == ((u : Nat) : Int)))).map (fun (ei : Nat) => (ei : Int)) by
    exact h g.edges.length (Nat.le_refl _)
  intro m
  induction m with
  | zero =>
      intro _
      rw [List.range_zero]
      refine ⟨by simp, ?_⟩
      intro u hu
      rw [List.foldl_nil, List.filter_nil, List.map_nil, lget_replicate]
      simp [hu]
  | succ m ih =>
      intro hm
      obtain ⟨ihlen, ihget⟩ := ih (by omega)
      rw [List.range_succ, List.foldl_append, List.foldl_cons,
        List.foldl_nil]
      constructor
      · dsimp only
        split
        · exact ihlen
        · rw [lset_length]
          exact ihlen
      · intro u hu
        rw [List.filter_append]
        dsimp only
        by_cases hself : ((g.edges.getD m defaultSugiyamaEdge).src
            == (g.edges.getD m defaultSugiyamaEdge).dst) = true
        · rw [if_pos hself, ihget u hu]
          have hPm : (!((g.edges.getD m defaultSugiyamaEdge).src
                == (g.edges.getD m defaultSugiyamaEdge).dst)
              && ((g.edges.getD m defaultSugiyamaEdge).src
                == ((u : Nat) : Int))) = false := by
            rw [hself]
            rfl
          have hfil : (List.filter
              (fun ei =>
                !((g.edges.getD ei defaultSugiyamaEdge).src
                  == (g.edges.getD ei defaultSugiyamaEdge).dst)
                && ((g.edges.getD ei defaultSugiyamaEdge).src
                  == ((u : Nat) : Int))) [m]) = [] := by
            rw [List.filter_cons, if_neg (by rw [hPm]; simp), List.filter_nil]
          rw [hfil, List.map_append, List.map_nil, List.append_nil]
        · rw [if_neg hself]
          have hmem : g.edges.getD m defaultSugiyamaEdge ∈ g.edges := by
            rw [List.getD_eq_getElem g.edges defaultSugiyamaEdge (by omega)]
            exact g.edges.getElem_mem _
          obtain ⟨hs0, hslt, _, _⟩ := hval _ hmem
          have h1 : ((g.edges.getD m defaultSugiyamaEdge).src
              == (g.edges.getD m defaultSugiyamaEdge).dst) = false := by
            cases hb : ((g.edges.getD m defaultSugiyamaEdge).src
                == (g.edges.getD m defaultSugiyamaEdge).dst)
            · rfl
            · exact absurd hb hself
          by_cases hsrc : (g.edges.getD m defaultSugiyamaEdge).src
              = ((u : Nat) : Int)
          · have h2 : ((g.edges.getD m defaultSugiyamaEdge).src
                == ((u : Nat) : Int)) = true := beq_iff_eq.mpr hsrc
            have hfil : (List.filter
                (fun ei =>
                  !((g.edges.getD ei defaultSugiyamaEdge).src
                    == (g.edges.getD ei defaultSugiyamaEdge).dst)
                  && ((g.edges.getD ei defaultSugiyamaEdge).src
                    == ((u : Nat) : Int))) [m]) = [m] := by
              rw [List.filter_cons, if_pos (by rw [h1, h2]; rfl),
                List.filter_nil]
            rw [← hsrc, lget_lset_self _ _ _ _ hs0 (by rw [ihlen]; omega),
              hsrc, ihget u hu, hfil, List.map_append]
            rfl
          · have h2 : ((g.edges.getD m defaultSugiyamaEdge).src
                == ((u : Nat) : Int)) = false := by
              cases hb : ((g.edges.getD m defaultSugiyamaEdge).src
                  == ((u : Nat) : Int))
              · rfl
              · exact absurd (beq_iff_eq.mp hb) hsrc
            have hfil : (List.filter
                (fun ei =>
                  !((g.edges.getD ei defaultSugiyamaEdge).src
                    == (g.edges.getD ei defaultSugiyamaEdge).dst)
                  && ((g.edges.getD ei defaultSugiyamaEdge).src
                    == ((u : Nat) : Int))) [m]) = [] := by
              rw [List.filter_cons, if_neg (by rw [h1, h2]; simp),
                List.filter_nil]
            rw [lget_lset_ne _ _ _ _ _ hsrc, ihget u hu, hfil,
              List.map_append, List.map_nil, List.append_nil]

theorem contains_iff_mem (l : List Int) (x : Int) :
    l.contains x = true ↔ x ∈ l :=
  List.elem_iff

theorem foldl_length_inv (step : List α → γ → List α)
    (h : ∀ acc x, (step acc x).length = acc.length) (l : List γ)
    (init : List α) : (l.foldl step init).length = init.length := by
  induction l generalizing init with
  | nil => rfl
  | cons x rest ih => rw [List.foldl_cons, ih, h]

theorem insertSortedByNodeKey_perm (nodes : List SugiyamaNode)
    (l : List Int) (v : Int) :
    (insertSortedByNodeKey nodes l v).Perm (v :: l) := by
  induction l with
  | nil => exact List.Perm.refl _
  | cons y ys ih =>
      unfold insertSortedByNodeKey
      split
      · exact (List.Perm.cons y ih).trans (List.Perm.swap v y ys)
      · exact List.Perm.refl _

theorem buildOutEdgesRaw_length (g : SugiyamaGraph) :
    (buildOutEdgesRaw g).length = g.nodes.length := by
  unfold buildOutEdgesRaw
  rw [foldl_length_inv]
  · exact List.length_replicate _ _
  · intro acc x
    dsimp only
    split
    · rfl
    · exact lset_length _ _ _

theorem buildOutEdges_length (g : SugiyamaGraph) :
    (buildOutEdges g).length = g.nodes.length := by
  unfold buildOutEdges
  rw [List.length_map]
  exact buildOutEdgesRaw_length g

theorem bucket_perm_raw (g : SugiyamaGraph)
    (hval : ∀ e ∈ g.edges, edgeEndpointsValid g.nodes.length e)
    (u : Nat) (hu : u < g.nodes.length) :
    (lget (buildOutEdges g) ((u : Nat) : Int) []).Perm
      (((List.range g.edges.length).filter
        (fun ei =>
          !((g.edges.getD ei defaultSugiyamaEdge).src
            == (g.edges.getD ei defaultSugiyamaEdge).dst)
          && ((g.edges.getD ei defaultSugiyamaEdge).src
            == ((u : Nat) : Int)))).map (fun (ei : Nat) => (ei : Int))) := by
  unfold buildOutEdges
  rw [lget_map_valid (sortBy (outEdgeLess g)) (buildOutEdgesRaw g)
      ((u : Nat) : Int) [] [] (by omega)
      (by rw [buildOutEdgesRaw_length]; omega)]
  have hchar := (buildOutEdgesRaw_char g
    (fun e he => hval e he)).2 u hu
  rw [hchar]
  exact sortBy_perm _ _

theorem bucket_mem_iff (g : SugiyamaGraph)
    (hval : ∀ e ∈ g.edges, edgeEndpointsValid g.nodes.length e)
    (u : Nat) (hu : u < g.nodes.length) (x : Int) :
    x ∈ lget (buildOutEdges g) ((u : Nat) : Int) [] ↔
      ∃ ei : Nat, ei < g.edges.length ∧ x = (ei : Int) ∧
        ¬ ((g.edges.getD ei defaultSugiyamaEdge).src
          = (g.edges.getD ei defaultSugiyamaEdge).dst) ∧
        (g.edges.getD ei defaultSugiyamaEdge).src = ((u : Nat) : Int) := by
  rw [(bucket_perm_raw g hval u hu).mem_iff, List.mem_map]
  constructor
  · rintro ⟨ei, hei, rfl⟩
    rw [List.mem_filter, List.mem_range] at hei
    obtain ⟨hlt, hcond⟩ := hei
    rw [Bool.and_eq_true, Bool.not_eq_true', beq_eq_false_iff_ne] at hcond
    exact ⟨ei, hlt, rfl, hcond.1, beq_iff_eq.mp hcond.2⟩
  · rintro ⟨ei, hlt, rfl, hns, hsrc⟩
    refine ⟨ei, ?_, rfl⟩
    rw [List.mem_filter, List.mem_range]
    refine ⟨hlt, ?_⟩
    rw [Bool.and_eq_true, Bool.not_eq_true', beq_eq_false_iff_ne]
    exact ⟨hns, beq_iff_eq.mpr hsrc⟩

theorem bucket_countP_eq (g : SugiyamaGraph)
    (hval : ∀ e ∈ g.edges, edgeEndpointsValid g.nodes.length e)
    (u : Nat) (hu : u < g.nodes.length) (p : SugiyamaEdge → Bool) :
    (lget (buildOutEdges g) ((u : Nat) : Int) []).countP
        (fun x => p (lget g.edges x defaultSugiyamaEdge))
      = g.edges.countP
        (fun e => !(e.src == e.dst) && (e.src == ((u : Nat) : Int)) && p e) := by
  rw [(bucket_perm_raw g hval u hu).countP_eq, List.countP_map,
    List.countP_filter]
  have hcg : (List.range g.edges.length).countP
      (fun ei =>
        ((fun x => p (lget g.edges x defaultSugiyamaEdge))
          ∘ (fun (ei : Nat) => (ei : Int))) ei
        && (!((g.edges.getD ei defaultSugiyamaEdge).src
            == (g.edges.getD ei defaultSugiyamaEdge).dst)
          && ((g.edges.getD ei defaultSugiyamaEdge).src
            == ((u : Nat) : Int))))
      = (List.range g.edges.length).countP
        (fun ei =>
          !((g.edges.getD ei defaultSugiyamaEdge).src
            == (g.edges.getD ei defaultSugiyamaEdge).dst)
          && ((g.edges.getD ei defaultSugiyamaEdge).src == ((u : Nat) : Int))
          && p (g.edges.getD ei defaultSugiyamaEdge)) := by
    refine List.countP_congr ?_
    intro i _
    dsimp only [Function.comp]
    rw [lget_eq_getD]
    constructor <;> intro h <;> simp only [Bool.and_eq_true] at h ⊢ <;> tauto
  rw [hcg]
  exact countP_range_getD g.edges defaultSugiyamaEdge
    (fun e => !(e.src == e.dst) && (e.src == ((u : Nat) : Int)) && p e)

theorem computeInDegrees_length (g : SugiyamaGraph) :
    (computeInDegrees g).length = g.nodes.length := by
  unfold computeInDegrees
  rw [foldl_length_inv]
  · exact List.length_replicate _ _
  · intro acc e
    dsimp only
    split
    · rfl
    · exact lset_length _ _ _

theorem contains_eq_false_iff (l : List Int) (x : Int) :
    l.contains x = false ↔ x ∉ l := by
  constructor
  · intro h hm
    have hc := (contains_iff_mem l x).mpr hm
    rw [h] at hc
    exact Bool.false_ne_true hc
  · intro h
    cases hb : l.contains x
    · rfl
    · exact absurd ((contains_iff_mem l x).mp hb) h

theorem computeInDegrees_char (g : SugiyamaGraph)
    (hval : ∀ e ∈ g.edges, edgeEndpointsValid g.nodes.length e)
    (v : Nat) (hv : v < g.nodes.length) :
    lget (computeInDegrees g) ((v : Nat) : Int) 0
      = (kahnInCnt g [] ((v : Nat) : Int) : Int) := by
  have hbridge : kahnInCnt g [] ((v : Nat) : Int)
      = g.edges.countP
        (fun e => e.dst == ((v : Nat) : Int) && !(e.src == e.dst)) := by
    unfold kahnInCnt
    refine List.countP_congr ?_
    intro e _
    constructor <;> intro h <;>
      simp only [Bool.and_eq_true, Bool.not_eq_true'] at h ⊢ <;> tauto
  rw [hbridge]
  unfold computeInDegrees
  suffices h : ∀ es : List SugiyamaEdge,
      (∀ e ∈ es, edgeEndpointsValid g.nodes.length e) →
      (es.foldl
        (fun acc e =>
          if e.src == e.dst then acc
          else lset acc e.dst (lget acc e.dst 0 + 1))
        (List.replicate g.nodes.length (0 : Int))).length = g.nodes.length ∧
      ∀ w : Nat, w < g.nodes.length →
        lget (es.foldl
          (fun acc e =>
            if e.src == e.dst then acc
            else lset acc e.dst (lget acc e.dst 0 + 1))
          (List.replicate g.nodes.length (0 : Int))) ((w : Nat) : Int) 0
        = (es.countP
            (fun e => e.dst == ((w : Nat) : Int) && !(e.src == e.dst)) : Int) by
    exact (h g.edges hval).2 v hv
  intro es
  induction es using List.reverseRecOn with
  | nil =>
      intro _
      refine ⟨by simp, ?_⟩
      intro w hw
      rw [List.foldl_nil, lget_replicate, if_pos (by omega)]
      rfl
  | append_singleton es0 e ih =>
      intro hv2
      obtain ⟨ihlen, ihget⟩ := ih (fun e2 he2 => hv2 e2 (by simp [he2]))
      rw [List.foldl_append, List.foldl_cons, List.foldl_nil]
      constructor
      · split
        · exact ihlen
        · rw [lset_length]
          exact ihlen
      · intro w hw
        rw [List.countP_append]
        by_cases hself : (e.src == e.dst) = true
        · rw [if_pos hself, ihget w hw]
          have hc1 : (List.countP
              (fun e => e.dst == ((w : Nat) : Int) && !(e.src == e.dst))
              [e]) = 0 := by
            simp [hself]
          rw [hc1]
          push_cast
          ring
        · rw [if_neg hself]
          obtain ⟨_, _, hd0, hdlt⟩ := hv2 e (by simp)
          have h1 : (e.src == e.dst) = false := by
            cases hb : (e.src == e.dst)
            · rfl
            · exact absurd hb hself
          by_cases hdst : e.dst = ((w : Nat) : Int)
          · rw [← hdst, lget_lset_self _ _ _ _ hd0 (by rw [ihlen]; omega),
              hdst, ihget w hw]
            have hc1 : (List.countP
                (fun e2 => e2.dst == ((w : Nat) : Int) && !(e2.src == e2.dst))
                [e]) = 1 := by
              rw [List.countP_cons, List.countP_nil]
              rw [show (e.dst == ((w : Nat) : Int)) = true from
                beq_iff_eq.mpr hdst, h1]
              rfl
            rw [hc1]
            push_cast
            ring
          · rw [lget_lset_ne _ _ _ _ _ hdst, ihget w hw]
            have hc1 : (List.countP
                (fun e2 => e2.dst == ((w : Nat) : Int) && !(e2.src == e2.dst))
                [e]) = 0 := by
              simp only [List.countP_cons, List.countP_nil]
              rw [show (e.dst == ((w : Nat) : Int)) = false from
                beq_eq_false_iff_ne.mpr hdst]
              rfl
            rw [hc1]
            push_cast
            ring

theorem kahnInCnt_snoc (g : SugiyamaGraph) (t : List Int) (x : Int)
    (hx : x ∉ t) (v : Int) :
    kahnInCnt g t v
      = kahnInCnt g (t ++ [x]) v
        + g.edges.countP
            (fun e => !(e.src == e.dst) && (e.src == x) && (e.dst == v)) := by
  unfold kahnInCnt
  rw [countP_and_split g.edges _ (fun e => e.src == x)]
  have himp : ∀ y : Int, y = x → y ∉ t := fun y hy => hy ▸ hx
  have hc1 : g.edges.countP
      (fun e => (e.dst == v && !(e.src == e.dst) && !(t.contains e.src))
        && (e.src == x))
      = g.edges.countP
        (fun e => !(e.src == e.dst) && (e.src == x) && (e.dst == v)) := by
    refine List.countP_congr ?_
    intro e _
    constructor <;> intro h <;>
      simp only [Bool.and_eq_true, Bool.not_eq_true', beq_iff_eq,
        beq_eq_false_iff_ne, ne_eq, contains_eq_false_iff] at h ⊢ <;>
      [tauto; exact ⟨⟨⟨h.2, h.1.1⟩, himp e.src h.1.2⟩, h.1.2⟩]
  have hc2 : g.edges.countP
      (fun e => (e.dst == v && !(e.src == e.dst) && !(t.contains e.src))
        && !(e.src == x))
      = g.edges.countP
        (fun e => e.dst == v && !(e.src == e.dst)
          && !((t ++ [x]).contains e.src)) := by
    refine List.countP_congr ?_
    intro e _
    constructor <;> intro h <;>
      simp only [Bool.and_eq_true, Bool.not_eq_true', beq_iff_eq,
        beq_eq_false_iff_ne, ne_eq, contains_eq_false_iff,
        List.mem_append, List.mem_singleton] at h ⊢ <;> tauto
  rw [hc1, hc2]
  ring

theorem initQueue_spec (g : SugiyamaGraph) (ind : List Int) :
    ((List.range g.nodes.length).foldl
      (fun q (i : Nat) =>
        if lget ind (i : Int) 0 == 0 then
          insertSortedByNodeKey g.nodes q (i : Int)
        else q) []).Nodup ∧
    ∀ x : Int,
      x ∈ (List.range g.nodes.length).foldl
        (fun q (i : Nat) =>
          if lget ind (i : Int) 0 == 0 then
            insertSortedByNodeKey g.nodes q (i : Int)
          else q) [] ↔
      ∃ i : Nat, i < g.nodes.length ∧ x = (i : Int) ∧ lget ind (i : Int) 0 = 0 := by
  suffices h : ∀ m : Nat,
      ((List.range m).foldl
        (fun q (i : Nat) =>
          if lget ind (i : Int) 0 == 0 then
            insertSortedByNodeKey g.nodes q (i : Int)
          else q) []).Nodup ∧
      ∀ x : Int,
        x ∈ (List.range m).foldl
          (fun q (i : Nat) =>
            if lget ind (i : Int) 0 == 0 then
              insertSortedByNodeKey g.nodes q (i : Int)
            else q) [] ↔
        ∃ i : Nat, i < m ∧ x = (i : Int) ∧ lget ind (i : Int) 0 = 0 by
    exact h g.nodes.length
  intro m
  induction m with
  | zero =>
      refine ⟨List.nodup_nil, ?_⟩
      intro x
      simp
  | succ m ih =>
      obtain ⟨ihnd, ihmem⟩ := ih
      rw [List.range_succ, List.foldl_append, List.foldl_cons, List.foldl_nil]
      by_cases hc : (lget ind ((m : Nat) : Int) 0 == 0) = true
      · rw [if_pos hc]
        have hperm := insertSortedByNodeKey_perm g.nodes
          ((List.range m).foldl
            (fun q (i : Nat) =>
              if lget ind (i : Int) 0 == 0 then
                insertSortedByNodeKey g.nodes q (i : Int)
              else q) []) ((m : Nat) : Int)
        have hnotmem : ((m : Nat) : Int) ∉
            (List.range m).foldl
              (fun q (i : Nat) =>
                if lget ind (i : Int) 0 == 0 then
                  insertSortedByNodeKey g.nodes q (i : Int)
                else q) [] := by
          intro hm
          obtain ⟨i, hi, he, _⟩ := (ihmem _).mp hm
          have : m = i := by omega
          omega
        constructor
        · rw [hperm.nodup_iff]
          exact List.nodup_cons.mpr ⟨hnotmem, ihnd⟩
        · intro x
          rw [hperm.mem_iff, List.mem_cons, ihmem]
          constructor
          · rintro (rfl | ⟨i, hi, he, hz⟩)
            · exact ⟨m, by omega, rfl, beq_iff_eq.mp hc⟩
            · exact ⟨i, by omega, he, hz⟩
          · rintro ⟨i, hi, rfl, hz⟩
            by_cases him : i = m
            · subst him
              exact Or.inl rfl
            · exact Or.inr ⟨i, by omega, rfl, hz⟩
      · rw [if_neg hc]
        refine ⟨ihnd, ?_⟩
        intro x
        rw [ihmem]
        constructor
        · rintro ⟨i, hi, he, hz⟩
          exact ⟨i, by omega, he, hz⟩
        · rintro ⟨i, hi, rfl, hz⟩
          by_cases him : i = m
          · subst him
            exact absurd (beq_iff_eq.mpr hz) (by simpa using hc)
          · exact ⟨i, by omega, rfl, hz⟩

theorem snoc_eq_append_cases (t l1 l2s : List Int) (x y : Int)
    (h : t ++ [x] = l1 ++ y :: l2s) :
    (l2s = [] ∧ l1 = t ∧ y = x) ∨
    ∃ l2p, l2s = l2p ++ [x] ∧ t = l1 ++ y :: l2p := by
  induction l2s using List.reverseRecOn with
  | nil =>
      have h2 := List.append_inj' h (by rfl)
      have hxy : y = x := by
        have := h2.2
        simp at this
        omega
      exact Or.inl ⟨rfl, h2.1.symm, hxy⟩
  | append_singleton l2p z _ =>
      have h2 : t ++ [x] = (l1 ++ y :: l2p) ++ [z] := by
        rw [h]
        simp
      have h3 := List.append_inj' h2 (by rfl)
      have hzx : z = x := by
        have := h3.2
        simp at this
        omega
      exact Or.inr ⟨l2p, by rw [hzx], h3.1⟩

theorem kahnRelax_spec (g : SugiyamaGraph)
    (hval : ∀ e ∈ g.edges, edgeEndpointsValid g.nodes.length e)
    (t2 t : List Int) (x : Int) (ht2 : t2 = t ++ [x]) (hnd : t2.Nodup)
    (hTR : TopoRespects g t2) :
    ∀ l2 : List Int,
    (∀ y ∈ l2, ∃ k : Nat, k < g.edges.length ∧ y = (k : Int) ∧
      ¬ ((g.edges.getD k defaultSugiyamaEdge).src
        = (g.edges.getD k defaultSugiyamaEdge).dst) ∧
      (g.edges.getD k defaultSugiyamaEdge).src = x) →
    ∀ q ind : List Int, q.Nodup →
    (∀ y ∈ q, (∃ w : Nat, w < g.nodes.length ∧ y = (w : Int)) ∧ y ∉ t2 ∧
      kahnInCnt g t2 y = 0 ∧
      l2.countP (fun ei => (lget g.edges ei defaultSugiyamaEdge).dst == y)
        = 0) →
    (ind.length = g.nodes.length ∧ ∀ w : Nat, w < g.nodes.length →
      lget ind ((w : Nat) : Int) 0
        = (kahnInCnt g t2 ((w : Nat) : Int) : Int)
          + (l2.countP (fun ei =>
              (lget g.edges ei defaultSugiyamaEdge).dst == ((w : Nat) : Int))
            : Int)) →
    (∀ w : Nat, w < g.nodes.length → ((w : Nat) : Int) ∉ t2 →
      kahnInCnt g t2 ((w : Nat) : Int) = 0 →
      l2.countP (fun ei =>
        (lget g.edges ei defaultSugiyamaEdge).dst == ((w : Nat) : Int)) = 0 →
      ((w : Nat) : Int) ∈ q) →
    (kahnRelax g l2 q ind).1.Nodup ∧
    (∀ y ∈ (kahnRelax g l2 q ind).1,
      (∃ w : Nat, w < g.nodes.length ∧ y = (w : Int)) ∧ y ∉ t2 ∧
      kahnInCnt g t2 y = 0) ∧
    (kahnRelax g l2 q ind).2.length = g.nodes.length ∧
    (∀ w : Nat, w < g.nodes.length →
      lget (kahnRelax g l2 q ind).2 ((w : Nat) : Int) 0
        = (kahnInCnt g t2 ((w : Nat) : Int) : Int)) ∧
    (∀ w : Nat, w < g.nodes.length → ((w : Nat) : Int) ∉ t2 →
      kahnInCnt g t2 ((w : Nat) : Int) = 0 →
      ((w : Nat) : Int) ∈ (kahnRelax g l2 q ind).1) := by
  intro l2
  induction l2 with
  | nil =>
      intro _ q ind hqnd hq hind hR5
      have h0 : kahnRelax g [] q ind = (q, ind) := rfl
      rw [h0]
      refine ⟨hqnd, ?_, hind.1, ?_, ?_⟩
      · intro y hy
        obtain ⟨hv, hnt, hz, _⟩ := hq y hy
        exact ⟨hv, hnt, hz⟩
      · intro w hw
        have := hind.2 w hw
        simpa using this
      · intro w hw hnt hz
        exact hR5 w hw hnt hz (by rfl)
  | cons ei l2' ih =>
      intro hbuck q ind hqnd hq hind hR5
      obtain ⟨k, hkE, hei, hns, hsx⟩ := hbuck ei (List.mem_cons_self _ _)
      subst hei
      have hbuck' : ∀ y ∈ l2', ∃ k2 : Nat, k2 < g.edges.length ∧
          y = (k2 : Int) ∧
          ¬ ((g.edges.getD k2 defaultSugiyamaEdge).src
            = (g.edges.getD k2 defaultSugiyamaEdge).dst) ∧
          (g.edges.getD k2 defaultSugiyamaEdge).src = x :=
        fun y hy => hbuck y (List.mem_cons_of_mem _ hy)
      have hemem : g.edges.getD k defaultSugiyamaEdge ∈ g.edges := by
        rw [List.getD_eq_getElem g.edges defaultSugiyamaEdge hkE]
        exact g.edges.getElem_mem _
      obtain ⟨hs0, hslt, hd0, hdlt⟩ := hval _ hemem
      have hlg : lget g.edges ((k : Nat) : Int) defaultSugiyamaEdge
          = g.edges.getD k defaultSugiyamaEdge := lget_eq_getD _ _ _
      have hstep : kahnRelax g (((k : Nat) : Int) :: l2') q ind
          = (if (lget (lset ind
                (lget g.edges ((k : Nat) : Int) defaultSugiyamaEdge).dst
                (lget ind
                  (lget g.edges ((k : Nat) : Int) defaultSugiyamaEdge).dst 0
                  - 1))
                (lget g.edges ((k : Nat) : Int) defaultSugiyamaEdge).dst 0
                == 0) then
              kahnRelax g l2'
                (insertSortedByNodeKey g.nodes q
                  (lget g.edges ((k : Nat) : Int) defaultSugiyamaEdge).dst)
                (lset ind
                  (lget g.edges ((k : Nat) : Int) defaultSugiyamaEdge).dst
                  (lget ind
                    (lget g.edges ((k : Nat) : Int) defaultSugiyamaEdge).dst 0
                    - 1))
            else
              kahnRelax g l2' q
                (lset ind
                  (lget g.edges ((k : Nat) : Int) defaultSugiyamaEdge).dst
                  (lget ind
                    (lget g.edges ((k : Nat) : Int) defaultSugiyamaEdge).dst 0
                    - 1))) := by
        unfold kahnRelax
        rw [List.foldl_cons]
        dsimp only
        split <;> rfl
      rw [hlg] at hstep
      set e := g.edges.getD k defaultSugiyamaEdge with hedef
      set ind2 := lset ind e.dst (lget ind e.dst 0 - 1) with hind2def
      have hdN : ((e.dst.toNat : Nat) : Int) = e.dst := Int.toNat_of_nonneg hd0
      have hdNlt : e.dst.toNat < g.nodes.length := by omega
      have hindlen : ind.length = g.nodes.length := hind.1
      have hind2len : ind2.length = g.nodes.length := by
        rw [hind2def, lset_length, hindlen]
      have hcnt_cons : ∀ y : Int,
          (((k : Nat) : Int) :: l2').countP
            (fun ei => (lget g.edges ei defaultSugiyamaEdge).dst == y)
          = l2'.countP
            (fun ei => (lget g.edges ei defaultSugiyamaEdge).dst == y)
            + (if e.dst = y then 1 else 0) := by
        intro y
        rw [List.countP_cons]
        congr 1
        dsimp only
        rw [hlg]
        by_cases hdy : e.dst = y
        · rw [if_pos (beq_iff_eq.mpr hdy), if_pos hdy]
        · rw [if_neg (by simp [hdy]), if_neg hdy]
      have hind2get : ∀ w : Nat, w < g.nodes.length →
          lget ind2 ((w : Nat) : Int) 0
            = (kahnInCnt g t2 ((w : Nat) : Int) : Int)
              + (l2'.countP (fun ei =>
                  (lget g.edges ei defaultSugiyamaEdge).dst
                    == ((w : Nat) : Int)) : Int) := by
        intro w hw
        by_cases hdw : e.dst = ((w : Nat) : Int)
        · rw [hind2def, ← hdw,
            lget_lset_self _ _ _ _ hd0 (by rw [hindlen]; omega), hdw]
          rw [hind.2 w hw, hcnt_cons ((w : Nat) : Int), if_pos hdw]
          push_cast
          ring
        · rw [hind2def, lget_lset_ne _ _ _ _ _ hdw, hind.2 w hw,
            hcnt_cons ((w : Nat) : Int), if_neg hdw]
          push_cast
          ring
      by_cases hb : (lget ind2 e.dst 0 == 0) = true
      · rw [hstep, if_pos hb]
        have hzero : kahnInCnt g t2 e.dst = 0 ∧
            l2'.countP (fun ei =>
              (lget g.edges ei defaultSugiyamaEdge).dst == e.dst) = 0 := by
          have hv := hind2get e.dst.toNat hdNlt
          rw [hdN] at hv
          have hb2 : lget ind2 e.dst 0 = 0 := beq_iff_eq.mp hb
          rw [hb2] at hv
          constructor <;> omega
        have hdnotT : e.dst ∉ t2 := by
          intro hmem2
          obtain ⟨l1, l2s, hsplit⟩ := List.append_of_mem hmem2
          have hsrcmem := hTR l1 e.dst l2s hsplit e hemem hns rfl
          rw [hsx] at hsrcmem
          rcases snoc_eq_append_cases t l1 l2s x e.dst
              (by rw [← ht2, hsplit]) with ⟨_, hl1, hyx⟩ | ⟨l2p, _, htp⟩
          · exact hns (by rw [hsx, hyx])
          · have hxt : x ∈ t := by
              rw [htp]
              exact List.mem_append_left _ hsrcmem
            have hdisj := List.nodup_append.mp (ht2 ▸ hnd)
            exact hdisj.2.2 hxt (List.mem_singleton_self x)
        have hdnotQ : e.dst ∉ q := by
          intro hmem2
          obtain ⟨_, _, _, hcq⟩ := hq e.dst hmem2
          rw [hcnt_cons e.dst, if_pos rfl] at hcq
          omega
        have hperm := insertSortedByNodeKey_perm g.nodes q e.dst
        refine ih hbuck' (insertSortedByNodeKey g.nodes q e.dst) ind2
          ?_ ?_ ⟨hind2len, hind2get⟩ ?_
        · rw [hperm.nodup_iff]
          exact List.nodup_cons.mpr ⟨hdnotQ, hqnd⟩
        · intro y hy
          rcases List.mem_cons.mp (hperm.mem_iff.mp hy) with rfl | hy2
          · exact ⟨⟨e.dst.toNat, hdNlt, hdN.symm⟩, hdnotT, hzero.1, hzero.2⟩
          · obtain ⟨hv, hnt, hz, hcq⟩ := hq y hy2
            refine ⟨hv, hnt, hz, ?_⟩
            have := hcnt_cons y
            omega
        · intro w hw hnt hz hc
          rw [hperm.mem_iff, List.mem_cons]
          by_cases hdw : e.dst = ((w : Nat) : Int)
          · exact Or.inl hdw.symm
          · refine Or.inr (hR5 w hw hnt hz ?_)
            rw [hcnt_cons ((w : Nat) : Int), if_neg hdw]
            omega
      · rw [hstep, if_neg hb]
        refine ih hbuck' q ind2 hqnd ?_ ⟨hind2len, hind2get⟩ ?_
        · intro y hy
          obtain ⟨hv, hnt, hz, hcq⟩ := hq y hy
          refine ⟨hv, hnt, hz, ?_⟩
          have := hcnt_cons y
          omega
        · intro w hw hnt hz hc
          by_cases hdw : e.dst = ((w : Nat) : Int)
          · exfalso
            have hv := hind2get w hw
            have hz2 : lget ind2 ((w : Nat) : Int) 0 = 0 := by
              rw [hv, hz, hc]
              push_cast
              try ring
            rw [← hdw] at hz2
            exact hb (beq_iff_eq.mpr hz2)
          · refine hR5 w hw hnt hz ?_
            rw [hcnt_cons ((w : Nat) : Int), if_neg hdw]
            omega

theorem nodup_valid_length_le (t : List Int) (n : Nat) (hnd : t.Nodup)
    (hvalid : ∀ y ∈ t, ∃ w : Nat, w < n ∧ y = (w : Int)) : t.length ≤ n := by
  have h1 : (t.map Int.toNat).Nodup := by
    refine hnd.map_on ?_
    intro a ha b hb he
    obtain ⟨wa, _, rfl⟩ := hvalid a ha
    obtain ⟨wb, _, rfl⟩ := hvalid b hb
    simp at he
    omega
  have h2 : (t.map Int.toNat).toFinset ⊆ Finset.range n := by
    intro m hm
    rw [List.mem_toFinset] at hm
    obtain ⟨a, ha, rfl⟩ := List.mem_map.mp hm
    obtain ⟨w, hw, rfl⟩ := hvalid a ha
    rw [Finset.mem_range]
    omega
  calc t.length = (t.map Int.toNat).length := (List.length_map _ _).symm
    _ = (t.map Int.toNat).toFinset.card :=
        (List.toFinset_card_of_nodup h1).symm
    _ ≤ (Finset.range n).card := Finset.card_le_card h2
    _ = n := Finset.card_range n

theorem nodup_valid_complete_length (t : List Int) (n : Nat) (hnd : t.Nodup)
    (hvalid : ∀ y ∈ t, ∃ w : Nat, w < n ∧ y = (w : Int))
    (hcomp : ∀ w : Nat, w < n → ((w : Nat) : Int) ∈ t) : t.length = n := by
  have hle := nodup_valid_length_le t n hnd hvalid
  have h1 : (t.map Int.toNat).Nodup := by
    refine hnd.map_on ?_
    intro a ha b hb he
    obtain ⟨wa, _, rfl⟩ := hvalid a ha
    obtain ⟨wb, _, rfl⟩ := hvalid b hb
    simp at he
    omega
  have h2 : Finset.range n ⊆ (t.map Int.toNat).toFinset := by
    intro m hm
    rw [Finset.mem_range] at hm
    rw [List.mem_toFinset]
    refine List.mem_map.mpr ⟨((m : Nat) : Int), hcomp m hm, ?_⟩
    omega
  have hge : n ≤ t.length := by
    calc n = (Finset.range n).card := (Finset.card_range n).symm
      _ ≤ (t.map Int.toNat).toFinset.card := Finset.card_le_card h2
      _ = (t.map Int.toNat).length := List.toFinset_card_of_nodup h1
      _ = t.length := List.length_map _ _
  omega

theorem kahnLoop_spec (g : SugiyamaGraph)
    (hval : ∀ e ∈ g.edges, edgeEndpointsValid g.nodes.length e) :
    ∀ fuel : Nat, ∀ q ind t : List Int, ∀ inTopo : List Bool,
    t.Nodup →
    (∀ y ∈ t, ∃ w : Nat, w < g.nodes.length ∧ y = (w : Int)) →
    TopoRespects g t →
    q.Nodup →
    (∀ y ∈ q, (∃ w : Nat, w < g.nodes.length ∧ y = (w : Int)) ∧ y ∉ t ∧
      kahnInCnt g t y = 0) →
    ind.length = g.nodes.length →
    (∀ w : Nat, w < g.nodes.length →
      lget ind ((w : Nat) : Int) 0 = (kahnInCnt g t ((w : Nat) : Int) : Int)) →
    (∀ w : Nat, w < g.nodes.length → ((w : Nat) : Int) ∉ t →
      kahnInCnt g t ((w : Nat) : Int) = 0 → ((w : Nat) : Int) ∈ q) →
    g.nodes.length + 1 ≤ fuel + t.length →
    (kahnLoop g (buildOutEdges g) fuel q ind t inTopo).1.Nodup ∧
    (∀ y ∈ (kahnLoop g (buildOutEdges g) fuel q ind t inTopo).1,
      ∃ w : Nat, w < g.nodes.length ∧ y = (w : Int)) ∧
    TopoRespects g (kahnLoop g (buildOutEdges g) fuel q ind t inTopo).1 ∧
    (∀ w : Nat, w < g.nodes.length →
      ((w : Nat) : Int) ∉ (kahnLoop g (buildOutEdges g) fuel q ind t inTopo).1 →
      kahnInCnt g (kahnLoop g (buildOutEdges g) fuel q ind t inTopo).1
        ((w : Nat) : Int) ≠ 0) := by
  intro fuel
  induction fuel with
  | zero =>
      intro q ind t inTopo hnd hvalid _ _ _ _ _ _ hfuel
      exfalso
      have := nodup_valid_length_le t g.nodes.length hnd hvalid
      omega
  | succ fuel ih =>
      intro q ind t inTopo hnd hvalid hTR hqnd hq hindlen hindget hL5 hfuel
      match hqe : q with
      | [] =>
          have hred : kahnLoop g (buildOutEdges g) (fuel + 1) [] ind t inTopo
              = (t, inTopo) := rfl
          rw [hred]
          refine ⟨hnd, hvalid, hTR, ?_⟩
          intro w hw hnt hz
          exact absurd (hL5 w hw hnt hz) (List.not_mem_nil _)
      | u :: rest =>
          obtain ⟨⟨uN, huN, rfl⟩, hunt, huz⟩ := hq u (List.mem_cons_self _ _)
          have hundup := List.nodup_cons.mp hqnd
          have ht2nd : (t ++ [((uN : Nat) : Int)]).Nodup := by
            rw [List.nodup_append]
            refine ⟨hnd, List.nodup_singleton _, ?_⟩
            intro a ha hb
            rw [List.mem_singleton] at hb
            subst hb
            exact hunt ha
          have ht2valid : ∀ y ∈ t ++ [((uN : Nat) : Int)],
              ∃ w : Nat, w < g.nodes.length ∧ y = (w : Int) := by
            intro y hy
            rcases List.mem_append.mp hy with hy2 | hy2
            · exact hvalid y hy2
            · rw [List.mem_singleton] at hy2
              exact ⟨uN, huN, hy2⟩
          have ht2TR : TopoRespects g (t ++ [((uN : Nat) : Int)]) := by
            intro l1 y l2s hsplit e hemem hens hedst
            rcases snoc_eq_append_cases t l1 l2s ((uN : Nat) : Int) y hsplit
              with ⟨_, hl1, hyu⟩ | ⟨l2p, _, htp⟩
            · have hz := List.countP_eq_zero.mp huz e hemem
              rw [Bool.and_eq_true, Bool.and_eq_true] at hz
              push_neg at hz
              subst hl1
              have hcont := hz ⟨beq_iff_eq.mpr (by rw [hedst, hyu]),
                by simpa using hens⟩
              have hc2 : l1.contains e.src = true := by
                cases hcb : l1.contains e.src
                · exact absurd (by rw [hcb]; rfl) hcont
                · rfl
              exact (contains_iff_mem l1 e.src).mp hc2
            · exact hTR l1 y l2p htp e hemem hens hedst
          have hbuckmem := bucket_mem_iff g hval uN huN
          have hbuck : ∀ y ∈ lget (buildOutEdges g) ((uN : Nat) : Int) [],
              ∃ k : Nat, k < g.edges.length ∧ y = (k : Int) ∧
              ¬ ((g.edges.getD k defaultSugiyamaEdge).src
                = (g.edges.getD k defaultSugiyamaEdge).dst) ∧
              (g.edges.getD k defaultSugiyamaEdge).src = ((uN : Nat) : Int) := by
            intro y hy
            exact (hbuckmem y).mp hy
          have hbcnt : ∀ y : Int,
              (lget (buildOutEdges g) ((uN : Nat) : Int) []).countP
                (fun ei => (lget g.edges ei defaultSugiyamaEdge).dst == y)
              = g.edges.countP
                (fun e => !(e.src == e.dst) && (e.src == ((uN : Nat) : Int))
                  && (e.dst == y)) := by
            intro y
            exact bucket_countP_eq g hval uN huN (fun e => e.dst == y)
          have hsnoc : ∀ y : Int, kahnInCnt g t y
              = kahnInCnt g (t ++ [((uN : Nat) : Int)]) y
                + g.edges.countP
                  (fun e => !(e.src == e.dst) && (e.src == ((uN : Nat) : Int))
                    && (e.dst == y)) :=
            fun y => kahnInCnt_snoc g t ((uN : Nat) : Int) hunt y
          have hrelax := kahnRelax_spec g hval (t ++ [((uN : Nat) : Int)]) t
            ((uN : Nat) : Int) rfl ht2nd ht2TR
            (lget (buildOutEdges g) ((uN : Nat) : Int) []) hbuck rest ind
            hundup.2
            (by
              intro y hy
              obtain ⟨hv, hnt, hz⟩ := hq y (List.mem_cons_of_mem _ hy)
              have hyne : y ≠ ((uN : Nat) : Int) := by
                intro hc
                exact hundup.1 (hc ▸ hy)
              have hnt2 : y ∉ t ++ [((uN : Nat) : Int)] := by
                intro hc
                rcases List.mem_append.mp hc with hc2 | hc2
                · exact hnt hc2
                · rw [List.mem_singleton] at hc2
                  exact hyne hc2
              have hdec := hsnoc y
              rw [hz] at hdec
              refine ⟨hv, hnt2, by omega, ?_⟩
              rw [hbcnt y]
              omega)
            (by
              refine ⟨hindlen, ?_⟩
              intro w hw
              rw [hindget w hw, hbcnt ((w : Nat) : Int)]
              rw [hsnoc ((w : Nat) : Int)]
              push_cast
              ring)
            (by
              intro w hw hnt2 hz2 hc2
              have hdec := hsnoc ((w : Nat) : Int)
              rw [hbcnt ((w : Nat) : Int)] at hc2
              rw [hz2, hc2] at hdec
              have hwnt : ((w : Nat) : Int) ∉ t := by
                intro hc
                exact hnt2 (List.mem_append_left _ hc)
              have hwin := hL5 w hw hwnt (by omega)
              rcases List.mem_cons.mp hwin with hc | hc
              · exfalso
                exact hnt2 (hc ▸ List.mem_append_right _
                  (List.mem_singleton_self _))
              · exact hc)
          have hred : kahnLoop g (buildOutEdges g) (fuel + 1)
              (((uN : Nat) : Int) :: rest) ind t inTopo
              = kahnLoop g (buildOutEdges g) fuel
                  (kahnRelax g (lget (buildOutEdges g) ((uN : Nat) : Int) [])
                    rest ind).1
                  (kahnRelax g (lget (buildOutEdges g) ((uN : Nat) : Int) [])
                    rest ind).2
                  (t ++ [((uN : Nat) : Int)])
                  (lset inTopo ((uN : Nat) : Int) true) := rfl
          rw [hred]
          obtain ⟨hr1, hr2, hr3, hr4, hr5⟩ := hrelax
          refine ih _ _ _ _ ht2nd ht2valid ht2TR hr1 ?_ hr3 hr4 hr5 ?_
          · intro y hy
            exact hr2 y hy
          · rw [List.length_append, List.length_singleton]
            omega

theorem topoOrderOf_eq_of_full (g : SugiyamaGraph)
    (h : ¬ ((kahnLoop g (buildOutEdges g)
        (g.nodes.length + g.edges.length + 1)
        ((List.range g.nodes.length).foldl
          (fun q (i : Nat) =>
            if lget (computeInDegrees g) (i : Int) 0 == 0 then
              insertSortedByNodeKey g.nodes q (i : Int)
            else q) [])
        (computeInDegrees g) []
        (List.replicate g.nodes.length false)).1.length
      < g.nodes.length)) :
    topoOrderOf g (buildOutEdges g)
      = (kahnLoop g (buildOutEdges g)
          (g.nodes.length + g.edges.length + 1)
          ((List.range g.nodes.length).foldl
            (fun q (i : Nat) =>
              if lget (computeInDegrees g) (i : Int) 0 == 0 then
                insertSortedByNodeKey g.nodes q (i : Int)
              else q) [])
          (computeInDegrees g) []
          (List.replicate g.nodes.length false)).1 := by
  unfold topoOrderOf
  dsimp only
  rw [if_neg h]

theorem topoOrder_spec (g : SugiyamaGraph)
    (hval : ∀ e ∈ g.edges, edgeEndpointsValid g.nodes.length e)
    (cert : Int → Nat)
    (hcert : ∀ e ∈ g.edges, ¬ (e.src = e.dst) → cert e.src < cert e.dst) :
    (topoOrderOf g (buildOutEdges g)).Nodup ∧
    (∀ y ∈ topoOrderOf g (buildOutEdges g),
      ∃ w : Nat, w < g.nodes.length ∧ y = (w : Int)) ∧
    (∀ w : Nat, w < g.nodes.length →
      ((w : Nat) : Int) ∈ topoOrderOf g (buildOutEdges g)) ∧
    (topoOrderOf g (buildOutEdges g)).length = g.nodes.length ∧
    TopoRespects g (topoOrderOf g (buildOutEdges g)) := by
  obtain ⟨hqnd, hqmem⟩ := initQueue_spec g (computeInDegrees g)
  have hloop := kahnLoop_spec g hval (g.nodes.length + g.edges.length + 1)
    ((List.range g.nodes.length).foldl
      (fun q (i : Nat) =>
        if lget (computeInDegrees g) (i : Int) 0 == 0 then
          insertSortedByNodeKey g.nodes q (i : Int)
        else q) [])
    (computeInDegrees g) [] (List.replicate g.nodes.length false)
    List.nodup_nil
    (by intro y hy; exact absurd hy (List.not_mem_nil _))
    (by intro l1 y l2 h _ _ _ _; exact absurd h (by simp))
    hqnd
    (by
      intro y hy
      obtain ⟨i, hi, rfl, hz⟩ := (hqmem y).mp hy
      have hch := computeInDegrees_char g hval i hi
      rw [hz] at hch
      refine ⟨⟨i, hi, rfl⟩, List.not_mem_nil _, ?_⟩
      omega)
    (computeInDegrees_length g)
    (by intro w hw; exact computeInDegrees_char g hval w hw)
    (by
      intro w hw _ hz
      refine (hqmem _).mpr ⟨w, hw, rfl, ?_⟩
      rw [computeInDegrees_char g hval w hw, hz]
      rfl)
    (by omega)
  obtain ⟨hLnd, hLval, hLTR, hLready⟩ := hloop
  have hcomp : ∀ w : Nat, w < g.nodes.length →
      ((w : Nat) : Int) ∈ (kahnLoop g (buildOutEdges g)
        (g.nodes.length + g.edges.length + 1)
        ((List.range g.nodes.length).foldl
          (fun q (i : Nat) =>
            if lget (computeInDegrees g) (i : Int) 0 == 0 then
              insertSortedByNodeKey g.nodes q (i : Int)
            else q) [])
        (computeInDegrees g) []
        (List.replicate g.nodes.length false)).1 := by
    by_contra hcon
    push_neg at hcon
    obtain ⟨w0, hw0, hw0n⟩ := hcon
    have hSne : ((Finset.range g.nodes.length).filter
        (fun w => ((w : Nat) : Int) ∉ (kahnLoop g (buildOutEdges g)
          (g.nodes.length + g.edges.length + 1)
          ((List.range g.nodes.length).foldl
            (fun q (i : Nat) =>
              if lget (computeInDegrees g) (i : Int) 0 == 0 then
                insertSortedByNodeKey g.nodes q (i : Int)
              else q) [])
          (computeInDegrees g) []
          (List.replicate g.nodes.length false)).1)).Nonempty := by
      refine ⟨w0, ?_⟩
      rw [Finset.mem_filter, Finset.mem_range]
      exact ⟨hw0, by simpa using hw0n⟩
    obtain ⟨v, hvS, hvmin⟩ := Finset.exists_min_image _
      (fun w => cert ((w : Nat) : Int)) hSne
    rw [Finset.mem_filter, Finset.mem_range] at hvS
    have hvnot : ((v : Nat) : Int) ∉ (kahnLoop g (buildOutEdges g)
        (g.nodes.length + g.edges.length + 1)
        ((List.range g.nodes.length).foldl
          (fun q (i : Nat) =>
            if lget (computeInDegrees g) (i : Int) 0 == 0 then
              insertSortedByNodeKey g.nodes q (i : Int)
            else q) [])
        (computeInDegrees g) []
        (List.replicate g.nodes.length false)).1 := by simpa using hvS.2
    have hzero : kahnInCnt g (kahnLoop g (buildOutEdges g)
        (g.nodes.length + g.edges.length + 1)
        ((List.range g.nodes.length).foldl
          (fun q (i : Nat) =>
            if lget (computeInDegrees g) (i : Int) 0 == 0 then
              insertSortedByNodeKey g.nodes q (i : Int)
            else q) [])
        (computeInDegrees g) []
        (List.replicate g.nodes.length false)).1 ((v : Nat) : Int) = 0 := by
      unfold kahnInCnt
      refine List.countP_eq_zero.mpr ?_
      intro e hemem hpred
      rw [Bool.and_eq_true, Bool.and_eq_true] at hpred
      obtain ⟨⟨hdst, hns⟩, hcont⟩ := hpred
      have hens : ¬ (e.src = e.dst) := by
        rw [Bool.not_eq_true', beq_eq_false_iff_ne] at hns
        exact hns
      obtain ⟨hs0, hslt, _, _⟩ := hval e hemem
      have hsN : ((e.src.toNat : Nat) : Int) = e.src :=
        Int.toNat_of_nonneg hs0
      have hsrcnot : e.src ∉ (kahnLoop g (buildOutEdges g)
          (g.nodes.length + g.edges.length + 1)
          ((List.range g.nodes.length).foldl
            (fun q (i : Nat) =>
              if lget (computeInDegrees g) (i : Int) 0 == 0 then
                insertSortedByNodeKey g.nodes q (i : Int)
              else q) [])
          (computeInDegrees g) []
          (List.replicate g.nodes.length false)).1 := by
        intro hc
        rw [show (kahnLoop g (buildOutEdges g)
            (g.nodes.length + g.edges.length + 1)
            ((List.range g.nodes.length).foldl
              (fun q (i : Nat) =>
                if lget (computeInDegrees g) (i : Int) 0 == 0 then
                  insertSortedByNodeKey g.nodes q (i : Int)
                else q) [])
            (computeInDegrees g) []
            (List.replicate g.nodes.length false)).1.contains e.src = true
          from (contains_iff_mem _ _).mpr hc] at hcont
        exact Bool.false_ne_true (by simpa using hcont)
      have hsS : e.src.toNat ∈ (Finset.range g.nodes.length).filter
          (fun w => ((w : Nat) : Int) ∉ (kahnLoop g (buildOutEdges g)
            (g.nodes.length + g.edges.length + 1)
            ((List.range g.nodes.length).foldl
              (fun q (i : Nat) =>
                if lget (computeInDegrees g) (i : Int) 0 == 0 then
                  insertSortedByNodeKey g.nodes q (i : Int)
                else q) [])
            (computeInDegrees g) []
            (List.replicate g.nodes.length false)).1) := by
        rw [Finset.mem_filter, Finset.mem_range]
        refine ⟨by omega, ?_⟩
        simpa [hsN] using hsrcnot
      have hmin := hvmin _ hsS
      have hlt := hcert e hemem hens
      rw [beq_iff_eq] at hdst
      rw [hdst] at hlt
      rw [hsN] at hmin
      omega
    exact absurd hzero (hLready v hvS.1 hvnot)
  have hlen := nodup_valid_complete_length _ g.nodes.length hLnd hLval hcomp
  have heq := topoOrderOf_eq_of_full g (by omega)
  rw [heq]
  exact ⟨hLnd, hLval, hcomp, hlen, hLTR⟩

theorem forwardInner_facts (g : SugiyamaGraph)
    (hval : ∀ e ∈ g.edges, edgeEndpointsValid g.nodes.length e) (x : Int) :
    ∀ bs : List Int,
    (∀ y ∈ bs, ∃ k : Nat, k < g.edges.length ∧ y = (k : Int) ∧
      ¬ ((g.edges.getD k defaultSugiyamaEdge).src
        = (g.edges.getD k defaultSugiyamaEdge).dst) ∧
      (g.edges.getD k defaultSugiyamaEdge).src = x) →
    ∀ rb : List Int, rb.length = g.nodes.length →
    (bs.foldl
      (fun rb ei =>
        let e := lget g.edges ei defaultSugiyamaEdge
        lset rb e.dst (max (lget rb e.dst 0) (lget rb x 0 + e.minLen)))
      rb).length = g.nodes.length ∧
    (∀ v : Int, lget rb v 0 ≤
      lget (bs.foldl
        (fun rb ei =>
          let e := lget g.edges ei defaultSugiyamaEdge
          lset rb e.dst (max (lget rb e.dst 0) (lget rb x 0 + e.minLen)))
        rb) v 0) ∧
    (lget (bs.foldl
        (fun rb ei =>
          let e := lget g.edges ei defaultSugiyamaEdge
          lset rb e.dst (max (lget rb e.dst 0) (lget rb x 0 + e.minLen)))
        rb) x 0 = lget rb x 0) ∧
    (∀ v : Int,
      (∀ y ∈ bs, (lget g.edges y defaultSugiyamaEdge).dst ≠ v) →
      lget (bs.foldl
        (fun rb ei =>
          let e := lget g.edges ei defaultSugiyamaEdge
          lset rb e.dst (max (lget rb e.dst 0) (lget rb x 0 + e.minLen)))
        rb) v 0 = lget rb v 0) ∧
    (∀ y ∈ bs,
      lget (bs.foldl
        (fun rb ei =>
          let e := lget g.edges ei defaultSugiyamaEdge
          lset rb e.dst (max (lget rb e.dst 0) (lget rb x 0 + e.minLen)))
        rb) (lget g.edges y defaultSugiyamaEdge).dst 0
      ≥ lget (bs.foldl
          (fun rb ei =>
            let e := lget g.edges ei defaultSugiyamaEdge
            lset rb e.dst (max (lget rb e.dst 0) (lget rb x 0 + e.minLen)))
          rb) x 0 + (lget g.edges y defaultSugiyamaEdge).minLen) := by
  intro bs
  induction bs with
  | nil =>
      intro _ rb hlen
      refine ⟨hlen, fun v => le_refl _, rfl, fun v _ => rfl, ?_⟩
      intro y hy
      exact absurd hy (List.not_mem_nil _)
  | cons ei bs' ih =>
      intro hbs rb hlen
      obtain ⟨k, hkE, hei, hns, hsx⟩ := hbs ei (List.mem_cons_self _ _)
      subst hei
      have hbs' : ∀ y ∈ bs', ∃ k2 : Nat, k2 < g.edges.length ∧
          y = (k2 : Int) ∧
          ¬ ((g.edges.getD k2 defaultSugiyamaEdge).src
            = (g.edges.getD k2 defaultSugiyamaEdge).dst) ∧
          (g.edges.getD k2 defaultSugiyamaEdge).src = x :=
        fun y hy => hbs y (List.mem_cons_of_mem _ hy)
      have hemem : g.edges.getD k defaultSugiyamaEdge ∈ g.edges := by
        rw [List.getD_eq_getElem g.edges defaultSugiyamaEdge hkE]
        exact g.edges.getElem_mem _
      obtain ⟨hs0, hslt, hd0, hdlt⟩ := hval _ hemem
      have hlg : lget g.edges ((k : Nat) : Int) defaultSugiyamaEdge
          = g.edges.getD k defaultSugiyamaEdge := lget_eq_getD _ _ _
      have hdx : (g.edges.getD k defaultSugiyamaEdge).dst ≠ x := by
        intro hc
        exact hns (by rw [hsx, hc])
      have hred : (((k : Nat) : Int) :: bs').foldl
          (fun rb ei =>
            let e := lget g.edges ei defaultSugiyamaEdge
            lset rb e.dst (max (lget rb e.dst 0) (lget rb x 0 + e.minLen)))
          rb
          = bs'.foldl
            (fun rb ei =>
              let e := lget g.edges ei defaultSugiyamaEdge
              lset rb e.dst (max (lget rb e.dst 0) (lget rb x 0 + e.minLen)))
            (lset rb (g.edges.getD k defaultSugiyamaEdge).dst
              (max (lget rb (g.edges.getD k defaultSugiyamaEdge).dst 0)
                (lget rb x 0
                  + (g.edges.getD k defaultSugiyamaEdge).minLen))) := by
        rw [List.foldl_cons]
        dsimp only
        rw [hlg]
      rw [hred]
      set rb1 := lset rb (g.edges.getD k defaultSugiyamaEdge).dst
        (max (lget rb (g.edges.getD k defaultSugiyamaEdge).dst 0)
          (lget rb x 0 + (g.edges.getD k defaultSugiyamaEdge).minLen))
        with hrb1
      have hlen1 : rb1.length = g.nodes.length := by
        rw [hrb1, lset_length, hlen]
      have hmono1 : ∀ v : Int, lget rb v 0 ≤ lget rb1 v 0 := by
        intro v
        by_cases hv : (g.edges.getD k defaultSugiyamaEdge).dst = v
        · rw [hrb1, ← hv,
            lget_lset_self _ _ _ _ hd0 (by rw [hlen]; omega)]
          exact le_max_left _ _
        · rw [hrb1, lget_lset_ne _ _ _ _ _ hv]
      have hx1 : lget rb1 x 0 = lget rb x 0 := by
        rw [hrb1, lget_lset_ne _ _ _ _ _ hdx]
      have hd1 : lget rb1 (g.edges.getD k defaultSugiyamaEdge).dst 0
          = max (lget rb (g.edges.getD k defaultSugiyamaEdge).dst 0)
            (lget rb x 0 + (g.edges.getD k defaultSugiyamaEdge).minLen) := by
        rw [hrb1, lget_lset_self _ _ _ _ hd0 (by rw [hlen]; omega)]
      obtain ⟨ih1, ih2, ih3, ih4, ih5⟩ := ih hbs' rb1 hlen1
      refine ⟨ih1, ?_, ?_, ?_, ?_⟩
      · intro v
        exact le_trans (hmono1 v) (ih2 v)
      · rw [ih3, hx1]
      · intro v hv
        have hvhead := hv ((k : Nat) : Int) (List.mem_cons_self _ _)
        rw [hlg] at hvhead
        rw [ih4 v (fun y hy => hv y (List.mem_cons_of_mem _ hy)),
          hrb1, lget_lset_ne _ _ _ _ _ hvhead]
      · intro y hy
        rcases List.mem_cons.mp hy with rfl | hy2
        · rw [hlg, ih3, hx1]
          calc lget rb x 0 + (g.edges.getD k defaultSugiyamaEdge).minLen
              ≤ lget rb1 (g.edges.getD k defaultSugiyamaEdge).dst 0 := by
                rw [hd1]
                exact le_max_right _ _
            _ ≤ _ := ih2 _
        · exact ih5 y hy2

theorem forwardOuter_facts (g : SugiyamaGraph)
    (hval : ∀ e ∈ g.edges, edgeEndpointsValid g.nodes.length e)
    (topo : List Int) (hnd : topo.Nodup)
    (hvalid : ∀ y ∈ topo, ∃ w : Nat, w < g.nodes.length ∧ y = (w : Int))
    (hTR : TopoRespects g topo) :
    ∀ rest tp : List Int, topo = tp ++ rest →
    ∀ rb : List Int, rb.length = g.nodes.length →
    (∀ e ∈ g.edges, ¬ (e.src = e.dst) → e.src ∈ tp →
      lget rb e.dst 0 ≥ lget rb e.src 0 + e.minLen) →
    (rest.foldl
      (fun rb nodeIndex =>
        (lget (buildOutEdges g) nodeIndex []).foldl
          (fun rb ei =>
            let e := lget g.edges ei defaultSugiyamaEdge
            lset rb e.dst
              (max (lget rb e.dst 0) (lget rb nodeIndex 0 + e.minLen)))
          rb)
      rb).length = g.nodes.length ∧
    (∀ e ∈ g.edges, ¬ (e.src = e.dst) → e.src ∈ tp ++ rest →
      lget (rest.foldl
        (fun rb nodeIndex =>
          (lget (buildOutEdges g) nodeIndex []).foldl
            (fun rb ei =>
              let e := lget g.edges ei defaultSugiyamaEdge
              lset rb e.dst
                (max (lget rb e.dst 0) (lget rb nodeIndex 0 + e.minLen)))
            rb)
        rb) e.dst 0
      ≥ lget (rest.foldl
          (fun rb nodeIndex =>
            (lget (buildOutEdges g) nodeIndex []).foldl
              (fun rb ei =>
                let e := lget g.edges ei defaultSugiyamaEdge
                lset rb e.dst
                  (max (lget rb e.dst 0) (lget rb nodeIndex 0 + e.minLen)))
              rb)
          rb) e.src 0 + e.minLen) := by
  intro rest
  induction rest with
  | nil =>
      intro tp htopo rb hlen hO2
      refine ⟨hlen, ?_⟩
      intro e hemem hens hesrc
      rw [List.append_nil] at hesrc
      exact hO2 e hemem hens hesrc
  | cons x rest' ih =>
      intro tp htopo rb hlen hO2
      have hxmem : x ∈ topo := by
        rw [htopo]
        exact List.mem_append_right _ (List.mem_cons_self _ _)
      obtain ⟨xN, hxN, rfl⟩ := hvalid x hxmem
      have hbs : ∀ y ∈ lget (buildOutEdges g) ((xN : Nat) : Int) [],
          ∃ k : Nat, k < g.edges.length ∧ y = (k : Int) ∧
          ¬ ((g.edges.getD k defaultSugiyamaEdge).src
            = (g.edges.getD k defaultSugiyamaEdge).dst) ∧
          (g.edges.getD k defaultSugiyamaEdge).src = ((xN : Nat) : Int) :=
        fun y hy => (bucket_mem_iff g hval xN hxN y).mp hy
      obtain ⟨hlen1, hmono1, hxstab1, hoth1, hrel1⟩ :=
        forwardInner_facts g hval ((xN : Nat) : Int)
          (lget (buildOutEdges g) ((xN : Nat) : Int) []) hbs rb hlen
      have hdisj := (List.nodup_append.mp (htopo ▸ hnd)).2.2
      have hO2' : ∀ e ∈ g.edges, ¬ (e.src = e.dst) →
          e.src ∈ tp ++ [((xN : Nat) : Int)] →
          lget ((lget (buildOutEdges g) ((xN : Nat) : Int) []).foldl
            (fun rb ei =>
              let e := lget g.edges ei defaultSugiyamaEdge
              lset rb e.dst
                (max (lget rb e.dst 0)
                  (lget rb ((xN : Nat) : Int) 0 + e.minLen)))
            rb) e.dst 0
          ≥ lget ((lget (buildOutEdges g) ((xN : Nat) : Int) []).foldl
              (fun rb ei =>
                let e := lget g.edges ei defaultSugiyamaEdge
                lset rb e.dst
                  (max (lget rb e.dst 0)
                    (lget rb ((xN : Nat) : Int) 0 + e.minLen)))
              rb) e.src 0 + e.minLen := by
        intro e hemem hens hesrc
        rcases List.mem_append.mp hesrc with hin | hin
        · have hsrcstab : ∀ y ∈ lget (buildOutEdges g) ((xN : Nat) : Int) [],
              (lget g.edges y defaultSugiyamaEdge).dst ≠ e.src := by
            intro y hy hc
            obtain ⟨k, hkE, rfl, hns2, hsx2⟩ := hbs y hy
            have hkmem : g.edges.getD k defaultSugiyamaEdge ∈ g.edges := by
              rw [List.getD_eq_getElem g.edges defaultSugiyamaEdge hkE]
              exact g.edges.getElem_mem _
            rw [lget_eq_getD] at hc
            obtain ⟨l1, l2p, hsplit⟩ := List.append_of_mem hin
            have hsplit2 : topo = l1 ++ e.src
                :: (l2p ++ (((xN : Nat) : Int) :: rest')) := by
              rw [htopo, hsplit]
              simp
            have hsrcin := hTR l1 e.src _ hsplit2 _ hkmem hns2 hc
            have hxin : ((xN : Nat) : Int) ∈ tp := by
              rw [hsplit]
              rw [hsx2] at hsrcin
              exact List.mem_append_left _ hsrcin
            exact hdisj hxin (List.mem_cons_self _ _)
          rw [hoth1 e.src hsrcstab]
          calc lget rb e.src 0 + e.minLen
              ≤ lget rb e.dst 0 := hO2 e hemem hens hin
            _ ≤ _ := hmono1 e.dst
        · rw [List.mem_singleton] at hin
          obtain ⟨k, hkE, hke⟩ := List.getElem_of_mem hemem
          have hgd : g.edges.getD k defaultSugiyamaEdge = e := by
            rw [List.getD_eq_getElem g.edges defaultSugiyamaEdge hkE, hke]
          have hkin : ((k : Nat) : Int)
              ∈ lget (buildOutEdges g) ((xN : Nat) : Int) [] := by
            refine (bucket_mem_iff g hval xN hxN _).mpr
              ⟨k, hkE, rfl, ?_, ?_⟩
            · rw [hgd]
              exact hens
            · rw [hgd, ← hin]
          have := hrel1 _ hkin
          rw [lget_eq_getD g.edges k defaultSugiyamaEdge, hgd] at this
          rw [hin]
          exact this
      have hlast := ih (tp ++ [((xN : Nat) : Int)])
        (by rw [htopo]; simp)
        ((lget (buildOutEdges g) ((xN : Nat) : Int) []).foldl
          (fun rb ei =>
            let e := lget g.edges ei defaultSugiyamaEdge
            lset rb e.dst
              (max (lget rb e.dst 0)
                (lget rb ((xN : Nat) : Int) 0 + e.minLen)))
          rb) hlen1 hO2'
      rw [List.foldl_cons]
      refine ⟨hlast.1, ?_⟩
      intro e hemem hens hesrc
      refine hlast.2 e hemem hens ?_
      rw [List.append_assoc]
      simpa using hesrc

theorem forwardRanks_spec (g : SugiyamaGraph)
    (hval : ∀ e ∈ g.edges, edgeEndpointsValid g.nodes.length e)
    (cert : Int → Nat)
    (hcert : ∀ e ∈ g.edges, ¬ (e.src = e.dst) → cert e.src < cert e.dst) :
    (forwardRanks g (topoOrderOf g (buildOutEdges g))
      (buildOutEdges g)).length = g.nodes.length ∧
    ∀ e ∈ g.edges, ¬ (e.src = e.dst) →
      lget (forwardRanks g (topoOrderOf g (buildOutEdges g))
        (buildOutEdges g)) e.dst 0
      ≥ lget (forwardRanks g (topoOrderOf g (buildOutEdges g))
          (buildOutEdges g)) e.src 0 + e.minLen := by
  obtain ⟨hnd, hvalid, hcomp, hlen, hTR⟩ := topoOrder_spec g hval cert hcert
  have houter := forwardOuter_facts g hval (topoOrderOf g (buildOutEdges g))
    hnd hvalid hTR (topoOrderOf g (buildOutEdges g)) [] rfl
    (List.replicate g.nodes.length (0 : Int)) (by simp)
    (by intro e _ _ h; exact absurd h (List.not_mem_nil _))
  unfold forwardRanks
  refine ⟨houter.1, ?_⟩
  intro e hemem hens
  refine houter.2 e hemem hens ?_
  obtain ⟨hs0, hslt, _, _⟩ := hval e hemem
  have hsN : ((e.src.toNat : Nat) : Int) = e.src := Int.toNat_of_nonneg hs0
  rw [List.nil_append, ← hsN]
  exact hcomp e.src.toNat (by omega)

theorem lget_mem_or_default (xs : List α) (i : Int) (d : α) :
    lget xs i d ∈ xs ∨ lget xs i d = d := by
  by_cases h : 0 ≤ i ∧ i < (xs.length : Int)
  · exact Or.inl (lget_mem xs i d h.1 h.2)
  · exact Or.inr (lget_out xs i d h)

theorem fcInner_sound (g : SugiyamaGraph) :
    ∀ bs : List Int, ∀ acc : List ConstraintEdge,
    (∀ c ∈ acc, ∃ e ∈ g.edges, ¬ (e.src = e.dst) ∧
      c = ⟨e.src, e.dst, e.minLen, edgeHasFiniteMaxLen g e⟩) →
    ∀ c ∈ bs.foldl
      (fun acc ei =>
        let e := lget g.edges ei defaultSugiyamaEdge
        if e.src == e.dst then acc
        else acc ++ [⟨e.src, e.dst, e.minLen, edgeHasFiniteMaxLen g e⟩])
      acc,
    ∃ e ∈ g.edges, ¬ (e.src = e.dst) ∧
      c = ⟨e.src, e.dst, e.minLen, edgeHasFiniteMaxLen g e⟩ := by
  intro bs
  induction bs with
  | nil => intro acc hacc c hc; exact hacc c hc
  | cons y bs' ih =>
      intro acc hacc c hc
      rw [List.foldl_cons] at hc
      refine ih _ ?_ c hc
      dsimp only
      by_cases hself : ((lget g.edges y defaultSugiyamaEdge).src
          == (lget g.edges y defaultSugiyamaEdge).dst) = true
      · rw [if_pos hself]
        exact hacc
      · rw [if_neg hself]
        intro c2 hc2
        rcases List.mem_append.mp hc2 with hm | hm
        · exact hacc c2 hm
        · rw [List.mem_singleton] at hm
          have hne : ¬ ((lget g.edges y defaultSugiyamaEdge).src
              = (lget g.edges y defaultSugiyamaEdge).dst) := by
            intro h
            exact hself (beq_iff_eq.mpr h)
          rcases lget_mem_or_default g.edges y defaultSugiyamaEdge with
            hmem | hdef
          · exact ⟨lget g.edges y defaultSugiyamaEdge, hmem, hne, hm⟩
          · exfalso
            rw [hdef] at hne
            exact hne rfl

theorem forwardConstraints_sound (g : SugiyamaGraph) (topo : List Int)
    (out : List (List Int)) :
    ∀ c ∈ forwardConstraintsOf g topo out,
    ∃ e ∈ g.edges, ¬ (e.src = e.dst) ∧
      c = ⟨e.src, e.dst, e.minLen, edgeHasFiniteMaxLen g e⟩ := by
  unfold forwardConstraintsOf
  suffices h : ∀ ts : List Int, ∀ acc : List ConstraintEdge,
      (∀ c ∈ acc, ∃ e ∈ g.edges, ¬ (e.src = e.dst) ∧
        c = ⟨e.src, e.dst, e.minLen, edgeHasFiniteMaxLen g e⟩) →
      ∀ c ∈ ts.foldl
        (fun acc nodeIndex =>
          (lget out nodeIndex []).foldl
            (fun acc ei =>
              let e := lget g.edges ei defaultSugiyamaEdge
              if e.src == e.dst then acc
              else acc ++ [⟨e.src, e.dst, e.minLen, edgeHasFiniteMaxLen g e⟩])
            acc)
        acc,
      ∃ e ∈ g.edges, ¬ (e.src = e.dst) ∧
        c = ⟨e.src, e.dst, e.minLen, edgeHasFiniteMaxLen g e⟩ by
    exact h topo [] (by intro c hc; exact absurd hc (List.not_mem_nil _))
  intro ts
  induction ts with
  | nil => intro acc hacc c hc; exact hacc c hc
  | cons x ts' ih =>
      intro acc hacc c hc
      rw [List.foldl_cons] at hc
      exact ih _ (fcInner_sound g _ acc hacc) c hc

theorem fcInner_grow (g : SugiyamaGraph) :
    ∀ bs : List Int, ∀ acc : List ConstraintEdge, ∀ c ∈ acc,
    c ∈ bs.foldl
      (fun acc ei =>
        let e := lget g.edges ei defaultSugiyamaEdge
        if e.src == e.dst then acc
        else acc ++ [⟨e.src, e.dst, e.minLen, edgeHasFiniteMaxLen g e⟩])
      acc := by
  intro bs
  induction bs with
  | nil => intro acc c hc; exact hc
  | cons y bs' ih =>
      intro acc c hc
      rw [List.foldl_cons]
      refine ih _ c ?_
      dsimp only
      split
      · exact hc
      · exact List.mem_append_left _ hc

theorem fcInner_adds (g : SugiyamaGraph) :
    ∀ bs : List Int, ∀ acc : List ConstraintEdge, ∀ y ∈ bs,
    ¬ ((lget g.edges y defaultSugiyamaEdge).src
      = (lget g.edges y defaultSugiyamaEdge).dst) →
    (⟨(lget g.edges y defaultSugiyamaEdge).src,
      (lget g.edges y defaultSugiyamaEdge).dst,
      (lget g.edges y defaultSugiyamaEdge).minLen,
      edgeHasFiniteMaxLen g (lget g.edges y defaultSugiyamaEdge)⟩
        : ConstraintEdge)
      ∈ bs.foldl
        (fun acc ei =>
          let e := lget g.edges ei defaultSugiyamaEdge
          if e.src == e.dst then acc
          else acc ++ [⟨e.src, e.dst, e.minLen, edgeHasFiniteMaxLen g e⟩])
        acc := by
  intro bs
  induction bs with
  | nil => intro acc y hy; exact absurd hy (List.not_mem_nil _)
  | cons y0 bs' ih =>
      intro acc y hy hne
      rw [List.foldl_cons]
      rcases List.mem_cons.mp hy with rfl | hy2
      · dsimp only
        rw [if_neg (by
          intro hcon
          exact hne (beq_iff_eq.mp hcon))]
        exact fcInner_grow g bs' _ _ (List.mem_append_right _
          (List.mem_singleton_self _))
      · exact ih _ y hy2 hne

theorem fc_adds (g : SugiyamaGraph) (out : List (List Int)) :
    ∀ ts : List Int, ∀ acc : List ConstraintEdge, ∀ x ∈ ts,
    ∀ y ∈ lget out x [],
    ¬ ((lget g.edges y defaultSugiyamaEdge).src
      = (lget g.edges y defaultSugiyamaEdge).dst) →
    (⟨(lget g.edges y defaultSugiyamaEdge).src,
      (lget g.edges y defaultSugiyamaEdge).dst,
      (lget g.edges y defaultSugiyamaEdge).minLen,
      edgeHasFiniteMaxLen g (lget g.edges y defaultSugiyamaEdge)⟩
        : ConstraintEdge)
      ∈ ts.foldl
        (fun acc nodeIndex =>
          (lget out nodeIndex []).foldl
            (fun acc ei =>
              let e := lget g.edges ei defaultSugiyamaEdge
              if e.src == e.dst then acc
              else acc ++ [⟨e.src, e.dst, e.minLen, edgeHasFiniteMaxLen g e⟩])
            acc)
        acc := by
  intro ts
  induction ts with
  | nil => intro acc x hx; exact absurd hx (List.not_mem_nil _)
  | cons x0 ts' ih =>
      intro acc x hx y hy hne
      rw [List.foldl_cons]
      rcases List.mem_cons.mp hx with rfl | hx2
      · suffices h2 : ∀ acc2 : List ConstraintEdge,
            (⟨(lget g.edges y defaultSugiyamaEdge).src,
              (lget g.edges y defaultSugiyamaEdge).dst,
              (lget g.edges y defaultSugiyamaEdge).minLen,
              edgeHasFiniteMaxLen g (lget g.edges y defaultSugiyamaEdge)⟩
                : ConstraintEdge) ∈ acc2 →
            (⟨(lget g.edges y defaultSugiyamaEdge).src,
              (lget g.edges y defaultSugiyamaEdge).dst,
              (lget g.edges y defaultSugiyamaEdge).minLen,
              edgeHasFiniteMaxLen g (lget g.edges y defaultSugiyamaEdge)⟩
                : ConstraintEdge)
              ∈ ts'.foldl
                (fun acc nodeIndex =>
                  (lget out nodeIndex []).foldl
                    (fun acc ei =>
                      let e := lget g.edges ei defaultSugiyamaEdge
                      if e.src == e.dst then acc
                      else acc ++ [⟨e.src, e.dst, e.minLen,
                        edgeHasFiniteMaxLen g e⟩])
                    acc)
                acc2 by
          exact h2 _ (fcInner_adds g _ acc y hy hne)
        intro acc2 hmem2
        clear hy hne hx ih
        induction ts' generalizing acc2 with
        | nil => exact hmem2
        | cons z ts2 ih2 =>
            rw [List.foldl_cons]
            exact ih2 _ (fcInner_grow g _ _ _ hmem2)
      · exact ih _ x hx2 y hy hne

theorem tmapFindOrAddList_tmapAdd_self (m : List (Int × List Int)) (k : Int)
    (v : List Int) : tmapFindOrAddList (tmapAdd m k v) k = v := by
  unfold tmapFindOrAddList
  rw [tmapFind?_tmapAdd_self]
  rfl

theorem tmapFindOrAddList_tmapAdd_ne (m : List (Int × List Int)) (k s : Int)
    (v : List Int) (h : s ≠ k) :
    tmapFindOrAddList (tmapAdd m k v) s = tmapFindOrAddList m s := by
  unfold tmapFindOrAddList
  rw [tmapFind?_tmapAdd_ne m k s v h]

theorem tmapFindRefInt_tmapAdd_self (m : List (Int × Int)) (k v : Int) :
    tmapFindRefInt (tmapAdd m k v) k = v := by
  unfold tmapFindRefInt
  rw [tmapFind?_tmapAdd_self]
  rfl

theorem tmapFindRefInt_tmapAdd_ne (m : List (Int × Int)) (k s v : Int)
    (h : s ≠ k) : tmapFindRefInt (tmapAdd m k v) s = tmapFindRefInt m s := by
  unfold tmapFindRefInt
  rw [tmapFind?_tmapAdd_ne m k s v h]

theorem tmapContains_tmapAdd_elim {m : List (Int × β)} {k s : Int} {v : β}
    (h : tmapContains (tmapAdd m k v) s = true) (hne : s ≠ k) :
    tmapContains m s = true := by
  obtain ⟨w, hw⟩ := (tmapContains_iff _ _).mp h
  rcases tmapAdd_mem hw with hm | he
  · exact (tmapContains_iff _ _).mpr ⟨w, hm⟩
  · exfalso
    apply hne
    have := congrArg Prod.fst he
    simpa using this

theorem srcMaps_facts (cs : List ConstraintEdge) :
    (∀ c ∈ cs, c.bounded = true →
      c.dst ∈ tmapFindOrAddList (srcMapsOf cs).1 c.src) ∧
    (∀ s : Int, tmapContains (srcMapsOf cs).1 s = true →
      ∃ c ∈ cs, c.bounded = true ∧ c.src = s ∧
        tmapFindRefInt (srcMapsOf cs).2 s = c.weight) := by
  induction cs using List.reverseRecOn with
  | nil =>
      refine ⟨?_, ?_⟩
      · intro c hc; exact absurd hc (List.not_mem_nil _)
      · intro s hs
        exact absurd hs (Bool.false_ne_true)
  | append_singleton cs0 c0 ih =>
      obtain ⟨ih1, ih2⟩ := ih
      have hred : srcMapsOf (cs0 ++ [c0])
          = (if c0.bounded = false then srcMapsOf cs0
            else
              (tmapAdd (srcMapsOf cs0).1 c0.src
                (tmapFindOrAddList (srcMapsOf cs0).1 c0.src ++ [c0.dst]),
               tmapAdd (srcMapsOf cs0).2 c0.src c0.weight)) := by
        unfold srcMapsOf
        rw [List.foldl_append, List.foldl_cons, List.foldl_nil]
      by_cases hb0 : c0.bounded = false
      · rw [hred, if_pos hb0]
        refine ⟨?_, ?_⟩
        · intro c hc hcb
          rcases List.mem_append.mp hc with hm | hm
          · exact ih1 c hm hcb
          · rw [List.mem_singleton] at hm
            subst hm
            rw [hb0] at hcb
            exact absurd hcb (by simp)
        · intro s hs
          obtain ⟨c, hcm, h1, h2, h3⟩ := ih2 s hs
          exact ⟨c, List.mem_append_left _ hcm, h1, h2, h3⟩
      · rw [hred, if_neg hb0]
        have hb0t : c0.bounded = true := by
          cases hbb : c0.bounded
          · exact absurd hbb hb0
          · rfl
        refine ⟨?_, ?_⟩
        · intro c hc hcb
          by_cases hsrc : c.src = c0.src
          · rw [hsrc]
            dsimp only
            rw [tmapFindOrAddList_tmapAdd_self]
            rcases List.mem_append.mp hc with hm | hm
            · refine List.mem_append_left _ ?_
              rw [← hsrc]
              exact ih1 c hm hcb
            · rw [List.mem_singleton] at hm
              subst hm
              exact List.mem_append_right _ (List.mem_singleton_self _)
          · dsimp only
            rw [tmapFindOrAddList_tmapAdd_ne _ _ _ _ hsrc]
            rcases List.mem_append.mp hc with hm | hm
            · exact ih1 c hm hcb
            · rw [List.mem_singleton] at hm
              subst hm
              exact absurd rfl hsrc
        · intro s hs
          by_cases hsrc : s = c0.src
          · subst hsrc
            refine ⟨c0, List.mem_append_right _ (List.mem_singleton_self _),
              hb0t, rfl, ?_⟩
            dsimp only
            rw [tmapFindRefInt_tmapAdd_self]
          · dsimp only at hs
            have hs2 := tmapContains_tmapAdd_elim hs hsrc
            obtain ⟨c, hcm, h1, h2, h3⟩ := ih2 s hs2
            refine ⟨c, List.mem_append_left _ hcm, h1, h2, ?_⟩
            dsimp only
            rw [tmapFindRefInt_tmapAdd_ne _ _ _ _ hsrc]
            exact h3

theorem foldl_min_le_init (l : List Int) (f : Int → Int) :
    ∀ init : Int, l.foldl (fun m d => min m (f d)) init ≤ init := by
  induction l with
  | nil => intro init; exact le_refl _
  | cons d0 l' ih =>
      intro init
      rw [List.foldl_cons]
      exact le_trans (ih _) (min_le_left _ _)

theorem foldl_min_le_mem (l : List Int) (f : Int → Int) :
    ∀ init : Int, ∀ d ∈ l, l.foldl (fun m d => min m (f d)) init ≤ f d := by
  induction l with
  | nil => intro init d hd; exact absurd hd (List.not_mem_nil _)
  | cons d0 l' ih =>
      intro init d hd
      rw [List.foldl_cons]
      rcases List.mem_cons.mp hd with rfl | hd2
      · exact le_trans (foldl_min_le_init l' f _) (min_le_right _ _)
      · exact ih _ d hd2

theorem sweepFold_preserves (fc : List ConstraintEdge)
    (sd : List (Int × List Int)) (sc : List (Int × Int))
    (hcd : ∀ c ∈ fc, c.bounded = true → ¬ (c.src = c.dst))
    (hG2 : ∀ c ∈ fc, c.bounded = true →
      c.dst ∈ tmapFindOrAddList sd c.src)
    (hG4 : ∀ s : Int, tmapContains sd s = true →
      ∃ c ∈ fc, c.bounded = true ∧ c.src = s ∧
        tmapFindRefInt sc s = c.weight)
    (huni : ∀ c1 ∈ fc, ∀ c2 ∈ fc, c1.bounded = true → c2.bounded = true →
      c1.src = c2.src → c1.weight = c2.weight) :
    ∀ tr : List Int, ∀ st : List Int × Bool,
    (∀ c ∈ fc, c.bounded = true →
      lget st.1 c.dst 0 ≥ lget st.1 c.src 0 + c.weight) →
    (∀ c ∈ fc, c.bounded = true →
      lget (tr.foldl
        (fun (st : List Int × Bool) nodeIndex =>
          if ¬ tmapContains sd nodeIndex then st
          else
            let (rb, upd) := st
            let w := tmapFindRefInt sc nodeIndex
            let dsts := tmapFindOrAddList sd nodeIndex
            let m := dsts.foldl (fun m d => min m (lget rb d 0)) maxInt32
            let m2 := max (m - w) (lget rb nodeIndex 0)
            if m2 == lget rb nodeIndex 0 then (rb, upd)
            else (lset rb nodeIndex m2, true))
        st).1 c.dst 0
      ≥ lget (tr.foldl
          (fun (st : List Int × Bool) nodeIndex =>
            if ¬ tmapContains sd nodeIndex then st
            else
              let (rb, upd) := st
              let w := tmapFindRefInt sc nodeIndex
              let dsts := tmapFindOrAddList sd nodeIndex
              let m := dsts.foldl (fun m d => min m (lget rb d 0)) maxInt32
              let m2 := max (m - w) (lget rb nodeIndex 0)
              if m2 == lget rb nodeIndex 0 then (rb, upd)
              else (lset rb nodeIndex m2, true))
          st).1 c.src 0 + c.weight) := by
  intro tr
  induction tr with
  | nil => intro st hJ; exact hJ
  | cons x tr' ih =>
      intro st hJ
      obtain ⟨rb0, upd0⟩ := st
      dsimp only at hJ
      rw [List.foldl_cons]
      dsimp only
      by_cases hc : tmapContains sd x = true
      · rw [if_neg (not_not_intro hc)]
        by_cases hb : ((List.foldl (fun m d => min m (lget rb0 d 0)) maxInt32
            (tmapFindOrAddList sd x) - tmapFindRefInt sc x)
            ⊔ lget rb0 x 0 == lget rb0 x 0) = true
        · rw [if_pos hb]
          exact ih (rb0, upd0) hJ
        · rw [if_neg hb]
          refine ih _ ?_
          dsimp only
          intro c hcm hcb
          by_cases hv : 0 ≤ x ∧ x < (rb0.length : Int)
          · obtain ⟨c', hc'm, hc'b, hc'src, hc'w⟩ := hG4 x hc
            by_cases hsrc : c.src = x
            · have hweq : c.weight = tmapFindRefInt sc x := by
                rw [hc'w]
                exact huni c hcm c' hc'm hcb hc'b (by rw [hsrc, hc'src])
              have hdne : x ≠ c.dst := by
                intro h
                exact hcd c hcm hcb (by rw [hsrc, ← h])
              have hdmem : c.dst ∈ tmapFindOrAddList sd x := by
                rw [← hsrc]
                exact hG2 c hcm hcb
              have hmle : (List.foldl (fun m d => min m (lget rb0 d 0))
                  maxInt32 (tmapFindOrAddList sd x)) ≤ lget rb0 c.dst 0 :=
                foldl_min_le_mem _ _ _ c.dst hdmem
              rw [lget_lset_ne _ _ _ _ _ hdne, hsrc,
                lget_lset_self _ _ _ _ hv.1 hv.2]
              have hold := hJ c hcm hcb
              rw [hsrc] at hold
              rw [hweq]
              rw [← max_add_add_right, sub_add_cancel]
              rw [hweq] at hold
              exact max_le hmle hold
            · have hsne : x ≠ c.src := fun h => hsrc h.symm
              rw [lget_lset_ne _ _ _ _ _ hsne]
              by_cases hdst : c.dst = x
              · rw [hdst, lget_lset_self _ _ _ _ hv.1 hv.2]
                have hold := hJ c hcm hcb
                rw [hdst] at hold
                exact le_trans hold (le_max_right _ _)
              · rw [lget_lset_ne _ _ _ _ _ (fun h => hdst h.symm)]
                exact hJ c hcm hcb
          · rw [lset_out _ _ _ hv]
            exact hJ c hcm hcb
      · rw [if_pos (by simpa using hc)]
        exact ih (rb0, upd0) hJ

theorem backwardSweep_preserves (fc : List ConstraintEdge)
    (sd : List (Int × List Int)) (sc : List (Int × Int))
    (hcd : ∀ c ∈ fc, c.bounded = true → ¬ (c.src = c.dst))
    (hG2 : ∀ c ∈ fc, c.bounded = true →
      c.dst ∈ tmapFindOrAddList sd c.src)
    (hG4 : ∀ s : Int, tmapContains sd s = true →
      ∃ c ∈ fc, c.bounded = true ∧ c.src = s ∧
        tmapFindRefInt sc s = c.weight)
    (huni : ∀ c1 ∈ fc, ∀ c2 ∈ fc, c1.bounded = true → c2.bounded = true →
      c1.src = c2.src → c1.weight = c2.weight)
    (tr : List Int) (rb : List Int)
    (hJ : ∀ c ∈ fc, c.bounded = true →
      lget rb c.dst 0 ≥ lget rb c.src 0 + c.weight) :
    ∀ c ∈ fc, c.bounded = true →
      lget (backwardSweep tr sd sc rb).1 c.dst 0
        ≥ lget (backwardSweep tr sd sc rb).1 c.src 0 + c.weight := by
  exact sweepFold_preserves fc sd sc hcd hG2 hG4 huni tr (rb, false) hJ

theorem backwardPasses_preserves (fc : List ConstraintEdge)
    (sd : List (Int × List Int)) (sc : List (Int × Int))
    (hcd : ∀ c ∈ fc, c.bounded = true → ¬ (c.src = c.dst))
    (hG2 : ∀ c ∈ fc, c.bounded = true →
      c.dst ∈ tmapFindOrAddList sd c.src)
    (hG4 : ∀ s : Int, tmapContains sd s = true →
      ∃ c ∈ fc, c.bounded = true ∧ c.src = s ∧
        tmapFindRefInt sc s = c.weight)
    (huni : ∀ c1 ∈ fc, ∀ c2 ∈ fc, c1.bounded = true → c2.bounded = true →
      c1.src = c2.src → c1.weight = c2.weight)
    (topo : List Int) (rb : List Int)
    (hJ : ∀ c ∈ fc, c.bounded = true →
      lget rb c.dst 0 ≥ lget rb c.src 0 + c.weight) :
    ∀ c ∈ fc, c.bounded = true →
      lget (backwardPasses topo sd sc rb) c.dst 0
        ≥ lget (backwardPasses topo sd sc rb) c.src 0 + c.weight := by
  unfold backwardPasses
  suffices h : ∀ l : List Nat, ∀ rb2 : List Int,
      (∀ c ∈ fc, c.bounded = true →
        lget rb2 c.dst 0 ≥ lget rb2 c.src 0 + c.weight) →
      ∀ c ∈ fc, c.bounded = true →
        lget (l.foldl
          (fun rb _ => (backwardSweep topo.reverse sd sc rb).1) rb2) c.dst 0
        ≥ lget (l.foldl
            (fun rb _ => (backwardSweep topo.reverse sd sc rb).1) rb2)
            c.src 0 + c.weight by
    exact h (List.range 10) rb hJ
  intro l
  induction l with
  | nil => intro rb2 hJ2; exact hJ2
  | cons a l' ih =>
      intro rb2 hJ2
      rw [List.foldl_cons]
      exact ih _ (backwardSweep_preserves fc sd sc hcd hG2 hG4 huni
        topo.reverse rb2 hJ2)

theorem assignLayersRanks_simple (g : SugiyamaGraph)
    (h : graphUsesFiniteMaxLen g = false) :
    assignLayersRanks g
      = forwardRanks g (topoOrderOf g (buildOutEdges g))
          (buildOutEdges g) := by
  unfold assignLayersRanks
  dsimp only
  rw [if_neg (by rw [h]; exact Bool.false_ne_true)]

theorem assignLayersRanks_constrained (g : SugiyamaGraph)
    (h : graphUsesFiniteMaxLen g = true) :
    assignLayersRanks g
      = backwardPasses (topoOrderOf g (buildOutEdges g))
          (srcMapsOf (forwardConstraintsOf g
            (topoOrderOf g (buildOutEdges g)) (buildOutEdges g))).1
          (srcMapsOf (forwardConstraintsOf g
            (topoOrderOf g (buildOutEdges g)) (buildOutEdges g))).2
          (forwardRanks g (topoOrderOf g (buildOutEdges g))
            (buildOutEdges g)) := by
  unfold assignLayersRanks
  dsimp only
  rw [if_pos h]

theorem assignLayers_rank_eq (g : SugiyamaGraph) (w : Nat)
    (hw2 : w < g.nodes.length) :
    (lget (assignLayers g).1.nodes ((w : Nat) : Int)
      defaultSugiyamaNode).rank
      = lget (assignLayersRanks g) ((w : Nat) : Int) 0 := by
  unfold assignLayers
  rw [if_neg (by
    intro hc
    rw [beq_iff_eq] at hc
    omega)]
  dsimp only
  rw [lget_eq_getD, List.getD_eq_getElem _ _ (by
    rw [List.length_map, List.length_range]
    omega)]
  simp only [List.getElem_map, List.getElem_range]

/-- C2 (amended): with valid edge endpoints, an edge-respecting potential
(the graph reaching `AssignLayers` is a DAG), and per-source-uniform min
lengths on the MaxLen-bounded edges (which `UpdateEdgeMinLengths`
guarantees, as the resolved min length depends only on the source node):
in simple mode every non-self-loop edge satisfies
`rank[dst] ≥ rank[src] + minLen` after layer assignment; in constrained
mode the same holds after the forward longest-path pass, and the ten
backward max-rank-gap tightening sweeps preserve it for every
MaxLen-bounded edge.  (The sweeps can break the inequality for an
unbounded edge whose source also has bounded out-edges; see
`c2_counterexample`.) -/
theorem c2_amended (g : SugiyamaGraph) (cert : Int → Nat)
    (hval : ∀ e ∈ g.edges, edgeEndpointsValid g.nodes.length e)
    (hcert : ∀ e ∈ g.edges, ¬ (e.src = e.dst) → cert e.src < cert e.dst)
    (hw : ∀ e1 ∈ g.edges, ∀ e2 ∈ g.edges,
      ¬ (e1.src = e1.dst) → ¬ (e2.src = e2.dst) →
      edgeHasFiniteMaxLen g e1 = true → edgeHasFiniteMaxLen g e2 = true →
      e1.src = e2.src → e1.minLen = e2.minLen) :
    (∀ e ∈ g.edges, ¬ (e.src = e.dst) →
      lget (forwardRanks g (topoOrderOf g (buildOutEdges g))
        (buildOutEdges g)) e.dst 0
      ≥ lget (forwardRanks g (topoOrderOf g (buildOutEdges g))
          (buildOutEdges g)) e.src 0 + e.minLen) ∧
    (graphUsesFiniteMaxLen g = false →
      ∀ e ∈ g.edges, ¬ (e.src = e.dst) →
        (lget (assignLayers g).1.nodes e.dst defaultSugiyamaNode).rank
        ≥ (lget (assignLayers g).1.nodes e.src defaultSugiyamaNode).rank
          + e.minLen) ∧
    (∀ e ∈ g.edges, ¬ (e.src = e.dst) → edgeHasFiniteMaxLen g e = true →
      (lget (assignLayers g).1.nodes e.dst defaultSugiyamaNode).rank
      ≥ (lget (assignLayers g).1.nodes e.src defaultSugiyamaNode).rank
        + e.minLen) := by
  obtain ⟨hflen, hfwd⟩ := forwardRanks_spec g hval cert hcert
  have hrank : ∀ e ∈ g.edges,
      (lget (assignLayers g).1.nodes e.dst defaultSugiyamaNode).rank
        = lget (assignLayersRanks g) e.dst 0 ∧
      (lget (assignLayers g).1.nodes e.src defaultSugiyamaNode).rank
        = lget (assignLayersRanks g) e.src 0 := by
    intro e hemem
    obtain ⟨hs0, hslt, hd0, hdlt⟩ := hval e hemem
    have hsN : ((e.src.toNat : Nat) : Int) = e.src := Int.toNat_of_nonneg hs0
    have hdN : ((e.dst.toNat : Nat) : Int) = e.dst := Int.toNat_of_nonneg hd0
    constructor
    · rw [← hdN]
      exact assignLayers_rank_eq g e.dst.toNat (by omega)
    · rw [← hsN]
      exact assignLayers_rank_eq g e.src.toNat (by omega)
  have hranks_ineq : ∀ e ∈ g.edges,
      lget (assignLayersRanks g) e.dst 0
        ≥ lget (assignLayersRanks g) e.src 0 + e.minLen →
      (lget (assignLayers g).1.nodes e.dst defaultSugiyamaNode).rank
      ≥ (lget (assignLayers g).1.nodes e.src defaultSugiyamaNode).rank
        + e.minLen := by
    intro e hemem hineq
    obtain ⟨h1, h2⟩ := hrank e hemem
    rw [h1, h2]
    exact hineq
  refine ⟨hfwd, ?_, ?_⟩
  · intro hfalse e hemem hens
    refine hranks_ineq e hemem ?_
    rw [assignLayersRanks_simple g hfalse]
    exact hfwd e hemem hens
  · intro e hemem hens hbnd
    refine hranks_ineq e hemem ?_
    by_cases hmode : graphUsesFiniteMaxLen g = true
    · rw [assignLayersRanks_constrained g hmode]
      have hsound := forwardConstraints_sound g
        (topoOrderOf g (buildOutEdges g)) (buildOutEdges g)
      obtain ⟨hG2, hG4⟩ := srcMaps_facts (forwardConstraintsOf g
        (topoOrderOf g (buildOutEdges g)) (buildOutEdges g))
      have hcd : ∀ c ∈ forwardConstraintsOf g
          (topoOrderOf g (buildOutEdges g)) (buildOutEdges g),
          c.bounded = true → ¬ (c.src = c.dst) := by
        intro c hcm _
        obtain ⟨e2, _, hens2, rfl⟩ := hsound c hcm
        exact hens2
      have huni : ∀ c1 ∈ forwardConstraintsOf g
          (topoOrderOf g (buildOutEdges g)) (buildOutEdges g),
          ∀ c2 ∈ forwardConstraintsOf g
            (topoOrderOf g (buildOutEdges g)) (buildOutEdges g),
          c1.bounded = true → c2.bounded = true → c1.src = c2.src →
          c1.weight = c2.weight := by
        intro c1 hc1m c2 hc2m hb1 hb2 hss
        obtain ⟨e1, he1m, hens1, rfl⟩ := hsound c1 hc1m
        obtain ⟨e2, he2m, hens2, rfl⟩ := hsound c2 hc2m
        exact hw e1 he1m e2 he2m hens1 hens2 hb1 hb2 hss
      have hJ0 : ∀ c ∈ forwardConstraintsOf g
          (topoOrderOf g (buildOutEdges g)) (buildOutEdges g),
          c.bounded = true →
          lget (forwardRanks g (topoOrderOf g (buildOutEdges g))
            (buildOutEdges g)) c.dst 0
          ≥ lget (forwardRanks g (topoOrderOf g (buildOutEdges g))
              (buildOutEdges g)) c.src 0 + c.weight := by
        intro c hcm _
        obtain ⟨e2, he2m, hens2, rfl⟩ := hsound c hcm
        exact hfwd e2 he2m hens2
      have hJF := backwardPasses_preserves _ _ _ hcd hG2 hG4 huni
        (topoOrderOf g (buildOutEdges g))
        (forwardRanks g (topoOrderOf g (buildOutEdges g))
          (buildOutEdges g)) hJ0
      obtain ⟨hs0, hslt, hd0, hdlt⟩ := hval e hemem
      have hsN : ((e.src.toNat : Nat) : Int) = e.src :=
        Int.toNat_of_nonneg hs0
      obtain ⟨_, _, hcomp, _, _⟩ := topoOrder_spec g hval cert hcert
      obtain ⟨k, hkE, hke⟩ := List.getElem_of_mem hemem
      have hgd : g.edges.getD k defaultSugiyamaEdge = e := by
        rw [List.getD_eq_getElem g.edges defaultSugiyamaEdge hkE, hke]
      have hkin : ((k : Nat) : Int)
          ∈ lget (buildOutEdges g) ((e.src.toNat : Nat) : Int) [] := by
        refine (bucket_mem_iff g hval e.src.toNat (by omega) _).mpr
          ⟨k, hkE, rfl, ?_, ?_⟩
        · rw [hgd]
          exact hens
        · rw [hgd, hsN]
      have hlgk : lget g.edges ((k : Nat) : Int) defaultSugiyamaEdge = e := by
        rw [lget_eq_getD]
        exact hgd
      have hcin := fc_adds g (buildOutEdges g)
        (topoOrderOf g (buildOutEdges g)) []
        ((e.src.toNat : Nat) : Int)
        (by rw [hsN]; rw [← hsN]; exact hcomp e.src.toNat (by omega))
        ((k : Nat) : Int) hkin
        (by rw [hlgk]; exact hens)
      rw [hlgk] at hcin
      have := hJF _ hcin hbnd
      exact this
    · have hfalse : graphUsesFiniteMaxLen g = false := by
        cases hgb : graphUsesFiniteMaxLen g
        · rfl
        · exact absurd hgb hmode
      rw [assignLayersRanks_simple g hfalse]
      exact hfwd e hemem hens

/-- Witness for `c2_amended` at the concrete DAG `c2Graph` with the
potential `c2Cert`: all three hypotheses hold by computation, and the
theorem yields the forward-pass and preservation guarantees. -/
theorem c2_amended_witness :
    ((∀ e ∈ c2Graph.edges, edgeEndpointsValid c2Graph.nodes.length e) ∧
     (∀ e ∈ c2Graph.edges, ¬ (e.src = e.dst) →
        c2Cert e.src < c2Cert e.dst) ∧
     (∀ e1 ∈ c2Graph.edges, ∀ e2 ∈ c2Graph.edges,
        ¬ (e1.src = e1.dst) → ¬ (e2.src = e2.dst) →
        edgeHasFiniteMaxLen c2Graph e1 = true →
        edgeHasFiniteMaxLen c2Graph e2 = true →
        e1.src = e2.src → e1.minLen = e2.minLen)) ∧
    ((∀ e ∈ c2Graph.edges, ¬ (e.src = e.dst) →
      lget (forwardRanks c2Graph (topoOrderOf c2Graph
        (buildOutEdges c2Graph)) (buildOutEdges c2Graph)) e.dst 0
      ≥ lget (forwardRanks c2Graph (topoOrderOf c2Graph
          (buildOutEdges c2Graph)) (buildOutEdges c2Graph)) e.src 0
        + e.minLen) ∧
    (graphUsesFiniteMaxLen c2Graph = false →
      ∀ e ∈ c2Graph.edges, ¬ (e.src = e.dst) →
        (lget (assignLayers c2Graph).1.nodes e.dst
          defaultSugiyamaNode).rank
        ≥ (lget (assignLayers c2Graph).1.nodes e.src
            defaultSugiyamaNode).rank + e.minLen) ∧
    (∀ e ∈ c2Graph.edges, ¬ (e.src = e.dst) →
      edgeHasFiniteMaxLen c2Graph e = true →
      (lget (assignLayers c2Graph).1.nodes e.dst
        defaultSugiyamaNode).rank
      ≥ (lget (assignLayers c2Graph).1.nodes e.src
          defaultSugiyamaNode).rank + e.minLen)) :=
  ⟨⟨by decide, by decide, by decide⟩,
   c2_amended c2Graph c2Cert (by decide) (by decide) (by decide)⟩
